import Mathlib

/-!
# Open Ethereum Pool (Metaverse fork): share processing, block unlocking, rewards

A shallow embedding of the Go sources `proxy/blocks.go`, `proxy/miner.go`,
`proxy/handlers.go`, `payouts/unlocker.go`, `rpc/rpc.go` and `util/util.go`,
followed by theorems about the embedded functions.

Conventions of the embedding.

* Go strings are `String`s, processed as lists of characters.
* `int64`/`int` values are `Int`s; where Go arithmetic can wrap, the wrap is
  written out with `wrapInt64`.
* `*big.Int` is `Int` (`Option Int` where the pointer may be nil);
  `*big.Rat` is the fraction type `Frac`.
* `float64` values that occur (all finite) are kept as exact dyadic
  fractions; every float operation rounds with `f64round`.
* A Go panic is the result `none`; upstream and store calls are oracles
  passed as arguments, and the calls made are recorded in a trace.
-/

namespace Pool

/-! ## Machine integers -/

/-- Largest `uint64`. -/
def maxUint64 : Nat := 18446744073709551615

/-- Largest `int64`. -/
def maxInt64 : Int := 9223372036854775807

/-- Smallest `int64`. -/
def minInt64 : Int := -9223372036854775808

/-- Two's-complement reduction of an integer to `int64`. -/
def wrapInt64 (x : Int) : Int :=
  (x + 9223372036854775808) % 18446744073709551616 - 9223372036854775808

/-- Saturation of an integer to the `int64` range. -/
def clampInt64 (x : Int) : Int :=
  if x > maxInt64 then maxInt64 else if x < minInt64 then minInt64 else x

/-! ## `strings` and `strconv` -/

/-- One step of `strings.EqualFold` on a pair of runes. `uni lo hi` stands for
the general case of the Go loop over `unicode.SimpleFold` (the fold orbit of
`lo` reaches the non-ASCII rune `hi`); the Unicode table is a parameter. -/
def foldPair (uni : Char → Char → Bool) (a b : Char) : Bool :=
  if a = b then true
  else
    let lo := if b.toNat < a.toNat then b else a
    let hi := if b.toNat < a.toNat then a else b
    if hi.toNat < 128 then
      decide (65 ≤ lo.toNat ∧ lo.toNat ≤ 90 ∧ hi.toNat = lo.toNat + 32)
    else uni lo hi

/-- Rune-wise `strings.EqualFold`. -/
def equalFoldChars (uni : Char → Char → Bool) : List Char → List Char → Bool
  | [], [] => true
  | a :: s, b :: t => foldPair uni a b && equalFoldChars uni s t
  | _, _ => false

/-- Go `strings.EqualFold(s, t)`. -/
def equalFold (uni : Char → Char → Bool) (s t : String) : Bool :=
  equalFoldChars uni s.data t.data

/-- Removal of every non-overlapping occurrence of `0x`, left to right. -/
def strip0xChars : List Char → List Char
  | [] => []
  | [c] => [c]
  | c :: d :: rest =>
    if c = '0' ∧ d = 'x' then strip0xChars rest else c :: strip0xChars (d :: rest)

/-- Go `strings.Replace(s, "0x", "", -1)`. -/
def strip0x (s : String) : String := ⟨strip0xChars s.data⟩

/-- The error kinds of `strconv.NumError`. -/
inductive NumErr where
  | syntaxErr
  | rangeErr
  deriving DecidableEq, Repr

/-- Value of a byte as a digit in `strconv.ParseUint`: `0-9`, then letters of
either case as 10..35. -/
def digitVal (c : Char) : Option Nat :=
  if 48 ≤ c.toNat ∧ c.toNat ≤ 57 then some (c.toNat - 48)
  else if 97 ≤ c.toNat ∧ c.toNat ≤ 122 then some (c.toNat - 97 + 10)
  else if 65 ≤ c.toNat ∧ c.toNat ≤ 90 then some (c.toNat - 65 + 10)
  else none

/-- The digit loop of `strconv.ParseUint(s, base, 64)` for `2 ≤ base ≤ 36`. -/
def parseUintLoop (base : Nat) : List Char → Nat → Nat × Option NumErr
  | [], n => (n, none)
  | c :: cs, n =>
    match digitVal c with
    | none => (0, some NumErr.syntaxErr)
    | some d =>
      if d ≥ base then (0, some NumErr.syntaxErr)
      else if n ≥ maxUint64 / base + 1 then (maxUint64, some NumErr.rangeErr)
      else if n * base + d > maxUint64 then (maxUint64, some NumErr.rangeErr)
      else parseUintLoop base cs (n * base + d)

/-- Go `strconv.ParseUint(s, base, 64)` for `2 ≤ base ≤ 36`: value and error. -/
def parseUintChars (base : Nat) (s : List Char) : Nat × Option NumErr :=
  match s with
  | [] => (0, some NumErr.syntaxErr)
  | _ => parseUintLoop base s 0

/-- Go `strconv.ParseInt(s, base, 64)` for `2 ≤ base ≤ 36`: value and error. -/
def parseIntChars (base : Nat) (s : List Char) : Int × Option NumErr :=
  match s with
  | [] => (0, some NumErr.syntaxErr)
  | c :: cs =>
    let neg : Bool := decide (c = '-')
    let body : List Char := if c = '+' ∨ c = '-' then cs else c :: cs
    match parseUintChars base body with
    | (_, some NumErr.syntaxErr) => (0, some NumErr.syntaxErr)
    | (un, _) =>
      if neg = false ∧ un ≥ 9223372036854775808 then (maxInt64, some NumErr.rangeErr)
      else if neg = true ∧ un > 9223372036854775808 then (minInt64, some NumErr.rangeErr)
      else if neg then (wrapInt64 (-(wrapInt64 (un : Int))), none)
      else (wrapInt64 (un : Int), none)

/-- Go `strconv.ParseUint(s, base, 64)` on a string. -/
def parseUint (base : Nat) (s : String) : Nat × Option NumErr :=
  parseUintChars base s.data

/-- Go `strconv.ParseInt(s, base, 64)` on a string. -/
def parseInt (base : Nat) (s : String) : Int × Option NumErr :=
  parseIntChars base s.data

/-! ## `rpc/rpc.go`: client health -/

/-- The health fields of `RPCClient`. -/
structure RPCClient where
  sick : Bool
  sickRate : Int
  successRate : Int
  deriving DecidableEq, Repr

/-- A freshly created client (`NewRPCClient`): zero values. -/
def RPCClient.init : RPCClient := { sick := false, sickRate := 0, successRate := 0 }

/-- Go `(*RPCClient).markSick`. -/
def RPCClient.markSick (r : RPCClient) : RPCClient :=
  let r1 := { r with sickRate := wrapInt64 (r.sickRate + 1) }
  let r2 := { r1 with successRate := 0 }
  if r2.sickRate ≥ 5 then { r2 with sick := true } else r2

/-- Go `(*RPCClient).markAlive`. -/
def RPCClient.markAlive (r : RPCClient) : RPCClient :=
  let r1 := { r with successRate := wrapInt64 (r.successRate + 1) }
  if r1.successRate ≥ 5 then { r1 with sick := false, sickRate := 0, successRate := 0 } else r1

/-- Go `(*RPCClient).Sick`. -/
def RPCClient.Sick (r : RPCClient) : Bool := r.sick

/-- The reply type `ValidateAddress`. -/
structure ValidateAddress where
  IsValid : Bool
  TestNet : Bool
  deriving DecidableEq, Repr

/-- Go `(*ValidateAddress).Valid`; the receiver is a pointer, and a nil
receiver panics on the field read. -/
def ValidateAddress.Valid : Option ValidateAddress → Option Bool
  | none => none
  | some r => some (r.IsValid == true && r.TestNet == false)

/-- The decimal digits of `n`, most significant first, pushed in front of
`acc` (the digit loop of Go's `utoa`); `fuel` bounds the number of digits. -/
def utoaAux : Nat → Nat → List Char → List Char
  | 0, _, acc => acc
  | f + 1, n, acc =>
    if n < 10 then Char.ofNat (48 + n) :: acc
    else utoaAux f (n / 10) (Char.ofNat (48 + n % 10) :: acc)

/-- Decimal rendering of a natural number. -/
def utoa (n : Nat) : List Char := utoaAux (n + 1) n []

/-! ## `math/big`: rationals -/

/-- A `*big.Rat` value: numerator over a positive denominator. Go keeps the
fraction in lowest terms; every operation used here depends on the value
only, so the fraction is not reduced. -/
structure Frac where
  num : Int
  den : Nat
  deriving DecidableEq, Repr

namespace Frac

/-- The rational number denoted by a fraction. -/
def toRat (x : Frac) : ℚ := (x.num : ℚ) / (x.den : ℚ)

/-- Go `new(big.Rat).SetInt(a)`. -/
def ofInt (a : Int) : Frac := ⟨a, 1⟩

/-- Go `new(big.Rat).Mul(x, y)`. -/
def mul (x y : Frac) : Frac := ⟨x.num * y.num, x.den * y.den⟩

/-- Go `new(big.Rat).Sub(x, y)`. -/
def sub (x y : Frac) : Frac := ⟨x.num * y.den - y.num * x.den, x.den * y.den⟩

/-- Go `new(big.Rat).Add(x, y)`. -/
def add (x y : Frac) : Frac := ⟨x.num * y.den + y.num * x.den, x.den * y.den⟩

/-- Go `(*big.Rat).FloatString(0)`: the integer nearest to `x`, halves away
from zero, in decimal, with a minus sign when `x` is negative. -/
def FloatString0 (x : Frac) : List Char :=
  let q := x.num.natAbs / x.den
  let r := x.num.natAbs % x.den
  let q1 := if x.den ≤ 2 * r then q + 1 else q
  (if x.num < 0 then ['-'] else []) ++ utoa q1

end Frac

/-- Go `big.NewRat(a, b)`; panics on a zero denominator. -/
def newRat (a b : Int) : Option Frac :=
  if b = 0 then none
  else if b < 0 then some ⟨-a, (-b).toNat⟩
  else some ⟨a, b.toNat⟩

/-- The pattern `strconv.ParseInt(x.FloatString(0), 10, 64)` with the error
dropped, used to turn a rational amount into an `int64`. -/
def ratToInt64 (x : Frac) : Int := (parseIntChars 10 x.FloatString0).1

/-! ## `float64` arithmetic (IEEE 754 binary64, round to nearest even) -/

/-- Number of binary digits of `n`, by halving; `fuel` bounds the count. -/
def bitLenAux : Nat → Nat → Nat
  | 0, _ => 0
  | f + 1, n => if n = 0 then 0 else bitLenAux f (n / 2) + 1

/-- Number of binary digits of `n` (0 for 0). -/
def bitLen (n : Nat) : Nat := bitLenAux n n

/-- The integer `⌊log2 (n / d)⌋` for positive `n`, `d`. -/
def ilog2 (n d : Nat) : Int :=
  let l : Int := (bitLen n : Int) - (bitLen d : Int)
  let ge : Bool :=
    if 0 ≤ l then decide (d * 2 ^ l.toNat ≤ n) else decide (d ≤ n * 2 ^ (-l).toNat)
  if ge then l else l - 1

/-- The binary64 value nearest to the positive rational `n / d`, ties to the
even significand, with gradual underflow below `2^-1022`. No operation of
this program can exceed the largest finite value, so overflow is absent. -/
def f64roundPos (n d : Nat) : Frac :=
  let e : Int := max (ilog2 n d - 52) (-1074)
  let nn : Nat := if e ≤ 0 then n * 2 ^ (-e).toNat else n
  let dd : Nat := if e ≤ 0 then d else d * 2 ^ e.toNat
  let q := nn / dd
  let r := nn % dd
  let m : Nat := if dd < 2 * r ∨ (2 * r = dd ∧ q % 2 = 1) then q + 1 else q
  if e ≤ 0 then ⟨(m : Int), 2 ^ (-e).toNat⟩ else ⟨(m : Int) * 2 ^ e.toNat, 1⟩

/-- Rounding of an exact rational result to binary64. -/
def f64round (x : Frac) : Frac :=
  if x.num = 0 then ⟨0, 1⟩
  else if 0 < x.num then f64roundPos x.num.natAbs x.den
  else
    let y := f64roundPos x.num.natAbs x.den
    ⟨-y.num, y.den⟩

/-- Go conversion `float64(u)` of an unsigned integer. -/
def f64ofNat (u : Nat) : Frac := f64round ⟨(u : Int), 1⟩

/-- Go `a * b` on `float64`. -/
def f64mul (a b : Frac) : Frac := f64round (a.mul b)

/-- Go `a + b` on `float64`. -/
def f64add (a b : Frac) : Frac := f64round (a.add b)

/-- Go `a / b` on `float64`, for a nonzero divisor. -/
def f64div (a b : Frac) : Frac :=
  if 0 < b.num then f64round ⟨a.num * (b.den : Int), a.den * b.num.natAbs⟩
  else f64round ⟨-(a.num * (b.den : Int)), a.den * b.num.natAbs⟩

/-- Go `math.Floor` on a finite value (exact). -/
def f64floor (x : Frac) : Frac := ⟨x.num / (x.den : Int), 1⟩

/-- Go conversion `int64(f)` of a finite value in range: truncation toward
zero. -/
def f64toInt64 (x : Frac) : Int := Int.tdiv x.num (x.den : Int)

/-- Comparison `a < b` of two values. -/
def Frac.lt (a b : Frac) : Bool := decide (a.num * (b.den : Int) < b.num * (a.den : Int))

/-- The float constant `0.95`. -/
def c095 : Frac := f64round ⟨95, 100⟩

/-- The loop state of `math.Pow`: the answer is `a1 * 2^ae`, the running
square is `x1 * 2^xe`. -/
structure PowState where
  a1 : Frac
  ae : Int
  x1 : Frac
  xe : Int
  deriving DecidableEq, Repr

/-- The squaring loop of Go's portable `math.Pow` over the bits of `i`. -/
def powLoop : Nat → Nat → PowState → PowState
  | 0, _, st => st
  | f + 1, i, st =>
    if i = 0 then st
    else if st.xe < -4096 ∨ 4096 < st.xe then { st with ae := st.ae + st.xe }
    else
      let st1 : PowState :=
        if i % 2 = 1 then { st with a1 := f64mul st.a1 st.x1, ae := st.ae + st.xe } else st
      let x2 := f64mul st1.x1 st1.x1
      let xe2 := 2 * st1.xe
      let st2 : PowState :=
        if x2.lt ⟨1, 2⟩ then { st1 with x1 := f64add x2 x2, xe := xe2 - 1 }
        else { st1 with x1 := x2, xe := xe2 }
      powLoop f (i / 2) st2

/-- Go `math.Ldexp(frac, exp)` for a positive finite `frac`: zero when the
result lies below half the smallest subnormal, else the rounded product. -/
def f64ldexp (a : Frac) (ae : Int) : Frac :=
  if ilog2 a.num.natAbs a.den + ae < -1075 then ⟨0, 1⟩
  else if 0 ≤ ae then f64round ⟨a.num * 2 ^ ae.toNat, a.den⟩
  else f64round ⟨a.num, a.den * 2 ^ (-ae).toNat⟩

/-- Go `math.Pow(0.95, y)` for a finite `y` that is a nonnegative whole
number (the portable implementation; `Frexp(0.95) = (0.95, 0)`). -/
def pow095 (y : Frac) : Frac :=
  let yi : Nat := (y.num / (y.den : Int)).toNat
  if yi = 0 then ⟨1, 1⟩
  else if yi = 1 then c095
  else if 9223372036854775808 ≤ yi then ⟨0, 1⟩
  else
    let st := powLoop 64 yi { a1 := ⟨1, 1⟩, ae := 0, x1 := c095, xe := 0 }
    f64ldexp st.a1 st.ae

/-- The subsidy expression of `handleBlock`:
`int64(300000000 * math.Pow(0.95, math.Floor(float64(number*1.0)/500000)))`. -/
def blockSubsidy (number : Nat) : Int :=
  f64toInt64 (f64mul ⟨300000000, 1⟩
    (pow095 (f64floor (f64div (f64ofNat number) ⟨500000, 1⟩))))

/-! ## `util/util.go` -/

/-- Character class `[0-9]`. -/
def isDigitChar (c : Char) : Bool := decide (48 ≤ c.toNat ∧ c.toNat ≤ 57)

/-- Character class `[A-Z]`. -/
def isUpperChar (c : Char) : Bool := decide (65 ≤ c.toNat ∧ c.toNat ≤ 90)

/-- Character class `[a-z]`. -/
def isLowerChar (c : Char) : Bool := decide (97 ≤ c.toNat ∧ c.toNat ≤ 122)

/-- Match of `addressPattern`, `^M[A-Z0-9]{1}[0-9a-zA-Z]{32}$`. -/
def addressPatternMatch : List Char → Bool
  | m :: c :: rest =>
    decide (m = 'M') && (isUpperChar c || isDigitChar c) && decide (rest.length = 32)
      && rest.all (fun a => isDigitChar a || isLowerChar a || isUpperChar a)
  | _ => false

/-- Go `util.IsValidHexAddress`. -/
def IsValidHexAddress (s : String) : Bool :=
  if !addressPatternMatch s.data then false else true

/-! ## Reply and record types -/

/-- An error value returned by an upstream or store call. -/
structure Err where
  msg : String
  deriving DecidableEq, Repr

/-- The type `rpc.MVSTxOutput`. -/
structure MVSTxOutput where
  Address : String
  Value : Int
  deriving DecidableEq, Repr

/-- The type `rpc.MVSTx` (fields read by the pool). -/
structure MVSTx where
  Hash : String
  Outputs : List MVSTxOutput
  deriving DecidableEq, Repr

/-- The type `rpc.GetBlockReply` (fields read by the pool). -/
structure GetBlockReply where
  Difficulty : String
  Hash : String
  Nonce : String
  Number : Nat
  Transactions : List MVSTx
  deriving DecidableEq, Repr

/-- Modelled from the spec: the record `storage.BlockData` (the storage package
is not part of the sources), with the fields the unlocker reads and writes. -/
structure BlockData where
  Height : Int
  RoundHeight : Int
  Nonce : String
  Hash : String
  Reward : Option Int
  ExtraReward : Option Int
  TotalShares : Int
  Orphan : Bool
  deriving DecidableEq, Repr

/-- The type `payouts.UnlockerConfig`; `PoolFee` is a finite `float64`. -/
structure UnlockerConfig where
  Enabled : Bool
  PoolFee : Frac
  Donate : Bool
  Depth : Int
  ImmatureDepth : Int
  KeepTxFees : Bool
  Interval : String
  Daemon : String
  Timeout : String
  Account : String
  Password : String
  Address : String
  PoolFeeAddress : String
  deriving DecidableEq, Repr

/-- The constant `minDepth`. -/
def minDepth : Int := 16

/-- The state fields of `payouts.BlockUnlocker`. -/
structure BlockUnlocker where
  config : UnlockerConfig
  halt : Bool
  lastFail : Option Err
  deriving DecidableEq, Repr

/-- Outcome of a constructor that may end the process. -/
inductive Startup where
  | created (u : BlockUnlocker)
  | fatal (msg : String)
  | panicked
  deriving DecidableEq, Repr

/-- Go `payouts.NewBlockUnlocker`. `log.Fatalf`/`log.Fatalln` end the process;
`parseDuration` tells whether `time.ParseDuration` accepts the timeout, which
`rpc.NewRPCClient` requires through `util.MustParseDuration`. -/
def NewBlockUnlocker (parseDuration : String → Bool) (cfg : UnlockerConfig) : Startup :=
  if cfg.Depth < minDepth * 2 then Startup.fatal "Block maturity depth can't be < 32"
  else if cfg.ImmatureDepth < minDepth then Startup.fatal "Immature depth can't be < 16"
  else if cfg.PoolFeeAddress.length ≠ 0 ∧ IsValidHexAddress cfg.PoolFeeAddress = false then
    Startup.fatal "Invalid poolFeeAddress"
  else if cfg.PoolFeeAddress.length < 1 then Startup.fatal "poolFeeAddress not set in config"
  else if parseDuration cfg.Timeout = false then Startup.panicked
  else Startup.created { config := cfg, halt := false, lastFail := none }

/-! ## `payouts/unlocker.go`: identity check and block handling -/

/-- Go `(*BlockUnlocker).matchCandidate`. -/
def matchCandidate (uni : Char → Char → Bool) (cfg : UnlockerConfig)
    (block : GetBlockReply) (candidate : BlockData) : Bool :=
  let wrongAddress : Bool :=
    match block.Transactions with
    | [] => false
    | tx :: _ =>
      match tx.Outputs with
      | [] => false
      | out :: _ => out.Address != cfg.Address
  if wrongAddress then false
  else if decide (candidate.Hash.length > 0) && !equalFold uni candidate.Hash block.Hash then false
  else
    let nonce1 := (parseInt 10 block.Nonce).1
    let nonce2 := (parseInt 16 (strip0x candidate.Nonce)).1
    nonce1 == nonce2

/-- Go `(*BlockUnlocker).getExtraRewardForTx`; `getBlockTxs` is the upstream
call `GetBlockTxs`. The outer `none` is a panic (nil reply or missing coinbase
output). -/
def getExtraRewardForTx (getBlockTxs : Nat → Option GetBlockReply × Option Err)
    (height : Nat) (reward : Int) : Option (Option Int × Option Err) :=
  match getBlockTxs height with
  | (_, some err) => some (none, some err)
  | (none, none) => none
  | (some blockTxs, none) =>
    match blockTxs.Transactions with
    | [] => none
    | tx :: _ =>
      match tx.Outputs with
      | [] => none
      | out :: _ => some (some (out.Value - reward), none)

/-- Go `(*BlockUnlocker).handleBlock`: the updated candidate and the returned
error; `none` is a panic. -/
def handleBlock (cfg : UnlockerConfig) (getBlockTxs : Nat → Option GetBlockReply × Option Err)
    (block : GetBlockReply) (candidate : BlockData) : Option (BlockData × Option Err) :=
  let reward : Int := blockSubsidy block.Number
  match getExtraRewardForTx getBlockTxs block.Number reward with
  | none => none
  | some (extraTxReward, _) =>
    let step : Option (BlockData × Int) :=
      if cfg.KeepTxFees then some ({ candidate with ExtraReward := extraTxReward }, reward)
      else
        match extraTxReward with
        | none => none
        | some extra => some (candidate, reward + extra)
    match step with
    | none => none
    | some (c, reward1) =>
      some ({ c with
              Height := wrapInt64 (block.Number : Int)
              Orphan := false
              Hash := block.Hash
              Reward := some reward1 }, none)

/-! ## `payouts/unlocker.go`: reward calculation -/

/-- Read of a Go `map[string]int64`: the zero value for a missing key. -/
def mapGet (m : List (String × Int)) (k : String) : Int :=
  match m with
  | [] => 0
  | (k1, v1) :: rest => if k1 = k then v1 else mapGet rest k

/-- The statement `m[k] += v` on a Go `map[string]int64`. -/
def mapAdd (m : List (String × Int)) (k : String) (v : Int) : List (String × Int) :=
  match m with
  | [] => [(k, wrapInt64 (0 + v))]
  | (k1, v1) :: rest =>
    if k1 = k then (k1, wrapInt64 (v1 + v)) :: rest else (k1, v1) :: mapAdd rest k v

/-- Go `chargeFee`: `fee / 100` is a `float64` division, converted exactly by
`SetFloat64`. Returns the value after the fee and the fee. -/
def chargeFee (value : Frac) (fee : Frac) : Frac × Frac :=
  let feePercent := f64div fee ⟨100, 1⟩
  let feeValue := value.mul feePercent
  (value.sub feeValue, feeValue)

/-- The loop of `calculateRewardsForShares` over the entries of `shares`, in
the order the map iteration yields them. -/
def rewardsLoop (total : Int) (reward : Frac) :
    List (String × Int) → List (String × Int) → Option (List (String × Int))
  | [], rewards => some rewards
  | (login, n) :: rest, rewards =>
    if IsValidHexAddress login then
      match newRat n total with
      | none => none
      | some percent =>
        let workerReward := reward.mul percent
        let fee := ratToInt64 workerReward
        rewardsLoop total reward rest (mapAdd rewards login fee)
    else rewardsLoop total reward rest rewards

/-- Go `calculateRewardsForShares`; `none` is the panic of `big.NewRat` on a
zero total. -/
def calculateRewardsForShares (shares : List (String × Int)) (total : Int) (reward : Frac) :
    Option (List (String × Int)) :=
  rewardsLoop total reward shares []

/-- What `calculateRewards` returns when it returns no error. -/
structure RoundRewards where
  revenue : Frac
  minersProfit : Frac
  poolProfit : Frac
  rewards : List (String × Int)
  deriving DecidableEq, Repr

/-- Go `(*BlockUnlocker).calculateRewards`; `getRoundShares` is the store call
`GetRoundShares`. The outer `none` is a panic. -/
def calculateRewards (cfg : UnlockerConfig)
    (getRoundShares : Int → String → List (String × Int) × Option Err)
    (block : BlockData) : Option (Except Err RoundRewards) :=
  match block.Reward with
  | none => none
  | some r =>
    let revenue := Frac.ofInt r
    let (minersProfit, poolProfit) := chargeFee revenue cfg.PoolFee
    match getRoundShares block.RoundHeight block.Nonce with
    | (_, some err) => some (Except.error err)
    | (shares, none) =>
      match calculateRewardsForShares shares block.TotalShares minersProfit with
      | none => none
      | some rewards =>
        let poolProfit1 :=
          match block.ExtraReward with
          | some extra => poolProfit.add (Frac.ofInt extra)
          | none => poolProfit
        let revenue1 :=
          match block.ExtraReward with
          | some extra => revenue.add (Frac.ofInt extra)
          | none => revenue
        let rewards1 :=
          if cfg.PoolFeeAddress.length ≠ 0 then
            mapAdd rewards cfg.PoolFeeAddress (ratToInt64 poolProfit1)
          else rewards
        some (Except.ok
          { revenue := revenue1, minersProfit := minersProfit,
            poolProfit := poolProfit1, rewards := rewards1 })

/-! ## `proxy/blocks.go`: template refresh -/

/-- Value of a run of decimal digits; `none` when a character is not a
digit. -/
def decDigitsValue : List Char → Nat → Option Nat
  | [], n => some n
  | c :: cs, n => if isDigitChar c then decDigitsValue cs (n * 10 + (c.toNat - 48)) else none

/-- Go `new(big.Int).SetString(s, 10)`: an optional sign, then one or more
decimal digits and nothing else; `none` is the failure result `(nil, false)`. -/
def setString10 (s : String) : Option Int :=
  match s.data with
  | [] => none
  | c :: cs =>
    let body : List Char := if c = '+' ∨ c = '-' then cs else c :: cs
    match body with
    | [] => none
    | _ =>
      match decDigitsValue body 0 with
      | none => none
      | some n => some (if c = '-' then -(n : Int) else (n : Int))

/-- The type `proxy.BlockTemplate`, without the mutex and the `nonces` map.
`Difficulty` and `GetPendingBlockCache` are pointers and may be nil. -/
structure BlockTemplate where
  Header : String
  Seed : String
  Target : String
  Difficulty : Option Int
  Height : Nat
  GetPendingBlockCache : Option GetBlockReply
  deriving DecidableEq, Repr

/-- The calls and effects of `fetchBlockTemplate`. -/
inductive FetchEvent where
  | getPendingBlock
  | getWork
  | store (t : BlockTemplate)
  | broadcastNewJobs (i : Nat)
  deriving DecidableEq, Repr

/-- Go `(*ProxyServer).fetchPendingBlock`, given what upstream `GetPendingBlock`
returns: reply, height, difficulty and error. The outer `none` is a panic (nil
reply without error). When the difficulty does not parse, the function returns
its variable `err`, which is nil at that point. -/
def fetchPendingBlock (pending : Option GetBlockReply × Option Err) :
    Option (Option GetBlockReply × Nat × Option Int × Option Err) :=
  match pending with
  | (_, some err) => some (none, 0, none, some err)
  | (none, none) => none
  | (some reply, none) =>
    match setString10 reply.Difficulty with
    | none => some (none, 0, none, none)
    | some blockDiff => some (some reply, reply.Number, some blockDiff, none)

/-- The stratum indices for which `fetchBlockTemplate` starts a broadcast. -/
def broadcastEvents : List Bool → Nat → List FetchEvent
  | [], _ => []
  | enabled :: rest, i =>
    if enabled then FetchEvent.broadcastNewJobs i :: broadcastEvents rest (i + 1)
    else broadcastEvents rest (i + 1)

/-- Go `(*ProxyServer).fetchBlockTemplate`, given what upstream
`GetPendingBlock` and `GetWork` return, the `Enabled` flags of the stratum
configurations and the current template: the template current afterwards and
the calls made. `none` is a panic (`reply[i]` out of range, nil pending
reply). -/
def fetchBlockTemplate (pending : Option GetBlockReply × Option Err)
    (work : List String × Option Err) (stratumEnabled : List Bool)
    (t : Option BlockTemplate) : Option (Option BlockTemplate × List FetchEvent) :=
  match fetchPendingBlock pending with
  | none => none
  | some (_, _, _, some _) => some (t, [FetchEvent.getPendingBlock])
  | some (pendingReply, height, diff, none) =>
    match work with
    | (_, some _) => some (t, [FetchEvent.getPendingBlock, FetchEvent.getWork])
    | (reply, none) =>
      let same : Option Bool :=
        match t with
        | none => some false
        | some cur =>
          match reply with
          | [] => none
          | h :: _ => some (decide (cur.Header = h))
      match same with
      | none => none
      | some true => some (t, [FetchEvent.getPendingBlock, FetchEvent.getWork])
      | some false =>
        match reply with
        | h :: sd :: tg :: _ =>
          let newTemplate : BlockTemplate :=
            { Header := h, Seed := sd, Target := tg, Height := height, Difficulty := diff,
              GetPendingBlockCache := pendingReply }
          some (some newTemplate,
            [FetchEvent.getPendingBlock, FetchEvent.getWork, FetchEvent.store newTemplate]
              ++ broadcastEvents stratumEnabled 0)
        | _ => none

/-! ## `proxy/blocks.go`, `proxy/miner.go`: share processing -/

/-- The type `proxy.Block` handed to the PoW verifier. The two hashes are kept
as the hex strings given to `common.HexToHash`; `difficulty` is a pointer and
may be nil. -/
structure Block where
  difficulty : Option Int
  hashNoNonce : String
  nonce : Nat
  mixDigest : String
  number : Nat
  deriving DecidableEq, Repr

/-- The part of `proxy.ProxyServer` that `processShare` uses: the share
difficulty and the `Enabled` flag of each stratum, the hashrate window, the
template currently stored, and the collaborators (`hasher.Verify`, upstream
`SubmitWork`, store `WriteBlock`/`WriteShare`) as oracles. `getPendingBlock`
and `getWork` are what the upstream calls `GetPendingBlock` and `GetWork`
answer during the refresh; `none` is a panic inside the call
(`*rpcResp.Result` on a response without result). -/
structure ProxyServer where
  stratumDifficulty : List Int
  stratumEnabled : List Bool
  hashrateExpiration : Int
  blockTemplate : Option BlockTemplate
  verify : Block → Bool
  submitWork : List String → Bool × Option Err
  getPendingBlock : Option (Option GetBlockReply × Option Err)
  getWork : Option (List String × Option Err)
  writeBlock : String → String → List String → Int → Int → Nat → Int → Bool × Option Err
  writeShare : String → String → List String → Int → Nat → Int → Bool × Option Err

/-- The call `s.fetchBlockTemplate()` on the state of the server: the template
stored afterwards and the calls made. `none` is a panic, inside
`GetPendingBlock`, inside `GetWork` (called only when `fetchPendingBlock`
returned no error), or inside `fetchBlockTemplate` itself. -/
def ProxyServer.fetchBlockTemplate (s : ProxyServer) :
    Option (Option BlockTemplate × List FetchEvent) :=
  match s.getPendingBlock with
  | none => none
  | some pending =>
    match s.getWork with
    | some work => Pool.fetchBlockTemplate pending work s.stratumEnabled s.blockTemplate
    | none =>
      match fetchPendingBlock pending with
      | some (_, _, _, some _) => some (s.blockTemplate, [FetchEvent.getPendingBlock])
      | _ => none

/-- The calls `processShare` makes to its collaborators; the template refresh
carries the calls made inside it. -/
inductive Event where
  | verify (b : Block)
  | submitWork (params : List String)
  | fetchBlockTemplate (calls : List FetchEvent)
  | writeBlock (login id : String) (params : List String) (shareDiff blockDiff : Int)
      (height : Nat) (window : Int)
  | writeShare (login id : String) (params : List String) (shareDiff : Int)
      (height : Nat) (window : Int)
  deriving DecidableEq, Repr

/-- Go `(*big.Int).Int64`: the low 64 bits of the magnitude, negated for a
negative number. -/
def bigInt64 (x : Int) : Int :=
  let low : Int := wrapInt64 ((x.natAbs % 18446744073709551616 : Nat) : Int)
  if x < 0 then wrapInt64 (-low) else low

/-- The result triple `(exist, valid, stale)` of `processShare`. -/
abbrev ShareResult := Bool × Bool × Bool

/-- Go `(*ProxyServer).processShare`: the returned triple and the calls made,
in order. `none` is a panic (stratum index or `params` index out of range, nil
template, a panic inside `s.fetchBlockTemplate()`, `t.Difficulty.Int64()` on a
nil difficulty). -/
def processShare (uni : Char → Char → Bool) (s : ProxyServer) (login id ip : String)
    (t : Option BlockTemplate) (params : List String) (s_id : Nat) :
    Option (ShareResult × List Event) :=
  match s.stratumDifficulty[s_id]?, params, t with
  | some shareDiff, nonceHex :: hashNoNonce :: mixDigest :: _, some t =>
    let nonce : Nat := (parseUint 16 (strip0x nonceHex)).1
    if !equalFold uni t.Header hashNoNonce then some ((false, false, true), [])
    else
      let share : Block :=
        { number := t.Height, hashNoNonce := hashNoNonce, difficulty := some shareDiff,
          nonce := nonce, mixDigest := mixDigest }
      let block : Block :=
        { number := t.Height, hashNoNonce := hashNoNonce, difficulty := t.Difficulty,
          nonce := nonce, mixDigest := mixDigest }
      if !s.verify share then some ((false, false, false), [Event.verify share])
      else if s.verify block then
        match s.submitWork params with
        | (_, some _) =>
          some ((false, true, false),
            [Event.verify share, Event.verify block, Event.submitWork params])
        | (false, none) =>
          some ((false, false, false),
            [Event.verify share, Event.verify block, Event.submitWork params])
        | (true, none) =>
          match s.fetchBlockTemplate with
          | none => none
          | some (_, calls) =>
            match t.Difficulty with
            | none => none
            | some difficulty =>
              let blockDiff := bigInt64 difficulty
              let trace := [Event.verify share, Event.verify block, Event.submitWork params,
                Event.fetchBlockTemplate calls,
                Event.writeBlock login id params shareDiff blockDiff t.Height
                  s.hashrateExpiration]
              let (exist, _) :=
                s.writeBlock login id params shareDiff blockDiff t.Height s.hashrateExpiration
              if exist then some ((true, true, false), trace)
              else some ((false, true, false), trace)
      else
        let trace := [Event.verify share, Event.verify block,
          Event.writeShare login id params shareDiff t.Height s.hashrateExpiration]
        let (exist, _) := s.writeShare login id params shareDiff t.Height s.hashrateExpiration
        if exist then some ((true, true, false), trace)
        else some ((false, true, false), trace)
  | _, _, _ => none

/-! ## `proxy/handlers.go`: login -/

/-- The type `proxy.ErrorReply`. -/
structure ErrorReply where
  Code : Int
  Message : String
  deriving DecidableEq, Repr

/-- The fields of `proxy.Session` used by the login handler. -/
structure Session where
  ip : String
  login : String
  s_id : Nat
  deriving DecidableEq, Repr

/-- The calls the login handler makes to its collaborators. -/
inductive LoginEvent where
  | validateAddress (login : String)
  | applyLoginPolicy (login ip : String)
  | registerSession (cs : Session)
  deriving DecidableEq, Repr

/-- What `handleLoginRPC` leaves behind when it returns. -/
structure LoginResult where
  ok : Bool
  reply : Option ErrorReply
  session : Session
  trace : List LoginEvent
  deriving DecidableEq, Repr

/-- Go `(*ProxyServer).handleLoginRPC`. `validateAddress` is the upstream call
(reply pointer and error), `applyLoginPolicy` the policy check, `stratumCount`
the length of the stratum configuration. `none` is a panic. The calls to
`ApplyMalformedPolicy` stand after `return` statements and never run. -/
def handleLoginRPC (validateAddress : String → Option ValidateAddress × Option Err)
    (applyLoginPolicy : String → String → Bool) (stratumCount : Nat)
    (cs : Session) (params : List String) (id : String) : Option LoginResult :=
  match params with
  | [] =>
    some { ok := false, reply := some ⟨-1, "Invalid params"⟩, session := cs, trace := [] }
  | login :: _ =>
    if !IsValidHexAddress login then
      some { ok := false, reply := some ⟨-1, "Invalid login format."⟩, session := cs, trace := [] }
    else
      let (address, err) := validateAddress login
      match ValidateAddress.Valid address with
      | none => none
      | some valid =>
        if !valid || err.isSome || address.isNone then
          some { ok := false, reply := some ⟨0, "Invalid login."⟩, session := cs,
                 trace := [LoginEvent.validateAddress login] }
        else if !applyLoginPolicy login cs.ip then
          some { ok := false, reply := some ⟨-1, "You are blacklisted"⟩, session := cs,
                 trace := [LoginEvent.validateAddress login,
                           LoginEvent.applyLoginPolicy login cs.ip] }
        else
          let cs1 := { cs with login := login }
          if cs1.s_id < stratumCount then
            some { ok := true, reply := none, session := cs1,
                   trace := [LoginEvent.validateAddress login,
                             LoginEvent.applyLoginPolicy login cs.ip,
                             LoginEvent.registerSession cs1] }
          else none

/-! ## `proxy/handlers.go`: submission patterns -/

/-- Character class `[0-9a-f]`. -/
def isLowerHexChar (c : Char) : Bool :=
  isDigitChar c || decide (97 ≤ c.toNat ∧ c.toNat ≤ 102)

/-- Match of `noncePattern`, `^0x[0-9a-f]{16}$`. -/
def noncePatternMatch (s : String) : Bool :=
  match s.data with
  | '0' :: 'x' :: rest => decide (rest.length = 16) && rest.all isLowerHexChar
  | _ => false

/-! ## `payouts/unlocker.go`: the two passes -/

/-- The upstream and store calls of the unlocker, with their arguments. -/
inductive UCall where
  | getPendingBlock
  | getCandidates (maxHeight : Int)
  | getImmatureBlocks (maxHeight : Int)
  | getBlockByHeight (height : Int)
  | getBlockTxs (height : Nat)
  | writePendingOrphans (blocks : List BlockData)
  | writeOrphan (block : BlockData)
  | getRoundShares (roundHeight : Int) (nonce : String)
  | writeImmatureBlock (block : BlockData) (rewards : List (String × Int))
  | writeMaturedBlock (block : BlockData) (rewards : List (String × Int))
  deriving DecidableEq, Repr

/-- One call in the trace of the unlocker; `failed` tells that the call
returned a non-nil error. -/
structure UEvent where
  call : UCall
  failed : Bool
  deriving DecidableEq, Repr

/-- The upstream node and the store as seen by the unlocker. The first
argument of every oracle is the number of calls made before it, so that the
same call may be answered differently at different times. -/
structure UnlockerEnv where
  getPendingBlock : Nat → Option GetBlockReply × Option Err
  getCandidates : Nat → Int → List BlockData × Option Err
  getImmatureBlocks : Nat → Int → List BlockData × Option Err
  getBlockByHeight : Nat → Int → Option GetBlockReply × Option Err
  getBlockTxs : Nat → Nat → Option GetBlockReply × Option Err
  writePendingOrphans : Nat → List BlockData → Option Err
  writeOrphan : Nat → BlockData → Option Err
  getRoundShares : Nat → Int → String → List (String × Int) × Option Err
  writeImmatureBlock : Nat → BlockData → List (String × Int) → Option Err
  writeMaturedBlock : Nat → BlockData → List (String × Int) → Option Err

/-- The type `payouts.UnlockResult`. -/
structure UnlockResult where
  maturedBlocks : List BlockData
  orphanedBlocks : List BlockData
  orphans : Int
  uncles : Int
  blocks : Int
  deriving DecidableEq, Repr

/-- The zero value `&UnlockResult{}`. -/
def UnlockResult.empty : UnlockResult :=
  { maturedBlocks := [], orphanedBlocks := [], orphans := 0, uncles := 0, blocks := 0 }

/-- The state after `u.halt = true; u.lastFail = err`. -/
def BlockUnlocker.halted (u : BlockUnlocker) (e : Err) : BlockUnlocker :=
  { u with halt := true, lastFail := some e }

/-- The loop of `unlockCandidates` over the remaining candidates: the unlocker
state, the result or the returned error, and the trace. `none` is a panic
inside `handleBlock`. -/
def unlockCandidatesLoop (uni : Char → Char → Bool) (env : UnlockerEnv) :
    List BlockData → BlockUnlocker → UnlockResult → List UEvent →
      Option (BlockUnlocker × Except Err UnlockResult × List UEvent)
  | [], u, result, tr => some (u, Except.ok result, tr)
  | candidate :: rest, u, result, tr =>
    let height := candidate.Height
    let lookup := env.getBlockByHeight tr.length height
    let tr1 := tr ++ [{ call := UCall.getBlockByHeight height, failed := lookup.2.isSome }]
    match lookup with
    | (_, some err) => some (u, Except.error err, tr1)
    | (none, none) =>
      some (u, Except.error ⟨"Error while retrieving block from node, wrong node height"⟩, tr1)
    | (some block, none) =>
      if matchCandidate uni u.config block candidate then
        let tr2 := tr1 ++ [{ call := UCall.getBlockTxs block.Number,
                             failed := (env.getBlockTxs tr1.length block.Number).2.isSome }]
        match handleBlock u.config (env.getBlockTxs tr1.length) block candidate with
        | none => none
        | some (_, some err) => some (u.halted err, Except.error err, tr2)
        | some (candidate1, none) =>
          unlockCandidatesLoop uni env rest u
            { result with blocks := result.blocks + 1,
                          maturedBlocks := result.maturedBlocks ++ [candidate1] } tr2
      else
        unlockCandidatesLoop uni env rest u
          { result with orphans := result.orphans + 1,
                        orphanedBlocks :=
                          result.orphanedBlocks ++ [{ candidate with Orphan := true }] } tr1

/-- Go `(*BlockUnlocker).unlockCandidates`. -/
def unlockCandidates (uni : Char → Char → Bool) (env : UnlockerEnv) (u : BlockUnlocker)
    (candidates : List BlockData) (tr : List UEvent) :
    Option (BlockUnlocker × Except Err UnlockResult × List UEvent) :=
  unlockCandidatesLoop uni env candidates u UnlockResult.empty tr

/-- The loop over `result.maturedBlocks` in both passes: `calculateRewards`,
then the store write (`WriteImmatureBlock` in the first pass,
`WriteMaturedBlock` in the second), halting on the first error. `none` is a
panic inside `calculateRewards`. -/
def creditLoop (env : UnlockerEnv)
    (write : Nat → BlockData → List (String × Int) → Option Err)
    (mkCall : BlockData → List (String × Int) → UCall) :
    List BlockData → BlockUnlocker → List UEvent → Option (BlockUnlocker × List UEvent)
  | [], u, tr => some (u, tr)
  | block :: rest, u, tr =>
    let tr1 := tr ++ [{ call := UCall.getRoundShares block.RoundHeight block.Nonce,
                        failed := (env.getRoundShares tr.length block.RoundHeight
                                    block.Nonce).2.isSome }]
    match calculateRewards u.config (env.getRoundShares tr.length) block with
    | none => none
    | some (Except.error err) => some (u.halted err, tr1)
    | some (Except.ok rr) =>
      let werr := write tr1.length block rr.rewards
      let tr2 := tr1 ++ [{ call := mkCall block rr.rewards, failed := werr.isSome }]
      match werr with
      | some err => some (u.halted err, tr2)
      | none => creditLoop env write mkCall rest u tr2

/-- The loop over `result.orphanedBlocks` in the second pass: `WriteOrphan`
per block, stopping at the first error. -/
def writeOrphansLoop (env : UnlockerEnv) :
    List BlockData → List UEvent → Option Err × List UEvent
  | [], tr => (none, tr)
  | block :: rest, tr =>
    let werr := env.writeOrphan tr.length block
    let tr1 := tr ++ [{ call := UCall.writeOrphan block, failed := werr.isSome }]
    match werr with
    | some err => (some err, tr1)
    | none => writeOrphansLoop env rest tr1

/-- Go `(*BlockUnlocker).unlockPendingBlocks`: the unlocker state and the trace
after the call. `none` is a panic. -/
def unlockPendingBlocks (uni : Char → Char → Bool) (env : UnlockerEnv) (u : BlockUnlocker)
    (tr : List UEvent) : Option (BlockUnlocker × List UEvent) :=
  if u.halt then some (u, tr)
  else
    let pending := env.getPendingBlock tr.length
    let tr1 := tr ++ [{ call := UCall.getPendingBlock, failed := pending.2.isSome }]
    match pending with
    | (_, some err) => some (u.halted err, tr1)
    | (none, none) => none
    | (some current, none) =>
      let maxHeight := wrapInt64 (wrapInt64 (current.Number : Int) - u.config.ImmatureDepth)
      let fetched := env.getCandidates tr1.length maxHeight
      let tr2 := tr1 ++ [{ call := UCall.getCandidates maxHeight, failed := fetched.2.isSome }]
      match fetched with
      | (_, some err) => some (u.halted err, tr2)
      | (candidates, none) =>
        if candidates.length = 0 then some (u, tr2)
        else
          match unlockCandidates uni env u candidates tr2 with
          | none => none
          | some (u3, Except.error err, tr3) => some (u3.halted err, tr3)
          | some (u3, Except.ok result, tr3) =>
            let werr := env.writePendingOrphans tr3.length result.orphanedBlocks
            let tr4 := tr3 ++ [{ call := UCall.writePendingOrphans result.orphanedBlocks,
                                 failed := werr.isSome }]
            match werr with
            | some err => some (u3.halted err, tr4)
            | none =>
              creditLoop env env.writeImmatureBlock UCall.writeImmatureBlock
                result.maturedBlocks u3 tr4

/-- Go `(*BlockUnlocker).unlockAndCreditMiners`: the unlocker state and the
trace after the call. `none` is a panic. -/
def unlockAndCreditMiners (uni : Char → Char → Bool) (env : UnlockerEnv) (u : BlockUnlocker)
    (tr : List UEvent) : Option (BlockUnlocker × List UEvent) :=
  if u.halt then some (u, tr)
  else
    let pending := env.getPendingBlock tr.length
    let tr1 := tr ++ [{ call := UCall.getPendingBlock, failed := pending.2.isSome }]
    match pending with
    | (_, some err) => some (u.halted err, tr1)
    | (none, none) => none
    | (some current, none) =>
      let maxHeight := wrapInt64 (wrapInt64 (current.Number : Int) - u.config.Depth)
      let fetched := env.getImmatureBlocks tr1.length maxHeight
      let tr2 := tr1 ++ [{ call := UCall.getImmatureBlocks maxHeight,
                           failed := fetched.2.isSome }]
      match fetched with
      | (_, some err) => some (u.halted err, tr2)
      | (immature, none) =>
        if immature.length = 0 then some (u, tr2)
        else
          match unlockCandidates uni env u immature tr2 with
          | none => none
          | some (u3, Except.error err, tr3) => some (u3.halted err, tr3)
          | some (u3, Except.ok result, tr3) =>
            match writeOrphansLoop env result.orphanedBlocks tr3 with
            | (some err, tr4) => some (u3.halted err, tr4)
            | (none, tr4) =>
              creditLoop env env.writeMaturedBlock UCall.writeMaturedBlock
                result.maturedBlocks u3 tr4

/-! ## Reference formulas -/

/-- What `fetchBlockTemplate` stores for a pending block `reply` and a work
reply `[h, sd, tg]`: difficulty and height as `fetchPendingBlock` hands them
over, which is nil, 0 and no cached reply when the difficulty string does not
parse. -/
def refreshedTemplate (reply : GetBlockReply) (h sd tg : String) : BlockTemplate :=
  { Header := h, Seed := sd, Target := tg,
    Difficulty := setString10 reply.Difficulty,
    Height := if (setString10 reply.Difficulty).isSome then reply.Number else 0,
    GetPendingBlockCache := if (setString10 reply.Difficulty).isSome then some reply else none }

/-- The share tuple `processShare` builds from a template, the stratum share
difficulty and the three params. -/
def shareTuple (t : BlockTemplate) (shareDiff : Int) (p0 p1 p2 : String) : Block :=
  { number := t.Height, hashNoNonce := p1, difficulty := some shareDiff,
    nonce := (parseUint 16 (strip0x p0)).1, mixDigest := p2 }

/-- The block tuple `processShare` builds: as the share tuple, at the
template difficulty. -/
def blockTuple (t : BlockTemplate) (p0 p1 p2 : String) : Block :=
  { number := t.Height, hashNoNonce := p1, difficulty := t.Difficulty,
    nonce := (parseUint 16 (strip0x p0)).1, mixDigest := p2 }

/-- The subsidy schedule in the words of the specification:
`floor(300000000 · 0.95^floor(height/500000))`, in exact arithmetic. -/
def subsidySpec (height : Nat) : Int :=
  ⌊(300000000 : ℚ) * (95 / 100 : ℚ) ^ (height / 500000)⌋

/-- Rounding of a rational to the nearest integer, halves away from zero. -/
def roundHalfAway (x : ℚ) : Int :=
  if 0 ≤ x then ⌊x + 1 / 2⌋ else -⌊-x + 1 / 2⌋

/-- Sum of all credits held in a reward map. -/
def sumCredits (m : List (String × Int)) : Int := (m.map Prod.snd).sum

/-- Number of entries of a shares map whose address passes
`IsValidHexAddress`. -/
def validCount (shares : List (String × Int)) : Nat :=
  (shares.filter (fun p => IsValidHexAddress p.1)).length

/-- Whether a call is the coinbase lookup `GetBlockTxs` made inside
`handleBlock`, whose error `handleBlock` drops. -/
def UCall.isBlockTxs : UCall → Bool
  | UCall.getBlockTxs _ => true
  | _ => false

/-- A failed call at one of the places where a pass checks the error:
pending-block fetch, candidate or immature fetch, block lookup in
`unlockCandidates`, orphan write, round-shares read in `calculateRewards`,
immature or matured write. -/
def UEvent.checkedFailure (e : UEvent) : Bool := e.failed && !e.call.isBlockTxs

/-- Five successive calls of `markAlive`. -/
def RPCClient.markAlive5 (r : RPCClient) : RPCClient :=
  r.markAlive.markAlive.markAlive.markAlive.markAlive

/-- Five successive calls of `markSick`. -/
def RPCClient.markSick5 (r : RPCClient) : RPCClient :=
  r.markSick.markSick.markSick.markSick.markSick

/-- What a pass may do to the unlocker state and the trace: it appends calls,
and either ends halted or leaves the state as it was after calls none of
which failed at a checked place. -/
def Latched (u : BlockUnlocker) (tr : List UEvent) (u1 : BlockUnlocker)
    (tr1 : List UEvent) : Prop :=
  ∃ new, tr1 = tr ++ new ∧
    (u1.halt = true ∨ (u1 = u ∧ ∀ e ∈ new, e.checkedFailure = false))

/-- Whether a block reply carries a coinbase output,
`Transactions[0].Outputs[0]`. -/
def hasCoinbase (b : GetBlockReply) : Bool :=
  match b.Transactions with
  | [] => false
  | tx :: _ =>
    match tx.Outputs with
    | [] => false
    | _ :: _ => true

/-- The calls of the crediting step: the round-shares read of
`calculateRewards` and the two block writes. -/
def UCall.isCredit : UCall → Bool
  | UCall.getRoundShares _ _ => true
  | UCall.writeImmatureBlock _ _ => true
  | UCall.writeMaturedBlock _ _ => true
  | _ => false

/-- The call is a crediting step made for block `b`. -/
def UCall.creditsBlock (call : UCall) (b : BlockData) : Prop :=
  call = UCall.getRoundShares b.RoundHeight b.Nonce ∨
    ∃ rewards, call = UCall.writeImmatureBlock b rewards ∨
      call = UCall.writeMaturedBlock b rewards

/-- The candidates that pass the identity check against the chain, in input
order. -/
def passingCandidates (uni : Char → Char → Bool) (cfg : UnlockerConfig)
    (chain : Int → GetBlockReply) (cands : List BlockData) : List BlockData :=
  cands.filter (fun c => matchCandidate uni cfg (chain c.Height) c)

/-- The candidates that fail the identity check against the chain, in input
order. -/
def failingCandidates (uni : Char → Char → Bool) (cfg : UnlockerConfig)
    (chain : Int → GetBlockReply) (cands : List BlockData) : List BlockData :=
  cands.filter (fun c => !matchCandidate uni cfg (chain c.Height) c)

/-- The record `b` is what `handleBlock` makes of candidate `c` against the
chain, and it is not an orphan. -/
def Promoted (cfg : UnlockerConfig) (chain : Int → GetBlockReply)
    (txs : Nat → GetBlockReply) (c b : BlockData) : Prop :=
  handleBlock cfg (fun n => (some (txs n), none)) (chain c.Height) c = some (b, none) ∧
    b.Orphan = false

/-! ## Concrete inputs used in the statements below -/

/-- Fold table that relates no two distinct non-ASCII runes. -/
def noFold : Char → Char → Bool := fun _ _ => false

/-- Three miner addresses and a pool-fee address, all matching
`addressPattern`. -/
def addrA : String := "MA11111111111111111111111111111111"

/-- Second miner address. -/
def addrB : String := "MB22222222222222222222222222222222"

/-- Third miner address. -/
def addrC : String := "MC33333333333333333333333333333333"

/-- Pool-fee address. -/
def addrPool : String := "MP99999999999999999999999999999999"

/-- A header hash in lower case. -/
def hashLower : String := "0xaaaaaaaaaaaaaaaaaaaaaaaaaaaaaaaaaaaaaaaaaaaaaaaaaaaaaaaaaaaaaaaa"

/-- The same header hash in upper case. -/
def hashUpper : String := "0xAAAAAAAAAAAAAAAAAAAAAAAAAAAAAAAAAAAAAAAAAAAAAAAAAAAAAAAAAAAAAAAA"

/-- A mix digest. -/
def mixHex : String := "0xbbbbbbbbbbbbbbbbbbbbbbbbbbbbbbbbbbbbbbbbbbbbbbbbbbbbbbbbbbbbbbbb"

/-- A submission `[nonce, hash_no_nonce, mix_digest]`. -/
def exParams : List String := ["0x0000000000000001", hashLower, mixHex]

/-- A template whose header is `hashLower`. -/
def exTemplate : BlockTemplate :=
  { Header := hashLower, Seed := "0x00", Target := "0x00", Difficulty := some 1000000000,
    Height := 100, GetPendingBlockCache := none }

/-- A template whose header is `hashUpper`. -/
def exTemplateUpper : BlockTemplate := { exTemplate with Header := hashUpper }

/-- A server whose verifier accepts everything and whose upstream calls
fail with an error. -/
def exServerSubmitFails : ProxyServer :=
  { stratumDifficulty := [1000], stratumEnabled := [true], hashrateExpiration := 600,
    blockTemplate := some exTemplate,
    verify := fun _ => true,
    submitWork := fun _ => (false, some ⟨"connection refused"⟩),
    getPendingBlock := some (none, some ⟨"connection refused"⟩),
    getWork := some ([], some ⟨"connection refused"⟩),
    writeBlock := fun _ _ _ _ _ _ _ => (false, none),
    writeShare := fun _ _ _ _ _ _ => (false, none) }

/-- A server whose verifier rejects everything. -/
def exServerRejects : ProxyServer :=
  { exServerSubmitFails with verify := fun _ => false }

/-- An unlocker configuration with the given depths, fee and fee policy. -/
def exConfig (depth immatureDepth : Int) (poolFee : Frac) (keep : Bool) : UnlockerConfig :=
  { Enabled := true, PoolFee := poolFee, Donate := false, Depth := depth,
    ImmatureDepth := immatureDepth, KeepTxFees := keep, Interval := "10m",
    Daemon := "http://127.0.0.1:8820", Timeout := "10s", Account := "pool",
    Password := "secret", Address := addrPool, PoolFeeAddress := addrPool }

/-- A candidate record at round height 100. -/
def exCandidate : BlockData :=
  { Height := 100, RoundHeight := 100, Nonce := "0x0000000000000001", Hash := "",
    Reward := none, ExtraReward := none, TotalShares := 100, Orphan := false }

/-- An on-chain block at height 100 paying the pool address. -/
def exBlock : GetBlockReply :=
  { Difficulty := "1000", Hash := hashLower, Nonce := "1", Number := 100,
    Transactions := [{ Hash := "0x01", Outputs := [{ Address := addrPool, Value := 300000500 }] }] }

/-- A matured block of reward `r` whose round counted `t` shares. -/
def exRoundBlock (r t : Int) : BlockData :=
  { exCandidate with Reward := some r, TotalShares := t }

/-- A store whose round holds the shares `A: a`, `B: b`, `C: c`. -/
def exRoundShares (a b c : Int) : Int → String → List (String × Int) × Option Err :=
  fun _ _ => ([(addrA, a), (addrB, b), (addrC, c)], none)

/-- A `GetWork` reply `[header, seed, target]`. -/
def exWork : List String := [hashLower, "0x01", "0x02"]

/-- A server whose verifier accepts a tuple only at difficulty 1000 (the share
difficulty) and whose store reports the share as already present. -/
def exServerShareOnly : ProxyServer :=
  { stratumDifficulty := [1000], stratumEnabled := [true], hashrateExpiration := 600,
    blockTemplate := some exTemplate,
    verify := fun b => decide (b.difficulty = some 1000),
    submitWork := fun _ => (true, none),
    getPendingBlock := some (some exBlock, none),
    getWork := some (exWork, none),
    writeBlock := fun _ _ _ _ _ _ _ => (false, none),
    writeShare := fun _ _ _ _ _ _ => (true, none) }

/-- A server whose verifier accepts everything, whose upstream accepts the
block and answers the refresh with the pending block `exBlock` and the work
`work`, and whose store reports the block as new. -/
def exServerBlockFound (work : List String) : ProxyServer :=
  { exServerShareOnly with
    verify := fun _ => true,
    getWork := some (work, none) }

/-- A pending block whose difficulty string is not a decimal number. -/
def exPendingBadDifficulty : GetBlockReply :=
  { Difficulty := "abc", Hash := "", Nonce := "0", Number := 100, Transactions := [] }

/-- A current template with another header. -/
def exStored : BlockTemplate :=
  { Header := hashUpper, Seed := "0x00", Target := "0x00", Difficulty := some 1000000000,
    Height := 99, GetPendingBlockCache := none }

/-- An unlocker that is not halted, with the example configuration. -/
def exUnlocker : BlockUnlocker :=
  { config := exConfig 32 16 ⟨1, 1⟩ false, halt := false, lastFail := none }

/-- An on-chain header at height 100 with decimal nonce `nonce` and no
transactions. -/
def exHeader (nonce : String) : GetBlockReply :=
  { Difficulty := "1000", Hash := hashLower, Nonce := nonce, Number := 100, Transactions := [] }

/-- A node and store that answer every call without error: the chain tip is
at height 200, the block at any height is `header`, its full form is `full`,
the only candidate is `exCandidate`. -/
def exEnv (header full : GetBlockReply) : UnlockerEnv :=
  { getPendingBlock := fun _ => (some { exBlock with Number := 200 }, none),
    getCandidates := fun _ _ => ([exCandidate], none),
    getImmatureBlocks := fun _ _ => ([], none),
    getBlockByHeight := fun _ _ => (some header, none),
    getBlockTxs := fun _ _ => (some full, none),
    writePendingOrphans := fun _ _ => none,
    writeOrphan := fun _ _ => none,
    getRoundShares := fun _ _ _ => ([(addrA, 100)], none),
    writeImmatureBlock := fun _ _ _ => none,
    writeMaturedBlock := fun _ _ _ => none }

/-- The node and store of `exEnv` with a store whose candidate read fails. -/
def exEnvStoreDown : UnlockerEnv :=
  { exEnv exBlock exBlock with
    getCandidates := fun _ _ => ([], some ⟨"connection refused"⟩) }

/-- The node and store of `exEnv` with a node whose `GetBlockTxs` call fails. -/
def exEnvTxsDown : UnlockerEnv :=
  { exEnv (exHeader "1") exBlock with
    getBlockTxs := fun _ _ => (none, some ⟨"connection refused"⟩) }

/-- The example unlocker with `KeepTxFees` set. -/
def exUnlockerKeep : BlockUnlocker :=
  { exUnlocker with config := exConfig 32 16 ⟨1, 1⟩ true }

/-! # Theorems -/

set_option maxRecDepth 100000

/-! ## Auxiliary facts -/

theorem wrapInt64_of_range (x : Int) (h1 : minInt64 ≤ x) (h2 : x ≤ maxInt64) :
    wrapInt64 x = x := by
  unfold wrapInt64
  unfold minInt64 at h1
  unfold maxInt64 at h2
  omega

theorem addressPatternMatch_length (cs : List Char) (h : addressPatternMatch cs = true) :
    cs.length = 34 := by
  match cs, h with
  | m :: c :: rest, h =>
    simp only [addressPatternMatch, Bool.and_eq_true, decide_eq_true_eq] at h
    simp [h.1.2]

theorem IsValidHexAddress_length (s : String) (h : IsValidHexAddress s = true) :
    s.length = 34 := by
  unfold IsValidHexAddress at h
  cases hm : addressPatternMatch s.data with
  | false => simp [hm] at h
  | true => exact addressPatternMatch_length _ hm

/-! ## Decimal rendering read back by `ParseInt` -/

theorem digitVal_digit_all : ∀ d, d < 10 → digitVal (Char.ofNat (48 + d)) = some d := by
  decide

theorem digitVal_digit (d : Nat) (h : d < 10) : digitVal (Char.ofNat (48 + d)) = some d :=
  digitVal_digit_all d h

theorem digit_not_sign_all :
    ∀ d, d < 10 → Char.ofNat (48 + d) ≠ '+' ∧ Char.ofNat (48 + d) ≠ '-' := by
  decide

theorem digit_not_sign (d : Nat) (h : d < 10) :
    Char.ofNat (48 + d) ≠ '+' ∧ Char.ofNat (48 + d) ≠ '-' :=
  digit_not_sign_all d h

theorem parseUintLoop_digit (d n : Nat) (cs : List Char) (hd : d < 10) :
    parseUintLoop 10 (Char.ofNat (48 + d) :: cs) n =
      if n * 10 + d ≤ maxUint64 then parseUintLoop 10 cs (n * 10 + d)
      else (maxUint64, some NumErr.rangeErr) := by
  rw [parseUintLoop, digitVal_digit d hd]
  simp only [maxUint64]
  have hnd : ¬ d ≥ 10 := by omega
  simp only [hnd, if_false]
  by_cases h1 : n ≥ 18446744073709551615 / 10 + 1
  · have h2 : ¬ n * 10 + d ≤ 18446744073709551615 := by omega
    simp [h1, h2]
  · by_cases h2 : n * 10 + d > 18446744073709551615
    · have h3 : ¬ n * 10 + d ≤ 18446744073709551615 := by omega
      simp [h1, h2, h3]
    · have h3 : n * 10 + d ≤ 18446744073709551615 := by omega
      simp [h1, h2, h3]

/-- Reading back the digits of `n` continues the loop at `n`, or reports a
range error when `n` exceeds `uint64`. -/
theorem parseUintLoop_utoaAux (f : Nat) : ∀ (n : Nat) (acc : List Char), n < f →
    parseUintLoop 10 (utoaAux f n acc) 0 =
      if n ≤ maxUint64 then parseUintLoop 10 acc n else (maxUint64, some NumErr.rangeErr) := by
  induction f with
  | zero => intro n acc h; omega
  | succ f ih =>
    intro n acc hn
    rw [utoaAux]
    by_cases h10 : n < 10
    · rw [if_pos h10, parseUintLoop_digit n 0 acc h10]
      have : n ≤ maxUint64 := by unfold maxUint64; omega
      simp [this]
    · rw [if_neg h10, ih (n / 10) _ (by omega)]
      rw [parseUintLoop_digit (n % 10) (n / 10) acc (Nat.mod_lt _ (by omega))]
      have hn' : n / 10 * 10 + n % 10 = n := by omega
      rw [hn']
      by_cases hm : n ≤ maxUint64
      · have : n / 10 ≤ maxUint64 := by unfold maxUint64 at *; omega
        simp [hm, this]
      · simp [hm]

theorem utoaAux_head (f n : Nat) (acc : List Char) :
    ∃ d cs, d < 10 ∧ utoaAux (f + 1) n acc = Char.ofNat (48 + d) :: cs := by
  induction f generalizing n acc with
  | zero =>
    rw [utoaAux]
    by_cases h10 : n < 10
    · exact ⟨n, acc, h10, by rw [if_pos h10]⟩
    · rw [if_neg h10]
      exact ⟨n % 10, acc, Nat.mod_lt _ (by omega), by rw [utoaAux]⟩
  | succ f ih =>
    rw [utoaAux]
    by_cases h10 : n < 10
    · exact ⟨n, acc, h10, by rw [if_pos h10]⟩
    · rw [if_neg h10]
      exact ih (n / 10) _

theorem parseUintChars_utoa (n : Nat) :
    parseUintChars 10 (utoa n) =
      if n ≤ maxUint64 then (n, none) else (maxUint64, some NumErr.rangeErr) := by
  obtain ⟨d, cs, _, hcs⟩ := utoaAux_head n n []
  have h := parseUintLoop_utoaAux (n + 1) n [] (by omega)
  unfold utoa
  rw [hcs] at h ⊢
  unfold parseUintChars
  simp only
  rw [h]
  by_cases hm : n ≤ maxUint64 <;> simp [hm, parseUintLoop]

theorem parseIntChars_utoa (n : Nat) :
    (parseIntChars 10 (utoa n)).1 = clampInt64 (n : Int) := by
  obtain ⟨d, cs, hd, hcs⟩ := utoaAux_head n n []
  have h := parseUintChars_utoa n
  have hs := digit_not_sign d hd
  unfold utoa at h ⊢
  rw [hcs] at h ⊢
  unfold parseIntChars
  simp only [hs.1, hs.2, or_self, if_false, h]
  by_cases hm : n ≤ maxUint64
  · simp only [hm, if_true]
    unfold maxUint64 at hm
    unfold clampInt64 maxInt64 minInt64 wrapInt64
    by_cases hb : n ≥ 9223372036854775808
    · have : (n : Int) > 9223372036854775807 := by omega
      simp [hb, this]
    · have h1 : ¬ (n : Int) > 9223372036854775807 := by omega
      have h2 : ¬ (n : Int) < -9223372036854775808 := by omega
      simp [hb, h1, h2]
      omega
  · simp only [hm, if_false]
    unfold maxUint64 at hm ⊢
    unfold clampInt64 maxInt64 minInt64
    have : (n : Int) > 9223372036854775807 := by omega
    simp [this]

theorem parseIntChars_neg_utoa (n : Nat) :
    (parseIntChars 10 ('-' :: utoa n)).1 = clampInt64 (-(n : Int)) := by
  have h := parseUintChars_utoa n
  unfold parseIntChars
  simp only [or_true, if_true, h]
  by_cases hm : n ≤ maxUint64
  · simp only [hm, if_true]
    unfold maxUint64 at hm
    unfold clampInt64 maxInt64 minInt64 wrapInt64
    by_cases hb : n > 9223372036854775808
    · have h1 : ¬ (-(n : Int)) > 9223372036854775807 := by omega
      have h2 : (-(n : Int)) < -9223372036854775808 := by omega
      simp [hb, h1, h2]
    · have h1 : ¬ (-(n : Int)) > 9223372036854775807 := by omega
      have h2 : ¬ (-(n : Int)) < -9223372036854775808 := by omega
      simp [hb, h1, h2]
      omega
  · simp only [hm, if_false]
    unfold maxUint64 at hm ⊢
    unfold clampInt64 maxInt64 minInt64
    have h1 : ¬ (-(n : Int)) > 9223372036854775807 := by omega
    have h2 : (-(n : Int)) < -9223372036854775808 := by omega
    simp [h1, h2]

/-! ## From a rational amount to an `int64` -/

theorem floor_half_up (a b : Nat) (hb : 0 < b) :
    ⌊(a : ℚ) / (b : ℚ) + 1 / 2⌋ =
      ((if b ≤ 2 * (a % b) then a / b + 1 else a / b : Nat) : Int) := by
  have hbq : (0 : ℚ) < b := by exact_mod_cast hb
  have hdm : (a : ℚ) = (b : ℚ) * ((a / b : Nat) : ℚ) + ((a % b : Nat) : ℚ) := by
    exact_mod_cast (Nat.div_add_mod a b).symm
  have hr : a % b < b := Nat.mod_lt _ hb
  have hrq : ((a % b : Nat) : ℚ) < b := by exact_mod_cast hr
  have hr0 : (0 : ℚ) ≤ ((a % b : Nat) : ℚ) := by positivity
  have hx : (a : ℚ) / b = ((a / b : Nat) : ℚ) + ((a % b : Nat) : ℚ) / b := by
    rw [eq_comm, ← sub_eq_zero]
    field_simp
    linarith
  split_ifs with h <;> rw [Int.floor_eq_iff, hx] <;>
    simp only [Int.cast_add, Int.cast_one, Int.cast_natCast, Nat.cast_add, Nat.cast_one]
  · have h2 : (b : ℚ) ≤ 2 * ((a % b : Nat) : ℚ) := by exact_mod_cast h
    have h3 : (1 : ℚ) / 2 ≤ ((a % b : Nat) : ℚ) / b := by
      rw [le_div_iff₀ hbq]; linarith
    have h4 : ((a % b : Nat) : ℚ) / b < 1 := by
      rw [div_lt_one hbq]; exact hrq
    constructor <;> linarith
  · have h2 : 2 * ((a % b : Nat) : ℚ) < (b : ℚ) := by
      have : 2 * (a % b) < b := by omega
      exact_mod_cast this
    have h3 : ((a % b : Nat) : ℚ) / b < 1 / 2 := by
      rw [div_lt_iff₀ hbq]; linarith
    have h4 : (0 : ℚ) ≤ ((a % b : Nat) : ℚ) / b := by positivity
    constructor <;> linarith

/-- The conversion `ParseInt(x.FloatString(0), 10, 64)` yields `x` rounded to
the nearest integer, halves away from zero, saturated to `int64`. -/
theorem ratToInt64_eq (x : Frac) (hd : 0 < x.den) :
    ratToInt64 x = clampInt64 (roundHalfAway x.toRat) := by
  have hdq : (0 : ℚ) < x.den := by exact_mod_cast hd
  unfold ratToInt64 Frac.FloatString0 roundHalfAway Frac.toRat
  by_cases hneg : x.num < 0
  · have hlt : ¬ (0 : ℚ) ≤ (x.num : ℚ) / (x.den : ℚ) := by
      rw [not_le]
      apply div_neg_of_neg_of_pos _ hdq
      exact_mod_cast hneg
    have habs : -((x.num : ℚ) / (x.den : ℚ)) = ((x.num.natAbs : Nat) : ℚ) / (x.den : ℚ) := by
      rw [← neg_div]
      congr 1
      have hI : ((x.num.natAbs : Nat) : Int) = -x.num := by omega
      rw [← Int.cast_natCast x.num.natAbs, hI, Int.cast_neg]
    simp only [hneg, if_true, List.singleton_append, hlt, if_false]
    rw [parseIntChars_neg_utoa, habs, floor_half_up _ _ hd]
  · have hge : (0 : ℚ) ≤ (x.num : ℚ) / (x.den : ℚ) := by
      apply div_nonneg _ hdq.le
      have : 0 ≤ x.num := by omega
      exact_mod_cast this
    have habs : (x.num : ℚ) / (x.den : ℚ) = ((x.num.natAbs : Nat) : ℚ) / (x.den : ℚ) := by
      congr 1
      have hI : ((x.num.natAbs : Nat) : Int) = x.num := by omega
      rw [← Int.cast_natCast x.num.natAbs, hI]
    simp only [hneg, if_false, List.nil_append, hge, if_true]
    rw [parseIntChars_utoa, habs, floor_half_up _ _ hd]

theorem clampInt64_range (x : Int) : minInt64 ≤ clampInt64 x ∧ clampInt64 x ≤ maxInt64 := by
  unfold clampInt64 minInt64 maxInt64
  split_ifs <;> omega

/-! ## The reward map -/

theorem mapGet_mapAdd (m : List (String × Int)) (k k2 : String) (v : Int) :
    mapGet (mapAdd m k v) k2 =
      if k2 = k then wrapInt64 (mapGet m k + v) else mapGet m k2 := by
  induction m with
  | nil =>
    by_cases h : k2 = k
    · subst h; simp [mapAdd, mapGet]
    · have h' : ¬ k = k2 := fun e => h e.symm
      simp [mapAdd, mapGet, h, h']
  | cons p rest ih =>
    rcases p with ⟨k1, v1⟩
    by_cases h1 : k1 = k
    · subst h1
      by_cases h : k2 = k1
      · subst h; simp [mapAdd, mapGet]
      · have h' : ¬ k1 = k2 := fun e => h e.symm
        simp [mapAdd, mapGet, h, h']
    · by_cases h2 : k1 = k2
      · have h : ¬ k2 = k := fun e => h1 (h2.trans e)
        simp [mapAdd, mapGet, h1, h2, h]
      · simp only [mapAdd, mapGet, if_neg h1, if_neg h2]
        exact ih

theorem newRat_pos (n total : Int) (ht : 0 < total) :
    newRat n total = some ⟨n, total.toNat⟩ := by
  unfold newRat
  rw [if_neg (by omega), if_neg (by omega)]

/-- The credit of one entry: the miners' profit times `n / total`, converted
as in the source. -/
theorem workerReward_eq (reward : Frac) (n total : Int) (ht : 0 < total) (hd : 0 < reward.den) :
    ratToInt64 (reward.mul ⟨n, total.toNat⟩) =
      clampInt64 (roundHalfAway (reward.toRat * (n : ℚ) / (total : ℚ))) := by
  have htn : 0 < total.toNat := by omega
  have hcast : ((total.toNat : Nat) : ℚ) = (total : ℚ) := by
    have : ((total.toNat : Nat) : Int) = total := by omega
    exact_mod_cast this
  rw [ratToInt64_eq _ (by simpa [Frac.mul] using Nat.mul_pos hd htn)]
  congr 2
  unfold Frac.toRat Frac.mul
  push_cast
  rw [hcast]
  have h1 : (reward.den : ℚ) ≠ 0 := by exact_mod_cast hd.ne'
  have h2 : (total : ℚ) ≠ 0 := by exact_mod_cast ht.ne'
  field_simp

/-- The loop of `calculateRewardsForShares`: with a nonzero total it ends, and
over entries with distinct keys it adds each valid entry's credit to its key
and touches no other key. -/
theorem rewardsLoop_spec (total : Int) (reward : Frac) (ht : 0 < total) :
    ∀ (l acc : List (String × Int)), (l.map Prod.fst).Nodup →
      ∃ r, rewardsLoop total reward l acc = some r ∧
        (∀ k n, (k, n) ∈ l → IsValidHexAddress k = true →
          mapGet r k = wrapInt64 (mapGet acc k + ratToInt64 (reward.mul ⟨n, total.toNat⟩))) ∧
        (∀ k, (IsValidHexAddress k = false ∨ k ∉ l.map Prod.fst) → mapGet r k = mapGet acc k) := by
  intro l
  induction l with
  | nil =>
    intro acc _
    exact ⟨acc, rfl, by simp, by simp⟩
  | cons p rest ih =>
    intro acc hnd
    rcases p with ⟨k0, n0⟩
    simp only [List.map_cons, List.nodup_cons] at hnd
    obtain ⟨hk0, hrest⟩ := hnd
    by_cases hv : IsValidHexAddress k0 = true
    · obtain ⟨r, hr, h1, h2⟩ :=
        ih (mapAdd acc k0 (ratToInt64 (reward.mul ⟨n0, total.toNat⟩))) hrest
      refine ⟨r, ?_, ?_, ?_⟩
      · rw [rewardsLoop, if_pos hv, newRat_pos n0 total ht]
        exact hr
      · intro k n hmem hvk
        rcases List.mem_cons.mp hmem with heq | hin
        · rw [(Prod.mk.inj heq).1, (Prod.mk.inj heq).2, h2 k0 (Or.inr hk0), mapGet_mapAdd,
            if_pos rfl]
        · have hne : k ≠ k0 := by
            intro e
            exact hk0 (List.mem_map.mpr ⟨(k, n), hin, e⟩)
          rw [h1 k n hin hvk, mapGet_mapAdd, if_neg hne]
      · intro k hk
        have hk' : IsValidHexAddress k = false ∨ k ∉ rest.map Prod.fst := by
          rcases hk with h | h
          · exact Or.inl h
          · exact Or.inr (fun hin => h (List.mem_cons_of_mem _ hin))
        have hne : k ≠ k0 := by
          intro e
          rcases hk with h | h
          · rw [e, hv] at h; cases h
          · exact h (by rw [e]; exact List.mem_cons_self _ _)
        rw [h2 k hk', mapGet_mapAdd, if_neg hne]
    · obtain ⟨r, hr, h1, h2⟩ := ih acc hrest
      have hv' : IsValidHexAddress k0 = false := by simpa using hv
      refine ⟨r, ?_, ?_, ?_⟩
      · rw [rewardsLoop, if_neg hv]
        exact hr
      · intro k n hmem hvk
        rcases List.mem_cons.mp hmem with heq | hin
        · rw [(Prod.mk.inj heq).1, hv'] at hvk
          cases hvk
        · exact h1 k n hin hvk
      · intro k hk
        by_cases hkv : IsValidHexAddress k = false
        · exact h2 k (Or.inl hkv)
        · rcases hk with h | h
          · exact absurd h hkv
          · exact h2 k (Or.inr (fun hin => h (List.mem_cons_of_mem _ hin)))

/-! ## Bounds on the credits -/

theorem wrapInt64_le (y : Int) (h : minInt64 ≤ y) :
    wrapInt64 y ≤ y ∧ minInt64 ≤ wrapInt64 y := by
  unfold wrapInt64
  unfold minInt64 at *
  omega

theorem mapGet_ge (m : List (String × Int)) (k : String)
    (hm : ∀ p ∈ m, minInt64 ≤ p.2) : minInt64 ≤ mapGet m k := by
  induction m with
  | nil => unfold mapGet minInt64; omega
  | cons p rest ih =>
    rcases p with ⟨k1, v1⟩
    unfold mapGet
    split_ifs with h
    · exact hm (k1, v1) (List.mem_cons_self _ _)
    · exact ih (fun q hq => hm q (List.mem_cons_of_mem _ hq))

/-- The statement `m[k] += v` with `v ≥ 0` raises the sum of the map by at
most `v` and keeps every value in the `int64` range from below. -/
theorem sumCredits_mapAdd (m : List (String × Int)) (k : String) (v : Int)
    (hm : ∀ p ∈ m, minInt64 ≤ p.2) (hv : 0 ≤ v) :
    sumCredits (mapAdd m k v) ≤ sumCredits m + v ∧
      ∀ p ∈ mapAdd m k v, minInt64 ≤ p.2 := by
  induction m with
  | nil =>
    have hw := wrapInt64_le (0 + v) (by unfold minInt64; omega)
    constructor
    · simp only [mapAdd, sumCredits, List.map_cons, List.map_nil, List.sum_cons, List.sum_nil]
      omega
    · intro p hp
      simp only [mapAdd, List.mem_singleton] at hp
      rw [hp]
      exact hw.2
  | cons q rest ih =>
    rcases q with ⟨k1, v1⟩
    have hv1 : minInt64 ≤ v1 := hm (k1, v1) (List.mem_cons_self _ _)
    have hrest : ∀ p ∈ rest, minInt64 ≤ p.2 := fun p hp => hm p (List.mem_cons_of_mem _ hp)
    by_cases h : k1 = k
    · have hw := wrapInt64_le (v1 + v) (by omega)
      constructor
      · simp only [mapAdd, if_pos h, sumCredits, List.map_cons, List.sum_cons]
        omega
      · intro p hp
        simp only [mapAdd, if_pos h, List.mem_cons] at hp
        rcases hp with hp | hp
        · rw [hp]; exact hw.2
        · exact hrest p hp
    · obtain ⟨ih1, ih2⟩ := ih hrest
      constructor
      · simp only [mapAdd, if_neg h, sumCredits, List.map_cons, List.sum_cons] at ih1 ⊢
        omega
      · intro p hp
        simp only [mapAdd, if_neg h, List.mem_cons] at hp
        rcases hp with hp | hp
        · rw [hp]; exact hv1
        · exact ih2 p hp

/-- A nonnegative amount converts to a nonnegative credit that exceeds it by
at most one half. -/
theorem ratToInt64_bounds (x : Frac) (hd : 0 < x.den) (hx : 0 ≤ x.toRat) :
    0 ≤ ratToInt64 x ∧ ((ratToInt64 x : Int) : ℚ) ≤ x.toRat + 1 / 2 := by
  rw [ratToInt64_eq x hd]
  unfold roundHalfAway
  rw [if_pos hx]
  have hf0 : 0 ≤ ⌊x.toRat + 1 / 2⌋ := Int.floor_nonneg.mpr (by linarith)
  have hfl : ((⌊x.toRat + 1 / 2⌋ : Int) : ℚ) ≤ x.toRat + 1 / 2 := Int.floor_le _
  have hc : 0 ≤ clampInt64 ⌊x.toRat + 1 / 2⌋ ∧
      clampInt64 ⌊x.toRat + 1 / 2⌋ ≤ ⌊x.toRat + 1 / 2⌋ := by
    unfold clampInt64 maxInt64 minInt64
    split_ifs <;> omega
  refine ⟨hc.1, le_trans ?_ hfl⟩
  exact_mod_cast hc.2

theorem toRat_mul (x y : Frac) : (x.mul y).toRat = x.toRat * y.toRat := by
  unfold Frac.toRat Frac.mul
  push_cast
  rw [mul_div_mul_comm]

theorem toRat_sub (x y : Frac) (hx : 0 < x.den) (hy : 0 < y.den) :
    (x.sub y).toRat = x.toRat - y.toRat := by
  have h1 : (x.den : ℚ) ≠ 0 := by exact_mod_cast hx.ne'
  have h2 : (y.den : ℚ) ≠ 0 := by exact_mod_cast hy.ne'
  unfold Frac.toRat Frac.sub
  push_cast
  field_simp
  ring

theorem toRat_add (x y : Frac) (hx : 0 < x.den) (hy : 0 < y.den) :
    (x.add y).toRat = x.toRat + y.toRat := by
  have h1 : (x.den : ℚ) ≠ 0 := by exact_mod_cast hx.ne'
  have h2 : (y.den : ℚ) ≠ 0 := by exact_mod_cast hy.ne'
  unfold Frac.toRat Frac.add
  push_cast
  field_simp

theorem toRat_ofInt (a : Int) : (Frac.ofInt a).toRat = (a : ℚ) := by
  simp [Frac.toRat, Frac.ofInt]

/-- Rounding a positive fraction that is at most 1 to binary64 stays within
`[0, 1]`. -/
theorem f64roundPos_le_one (n d : Nat) (hd : 0 < d) (h : n ≤ d) :
    0 < (f64roundPos n d).den ∧ 0 ≤ (f64roundPos n d).num ∧
      (f64roundPos n d).num ≤ ((f64roundPos n d).den : Int) := by
  unfold f64roundPos
  generalize max (ilog2 n d - 52) (-1074) = e
  by_cases he : e ≤ 0
  · simp only [he, if_true]
    generalize hK : 2 ^ (-e).toNat = K
    have hKpos : 0 < K := by rw [← hK]; positivity
    have hdm := Nat.div_add_mod (n * K) d
    have hr := Nat.mod_lt (n * K) hd
    have hle : n * K ≤ d * K := Nat.mul_le_mul_right K h
    have hq : n * K / d ≤ K := by
      apply Nat.div_le_of_le_mul
      exact hle
    have hq' : 0 < n * K % d → n * K / d < K := by
      intro hpos
      by_contra hcon
      have hK2 : K ≤ n * K / d := by omega
      have : d * K ≤ d * (n * K / d) := Nat.mul_le_mul_left d hK2
      omega
    refine ⟨hKpos, by positivity, ?_⟩
    split_ifs with hup
    · have hpos : 0 < n * K % d := by
        rcases hup with h1 | ⟨h1, _⟩ <;> omega
      have := hq' hpos
      exact_mod_cast (by omega : n * K / d + 1 ≤ K)
    · exact_mod_cast hq
  · simp only [he, if_false]
    generalize hE : 2 ^ e.toNat = E
    have hE2 : 2 ≤ E := by
      rw [← hE]
      have h1 : 1 ≤ e.toNat := by omega
      calc 2 = 2 ^ 1 := by norm_num
        _ ≤ 2 ^ e.toNat := Nat.pow_le_pow_right (by norm_num) h1
    have hlt : n < d * E := by
      calc n ≤ d := h
        _ < d * E := by nlinarith
    have hq0 : n / (d * E) = 0 := Nat.div_eq_of_lt hlt
    have hr0 : n % (d * E) = n := Nat.mod_eq_of_lt hlt
    have h2 : d * 2 ≤ d * E := Nat.mul_le_mul_left d hE2
    have hno : ¬ (d * E < 2 * (n % (d * E)) ∨ (2 * (n % (d * E)) = d * E ∧ n / (d * E) % 2 = 1)) := by
      rw [hr0, hq0]
      omega
    have hno1 : ¬ d * E < 2 * (n % (d * E)) := fun hc => hno (Or.inl hc)
    simp only [hno, if_false, hq0]
    simp [hno1]

/-- The fee fraction `fee / 100` of a pool fee between 0 and 100. -/
theorem feePercent_bounds (fee : Frac) (hd : 0 < fee.den) (h0 : 0 ≤ fee.num)
    (h100 : fee.num ≤ 100 * (fee.den : Int)) :
    0 < (f64div fee ⟨100, 1⟩).den ∧ 0 ≤ (f64div fee ⟨100, 1⟩).toRat ∧
      (f64div fee ⟨100, 1⟩).toRat ≤ 1 := by
  have key : ∀ y : Frac, 0 < y.den → 0 ≤ y.num → y.num ≤ (y.den : Int) →
      0 < y.den ∧ 0 ≤ y.toRat ∧ y.toRat ≤ 1 := by
    intro y hyd hy0 hy1
    have hq : (0 : ℚ) < (y.den : ℚ) := by exact_mod_cast hyd
    refine ⟨hyd, ?_, ?_⟩
    · unfold Frac.toRat
      apply div_nonneg _ hq.le
      exact_mod_cast hy0
    · unfold Frac.toRat
      rw [div_le_one hq]
      exact_mod_cast hy1
  unfold f64div
  simp only [show (0 : Int) < 100 by norm_num, if_true, mul_one, Nat.cast_one]
  unfold f64round
  simp only
  by_cases hz : fee.num = 0
  · simp only [hz, if_true]
    exact key ⟨0, 1⟩ (by norm_num) (by norm_num) (by norm_num)
  · have hpos : 0 < fee.num := by omega
    simp only [hz, if_false, hpos, if_true]
    have hb := f64roundPos_le_one fee.num.natAbs (fee.den * (100 : Int).natAbs)
      (by simp; exact hd) (by simp; omega)
    exact key _ hb.1 hb.2.1 hb.2.2

/-- The loop of `calculateRewardsForShares` with nonnegative profit and positive
counts: it ends, and it raises the sum of the map by at most the profit times
the share of the counts in the total, plus one half per credited address. -/
theorem rewardsLoop_sum (total : Int) (reward : Frac) (ht : 0 < total)
    (hd : 0 < reward.den) (hm : 0 ≤ reward.toRat) :
    ∀ (l acc : List (String × Int)), (∀ p ∈ acc, minInt64 ≤ p.2) → (∀ p ∈ l, 0 < p.2) →
      ∃ r, rewardsLoop total reward l acc = some r ∧ (∀ p ∈ r, minInt64 ≤ p.2) ∧
        ((sumCredits r : Int) : ℚ) ≤ ((sumCredits acc : Int) : ℚ) +
          reward.toRat * (((l.map Prod.snd).sum : Int) : ℚ) / (total : ℚ) +
          ((validCount l : Nat) : ℚ) / 2 := by
  have htq : (0 : ℚ) < (total : ℚ) := by exact_mod_cast ht
  have htn : 0 < total.toNat := by omega
  have hcast : ((total.toNat : Nat) : ℚ) = (total : ℚ) := by
    have : ((total.toNat : Nat) : Int) = total := by omega
    exact_mod_cast this
  intro l
  induction l with
  | nil =>
    intro acc hacc _
    refine ⟨acc, rfl, hacc, ?_⟩
    simp [validCount]
  | cons p rest ih =>
    intro acc hacc hpos
    rcases p with ⟨k0, n0⟩
    have hn0 : 0 < n0 := hpos (k0, n0) (List.mem_cons_self _ _)
    have hn0q : (0 : ℚ) < (n0 : ℚ) := by exact_mod_cast hn0
    have hrestpos : ∀ p ∈ rest, 0 < p.2 := fun p hp => hpos p (List.mem_cons_of_mem _ hp)
    have hsplit : reward.toRat * (((((k0, n0) :: rest).map Prod.snd).sum : Int) : ℚ) / (total : ℚ)
        = reward.toRat * (n0 : ℚ) / (total : ℚ) +
          reward.toRat * (((rest.map Prod.snd).sum : Int) : ℚ) / (total : ℚ) := by
      simp only [List.map_cons, List.sum_cons]
      push_cast
      ring
    have hx0 : 0 ≤ reward.toRat * (n0 : ℚ) / (total : ℚ) := by positivity
    by_cases hv : IsValidHexAddress k0 = true
    · have hxeq : (reward.mul ⟨n0, total.toNat⟩).toRat = reward.toRat * (n0 : ℚ) / (total : ℚ) := by
        rw [toRat_mul]
        unfold Frac.toRat
        simp only [hcast]
        ring
      have hden : 0 < (reward.mul ⟨n0, total.toNat⟩).den := by
        simpa [Frac.mul] using Nat.mul_pos hd htn
      have hb := ratToInt64_bounds (reward.mul ⟨n0, total.toNat⟩) hden (by rw [hxeq]; exact hx0)
      rw [hxeq] at hb
      have hadd := sumCredits_mapAdd acc k0 (ratToInt64 (reward.mul ⟨n0, total.toNat⟩)) hacc hb.1
      obtain ⟨r, hr, hinv, hsum⟩ :=
        ih (mapAdd acc k0 (ratToInt64 (reward.mul ⟨n0, total.toNat⟩))) hadd.2 hrestpos
      refine ⟨r, ?_, hinv, ?_⟩
      · rw [rewardsLoop, if_pos hv, newRat_pos n0 total ht]
        exact hr
      · have hcnt : ((validCount ((k0, n0) :: rest) : Nat) : ℚ) =
            ((validCount rest : Nat) : ℚ) + 1 := by
          simp [validCount, List.filter, hv]
        have hadd1 : ((sumCredits (mapAdd acc k0 (ratToInt64 (reward.mul ⟨n0, total.toNat⟩))) : Int) : ℚ)
            ≤ ((sumCredits acc : Int) : ℚ) +
              ((ratToInt64 (reward.mul ⟨n0, total.toNat⟩) : Int) : ℚ) := by
          exact_mod_cast hadd.1
        rw [hsplit, hcnt]
        linarith [hb.2]
    · obtain ⟨r, hr, hinv, hsum⟩ := ih acc hacc hrestpos
      have hv' : IsValidHexAddress k0 = false := by simpa using hv
      refine ⟨r, ?_, hinv, ?_⟩
      · rw [rewardsLoop, if_neg hv]
        exact hr
      · have hcnt : ((validCount ((k0, n0) :: rest) : Nat) : ℚ) =
            ((validCount rest : Nat) : ℚ) := by
          simp [validCount, List.filter, hv']
        rw [hsplit, hcnt]
        linarith

/-! ## Share processing -/

/-- C1 (counterexample): the header matches, the verifier accepts the share
at both difficulties and upstream `SubmitWork` returns an error;
`processShare` returns `(false, true, false)`, not `(false, false, false)`. -/
theorem processShare_submit_error_reports_valid :
    equalFold noFold exTemplate.Header hashLower = true ∧
    exServerSubmitFails.submitWork exParams = (false, some ⟨"connection refused"⟩) ∧
    processShare noFold exServerSubmitFails addrA "w1" "10.0.0.1" (some exTemplate) exParams 0 =
      some ((false, true, false),
        [Event.verify { difficulty := some 1000, hashNoNonce := hashLower, nonce := 1,
                        mixDigest := mixHex, number := 100 },
         Event.verify { difficulty := some 1000000000, hashNoNonce := hashLower, nonce := 1,
                        mixDigest := mixHex, number := 100 },
         Event.submitWork exParams]) := by
  decide

/-- C1 (amended): for every submission whose `hash_no_nonce` matches the
template header and that verifies at both the share difficulty and the block
difficulty, if upstream `SubmitWork` returns an error then `processShare`
returns `(exists=false, valid=true, stale=false)`, and the only calls made are
the two verifications and the submission: no block or share is written to the
store and the template is not refreshed. -/
theorem processShare_submit_error (uni : Char → Char → Bool) (s : ProxyServer)
    (login id ip : String) (t : BlockTemplate) (p0 p1 p2 : String) (rest : List String)
    (s_id : Nat) (shareDiff : Int) (ok : Bool) (err : Err)
    (hs : s.stratumDifficulty[s_id]? = some shareDiff)
    (hh : equalFold uni t.Header p1 = true)
    (hshare : s.verify { difficulty := some shareDiff, hashNoNonce := p1,
                         nonce := (parseUint 16 (strip0x p0)).1, mixDigest := p2,
                         number := t.Height } = true)
    (hblock : s.verify { difficulty := t.Difficulty, hashNoNonce := p1,
                         nonce := (parseUint 16 (strip0x p0)).1, mixDigest := p2,
                         number := t.Height } = true)
    (hsub : s.submitWork (p0 :: p1 :: p2 :: rest) = (ok, some err)) :
    processShare uni s login id ip (some t) (p0 :: p1 :: p2 :: rest) s_id =
      some ((false, true, false),
        [Event.verify { difficulty := some shareDiff, hashNoNonce := p1,
                        nonce := (parseUint 16 (strip0x p0)).1, mixDigest := p2,
                        number := t.Height },
         Event.verify { difficulty := t.Difficulty, hashNoNonce := p1,
                        nonce := (parseUint 16 (strip0x p0)).1, mixDigest := p2,
                        number := t.Height },
         Event.submitWork (p0 :: p1 :: p2 :: rest)]) := by
  simp [processShare, hs, hh, hshare, hblock, hsub]

/-- Witness for `processShare_submit_error`. -/
theorem processShare_submit_error_witness :
    processShare noFold exServerSubmitFails addrA "w1" "10.0.0.1" (some exTemplate)
        ["0x0000000000000001", hashLower, mixHex] 0 =
      some ((false, true, false),
        [Event.verify { difficulty := some 1000, hashNoNonce := hashLower,
                        nonce := (parseUint 16 (strip0x "0x0000000000000001")).1,
                        mixDigest := mixHex, number := exTemplate.Height },
         Event.verify { difficulty := exTemplate.Difficulty, hashNoNonce := hashLower,
                        nonce := (parseUint 16 (strip0x "0x0000000000000001")).1,
                        mixDigest := mixHex, number := exTemplate.Height },
         Event.submitWork ["0x0000000000000001", hashLower, mixHex]]) :=
  processShare_submit_error noFold exServerSubmitFails addrA "w1" "10.0.0.1" exTemplate
    "0x0000000000000001" hashLower mixHex [] 0 1000 false ⟨"connection refused"⟩
    (by decide) (by decide) rfl rfl rfl

/-- C2 (counterexample): the template header differs from `params[1]` as a
string (upper-case against lower-case hex), yet the submission is not stale:
the PoW verifier is called and the result is `(false, false, false)`. -/
theorem processShare_case_differs_not_stale :
    exTemplateUpper.Header ≠ hashLower ∧
    processShare noFold exServerRejects addrA "w1" "10.0.0.1" (some exTemplateUpper) exParams 0 =
      some ((false, false, false),
        [Event.verify { difficulty := some 1000, hashNoNonce := hashLower, nonce := 1,
                        mixDigest := mixHex, number := 100 }]) := by
  decide

/-- C2 (amended): with a valid stratum index, a non-nil template and at least
three params, if the template header and `params[1]` are not equal under
`strings.EqualFold` then `processShare` returns `(false, false, true)` and
makes no call to the verifier, to upstream or to the store. -/
theorem processShare_stale (uni : Char → Char → Bool) (s : ProxyServer)
    (login id ip : String) (t : BlockTemplate) (p0 p1 p2 : String) (rest : List String)
    (s_id : Nat) (shareDiff : Int)
    (hs : s.stratumDifficulty[s_id]? = some shareDiff)
    (hne : equalFold uni t.Header p1 = false) :
    processShare uni s login id ip (some t) (p0 :: p1 :: p2 :: rest) s_id =
      some ((false, false, true), []) := by
  simp [processShare, hs, hne]

/-- Witness for `processShare_stale`. -/
theorem processShare_stale_witness :
    processShare noFold exServerSubmitFails addrA "w1" "10.0.0.1" (some exTemplate)
        ["0x0000000000000001", mixHex, mixHex] 0 = some ((false, false, true), []) :=
  processShare_stale noFold exServerSubmitFails addrA "w1" "10.0.0.1" exTemplate
    "0x0000000000000001" mixHex mixHex [] 0 1000 (by decide) (by decide)

/-! ## Reward calculation -/

/-- C3 (counterexample): with miners' profit 1, one valid address holding 1
share and total 2, the credit is 1, while `floor(1 · 1 / 2)` is 0. -/
theorem calculateRewardsForShares_half_rounds_up :
    IsValidHexAddress addrA = true ∧
    calculateRewardsForShares [(addrA, 1)] 2 ⟨1, 1⟩ = some [(addrA, 1)] ∧
    ⌊(Frac.toRat ⟨1, 1⟩) * (1 : ℚ) / (2 : ℚ)⌋ = 0 := by
  refine ⟨by decide, by decide, ?_⟩
  rw [Int.floor_eq_iff]
  norm_num [Frac.toRat]

/-- C3 (amended): for round shares with distinct addresses, a total `T > 0`
and miners' profit `m`, `calculateRewardsForShares` returns a map that credits
each address passing `IsValidHexAddress` with `m · n / T` rounded to the
nearest integer, halves away from zero, saturated to `int64`. With reward
1,000,000, pool fee 1.0, shares `A: 50, B: 30, C: 20`, total 100 and no extra
reward, `calculateRewards` credits A 495,000, B 297,000, C 198,000 and the
pool-fee address 10,000. -/
theorem calculateRewardsForShares_rounds :
    (∀ (shares : List (String × Int)) (total : Int) (reward : Frac),
      (shares.map Prod.fst).Nodup → 0 < total → 0 < reward.den →
      ∃ rewards, calculateRewardsForShares shares total reward = some rewards ∧
        ∀ addr n, (addr, n) ∈ shares → IsValidHexAddress addr = true →
          mapGet rewards addr =
            clampInt64 (roundHalfAway (reward.toRat * (n : ℚ) / (total : ℚ)))) ∧
    (∃ rr, calculateRewards (exConfig 32 16 ⟨1, 1⟩ false) (exRoundShares 50 30 20)
        (exRoundBlock 1000000 100) = some (Except.ok rr) ∧
      mapGet rr.rewards addrA = 495000 ∧ mapGet rr.rewards addrB = 297000 ∧
      mapGet rr.rewards addrC = 198000 ∧ mapGet rr.rewards addrPool = 10000) := by
  constructor
  · intro shares total reward hnd ht hd
    obtain ⟨r, hr, h1, _⟩ := rewardsLoop_spec total reward ht shares [] hnd
    refine ⟨r, hr, ?_⟩
    intro addr n hmem hv
    rw [h1 addr n hmem hv, workerReward_eq reward n total ht hd]
    have hrange := clampInt64_range (roundHalfAway (reward.toRat * (n : ℚ) / (total : ℚ)))
    have h0 : mapGet [] addr = 0 := rfl
    rw [h0, zero_add]
    exact wrapInt64_of_range _ hrange.1 hrange.2
  · refine ⟨_, rfl, ?_⟩
    decide

/-- Witness for `calculateRewardsForShares_rounds`: one address with one of
two shares of a profit of 1 is credited 1. -/
theorem calculateRewardsForShares_rounds_witness :
    ∃ rewards, calculateRewardsForShares [(addrA, 1)] 2 ⟨1, 1⟩ = some rewards ∧
      ∀ addr n, (addr, n) ∈ [(addrA, (1 : Int))] → IsValidHexAddress addr = true →
        mapGet rewards addr =
          clampInt64 (roundHalfAway ((Frac.toRat ⟨1, 1⟩) * (n : ℚ) / ((2 : Int) : ℚ))) :=
  calculateRewardsForShares_rounds.1 [(addrA, 1)] 2 ⟨1, 1⟩ (by decide) (by decide) (by decide)

/-- C4 (counterexample): block reward 300,000,000, pool fee 1.0, no extra
reward, shares `A: 5, B: 5, C: 4` of total 14. The credits are 106,071,429,
106,071,429, 84,857,143 and 3,000,000 for the pool: their sum 300,000,001
exceeds the reward. -/
theorem calculateRewards_credits_exceed_reward :
    ∃ rr, calculateRewards (exConfig 32 16 ⟨1, 1⟩ false) (exRoundShares 5 5 4)
        (exRoundBlock 300000000 14) = some (Except.ok rr) ∧
      rr.rewards = [(addrA, 106071429), (addrB, 106071429), (addrC, 84857143),
        (addrPool, 3000000)] ∧
      sumCredits rr.rewards = 300000001 ∧
      (exRoundBlock 300000000 14).Reward = some 300000000 ∧
      (exRoundBlock 300000000 14).ExtraReward = none := by
  refine ⟨_, rfl, ?_⟩
  decide

/-- C4 (amended): for a block with reward `R ≥ 0`, optional extra reward
`≥ 0`, pool fee between 0 and 100 and round shares with positive counts that
sum to the total `T > 0`, `calculateRewards` returns credits whose sum is at
most `R + extra_reward + (k + 1) / 2`, where `k` is the number of share
addresses passing `IsValidHexAddress`: twice the sum is at most
`2 · (R + extra_reward) + k + 1`. -/
theorem calculateRewards_sum_bound (cfg : UnlockerConfig)
    (getRoundShares : Int → String → List (String × Int) × Option Err)
    (block : BlockData) (R : Int) (shares : List (String × Int))
    (hR : block.Reward = some R) (hR0 : 0 ≤ R)
    (hE : ∀ e, block.ExtraReward = some e → 0 ≤ e)
    (hfd : 0 < cfg.PoolFee.den) (hf0 : 0 ≤ cfg.PoolFee.num)
    (hf100 : cfg.PoolFee.num ≤ 100 * (cfg.PoolFee.den : Int))
    (hstore : getRoundShares block.RoundHeight block.Nonce = (shares, none))
    (hpos : ∀ p ∈ shares, 0 < p.2)
    (hsum : (shares.map Prod.snd).sum = block.TotalShares)
    (hT : 0 < block.TotalShares) :
    ∃ rr, calculateRewards cfg getRoundShares block = some (Except.ok rr) ∧
      2 * sumCredits rr.rewards ≤
        2 * (R + block.ExtraReward.getD 0) + ((validCount shares : Nat) : Int) + 1 := by
  obtain ⟨hpd, hp0, hp1⟩ := feePercent_bounds cfg.PoolFee hfd hf0 hf100
  generalize hp : f64div cfg.PoolFee ⟨100, 1⟩ = p at hpd hp0 hp1
  have hRq : (0 : ℚ) ≤ (R : ℚ) := by exact_mod_cast hR0
  have hTq : (0 : ℚ) < (block.TotalShares : ℚ) := by exact_mod_cast hT
  have hfeeden : 0 < ((Frac.ofInt R).mul p).den := by
    simpa [Frac.mul, Frac.ofInt] using hpd
  have hfee : ((Frac.ofInt R).mul p).toRat = (R : ℚ) * p.toRat := by
    rw [toRat_mul, toRat_ofInt]
  have hminers : ((Frac.ofInt R).sub ((Frac.ofInt R).mul p)).toRat = (R : ℚ) - (R : ℚ) * p.toRat := by
    rw [toRat_sub _ _ (by simp [Frac.ofInt]) hfeeden, hfee, toRat_ofInt]
  have hminersden : 0 < ((Frac.ofInt R).sub ((Frac.ofInt R).mul p)).den := by
    simpa [Frac.sub, Frac.mul, Frac.ofInt] using hpd
  have hminers0 : 0 ≤ ((Frac.ofInt R).sub ((Frac.ofInt R).mul p)).toRat := by
    rw [hminers]; nlinarith
  obtain ⟨r, hr, hinv, hrsum⟩ :=
    rewardsLoop_sum block.TotalShares _ hT hminersden hminers0 shares []
      (by simp) hpos
  rw [hsum, hminers] at hrsum
  have hrsum' : ((sumCredits r : Int) : ℚ) ≤ (R : ℚ) - (R : ℚ) * p.toRat +
      ((validCount shares : Nat) : ℚ) / 2 := by
    have h1 : ((R : ℚ) - (R : ℚ) * p.toRat) * (block.TotalShares : ℚ) / (block.TotalShares : ℚ)
        = (R : ℚ) - (R : ℚ) * p.toRat := by
      field_simp
    have h0 : ((sumCredits ([] : List (String × Int)) : Int) : ℚ) = 0 := by
      simp [sumCredits]
    rw [h1, h0] at hrsum
    linarith
  unfold calculateRewards
  rw [hR]
  simp only [chargeFee, hstore, calculateRewardsForShares, hr, hp]
  refine ⟨_, rfl, ?_⟩
  simp only []
  have fin : ∀ (pf : Frac) (E : Int), 0 ≤ E → 0 < pf.den →
      pf.toRat = (R : ℚ) * p.toRat + (E : ℚ) →
      2 * sumCredits (if cfg.PoolFeeAddress.length ≠ 0 then
          mapAdd r cfg.PoolFeeAddress (ratToInt64 pf) else r) ≤
        2 * (R + E) + ((validCount shares : Nat) : Int) + 1 := by
    intro pf E hE0 hpfd hpf
    have hEq : (0 : ℚ) ≤ (E : ℚ) := by exact_mod_cast hE0
    have hpf0 : 0 ≤ pf.toRat := by rw [hpf]; positivity
    have hb := ratToInt64_bounds pf hpfd hpf0
    rw [hpf] at hb
    have goalq : ((sumCredits (if cfg.PoolFeeAddress.length ≠ 0 then
          mapAdd r cfg.PoolFeeAddress (ratToInt64 pf) else r) : Int) : ℚ) ≤
        (R : ℚ) + (E : ℚ) + ((validCount shares : Nat) : ℚ) / 2 + 1 / 2 := by
      split_ifs with hlen
      · have hadd := (sumCredits_mapAdd r cfg.PoolFeeAddress (ratToInt64 pf) hinv hb.1).1
        have haddq : ((sumCredits (mapAdd r cfg.PoolFeeAddress (ratToInt64 pf)) : Int) : ℚ) ≤
            ((sumCredits r : Int) : ℚ) + ((ratToInt64 pf : Int) : ℚ) := by
          exact_mod_cast hadd
        linarith [hb.2]
      · have : 0 ≤ (R : ℚ) * p.toRat := by positivity
        linarith
    have goal2 : ((2 * sumCredits (if cfg.PoolFeeAddress.length ≠ 0 then
          mapAdd r cfg.PoolFeeAddress (ratToInt64 pf) else r) : Int) : ℚ) ≤
        ((2 * (R + E) + ((validCount shares : Nat) : Int) + 1 : Int) : ℚ) := by
      push_cast
      linarith
    exact_mod_cast goal2
  cases hx : block.ExtraReward with
  | none =>
    simp only [Option.getD_none]
    have := fin ((Frac.ofInt R).mul p) 0 (le_refl 0) hfeeden (by rw [hfee]; simp)
    simpa using this
  | some e =>
    simp only [Option.getD_some]
    refine fin (((Frac.ofInt R).mul p).add (Frac.ofInt e)) e (hE e hx) ?_ ?_
    · simpa [Frac.add, Frac.ofInt] using hfeeden
    · rw [toRat_add _ _ hfeeden (by simp [Frac.ofInt]), hfee, toRat_ofInt]

/-- Witness for `calculateRewards_sum_bound`: the round of the counterexample,
where the bound `2 · 300000000 + 3 + 1` holds. -/
theorem calculateRewards_sum_bound_witness :
    ∃ rr, calculateRewards (exConfig 32 16 ⟨1, 1⟩ false) (exRoundShares 5 5 4)
        (exRoundBlock 300000000 14) = some (Except.ok rr) ∧
      2 * sumCredits rr.rewards ≤
        2 * (300000000 + (exRoundBlock 300000000 14).ExtraReward.getD 0) +
          ((validCount [(addrA, 5), (addrB, 5), (addrC, 4)] : Nat) : Int) + 1 :=
  calculateRewards_sum_bound (exConfig 32 16 ⟨1, 1⟩ false) (exRoundShares 5 5 4)
    (exRoundBlock 300000000 14) 300000000 [(addrA, 5), (addrB, 5), (addrC, 4)]
    rfl (by decide) (by intro e h; cases h) (by decide) (by decide) (by decide)
    rfl (by decide) (by decide) (by decide)

/-! ## Block subsidy -/

/-- C5 (code at the failing input): at height 1,500,000 the float expression
of `handleBlock` yields 257,212,499 while `floor(300000000 · 0.95^3)` is
257,212,500; at heights 499,999, 500,000 and 1,000,000 it yields 300,000,000,
285,000,000 and 270,750,000. -/
theorem blockSubsidy_height_1500000 :
    blockSubsidy 1500000 = 257212499 ∧ subsidySpec 1500000 = 257212500 ∧
    blockSubsidy 499999 = 300000000 ∧ blockSubsidy 500000 = 285000000 ∧
    blockSubsidy 1000000 = 270750000 := by
  refine ⟨by decide, ?_, by decide, by decide, by decide⟩
  unfold subsidySpec
  norm_num

/-! ## Identity check -/

theorem string_length_pos_iff (s : String) : s.length > 0 ↔ s ≠ "" := by
  rcases s with ⟨l⟩
  cases l with
  | nil => simp [String.length]
  | cons a l =>
    simp [String.length]
    intro h
    have := congrArg String.data h
    simp at this

/-- C6: `matchCandidate` returns true exactly when (1) the block has no
transactions, or its first transaction has no outputs, or the first output's
address is the configured pool address; (2) the candidate hash is empty or
equals the block hash under `strings.EqualFold`; (3) the block nonce parsed
as decimal `int64` equals the candidate nonce, with `0x` removed, parsed as
hexadecimal `int64`. With no transactions the result is the same for every
configuration. -/
theorem matchCandidate_iff (uni : Char → Char → Bool) (cfg : UnlockerConfig)
    (block : GetBlockReply) (candidate : BlockData) :
    (matchCandidate uni cfg block candidate = true ↔
      ((block.Transactions = [] ∨
        (∃ tx rest, block.Transactions = tx :: rest ∧ tx.Outputs = []) ∨
        (∃ tx rest out outs, block.Transactions = tx :: rest ∧ tx.Outputs = out :: outs ∧
          out.Address = cfg.Address)) ∧
       (candidate.Hash = "" ∨ equalFold uni candidate.Hash block.Hash = true) ∧
       (parseInt 10 block.Nonce).1 = (parseInt 16 (strip0x candidate.Nonce)).1)) ∧
    (block.Transactions = [] →
      ∀ cfg2 : UnlockerConfig,
        matchCandidate uni cfg2 block candidate = matchCandidate uni cfg block candidate) := by
  have hlen := string_length_pos_iff candidate.Hash
  constructor
  · unfold matchCandidate
    cases htx : block.Transactions with
    | nil =>
      by_cases hh : candidate.Hash = ""
      · have : ¬ candidate.Hash.length > 0 := by rw [hlen]; simp [hh]
        simp [this, hh]
      · have : candidate.Hash.length > 0 := hlen.mpr hh
        cases he : equalFold uni candidate.Hash block.Hash <;> simp [this, hh, he]
    | cons tx rest =>
      cases hout : tx.Outputs with
      | nil =>
        by_cases hh : candidate.Hash = ""
        · have : ¬ candidate.Hash.length > 0 := by rw [hlen]; simp [hh]
          simp [this, hh, hout]
        · have : candidate.Hash.length > 0 := hlen.mpr hh
          cases he : equalFold uni candidate.Hash block.Hash <;> simp [this, hh, he, hout]
      | cons out outs =>
        by_cases ha : out.Address = cfg.Address
        · by_cases hh : candidate.Hash = ""
          · have : ¬ candidate.Hash.length > 0 := by rw [hlen]; simp [hh]
            simp [this, hh, hout, ha]
          · have : candidate.Hash.length > 0 := hlen.mpr hh
            cases he : equalFold uni candidate.Hash block.Hash <;>
              simp [this, hh, he, hout, ha]
        · simp [hout, ha]
  · intro htx cfg2
    simp [matchCandidate, htx]

/-- Witness for `matchCandidate_iff`: a block without transactions is judged
the same under two configurations with different pool addresses. -/
theorem matchCandidate_iff_witness :
    matchCandidate noFold { exConfig 32 16 ⟨1, 1⟩ false with Address := addrA }
        { exBlock with Transactions := [] } exCandidate =
      matchCandidate noFold (exConfig 32 16 ⟨1, 1⟩ false)
        { exBlock with Transactions := [] } exCandidate :=
  (matchCandidate_iff noFold (exConfig 32 16 ⟨1, 1⟩ false)
    { exBlock with Transactions := [] } exCandidate).2 rfl
    { exConfig 32 16 ⟨1, 1⟩ false with Address := addrA }

/-! ## Unlocker start-up -/

/-- C7 (counterexample): depth 32 with immature depth 100 violates
`depth ≥ 2 · immatureDepth`, and the unlocker is created. -/
theorem NewBlockUnlocker_depth_32_immature_100 :
    ¬ ((32 : Int) ≥ 2 * 100) ∧
    NewBlockUnlocker (fun _ => true) (exConfig 32 100 ⟨1, 1⟩ false) =
      Startup.created { config := exConfig 32 100 ⟨1, 1⟩ false, halt := false, lastFail := none } := by
  decide

/-- C7 (amended): the unlocker is created exactly when `depth ≥ 32`,
`immatureDepth ≥ 16`, the pool-fee address is a valid address and the timeout
parses; whenever `depth < 32` or `immatureDepth < 16` start-up ends in
`log.Fatalf`. -/
theorem NewBlockUnlocker_guards (parseDuration : String → Bool) (cfg : UnlockerConfig) :
    ((∃ u, NewBlockUnlocker parseDuration cfg = Startup.created u) ↔
      (32 ≤ cfg.Depth ∧ 16 ≤ cfg.ImmatureDepth ∧ IsValidHexAddress cfg.PoolFeeAddress = true ∧
        parseDuration cfg.Timeout = true)) ∧
    ((cfg.Depth < 32 ∨ cfg.ImmatureDepth < 16) →
      ∃ msg, NewBlockUnlocker parseDuration cfg = Startup.fatal msg) := by
  have hmin : minDepth = 16 := rfl
  constructor
  · constructor
    · rintro ⟨u, hu⟩
      unfold NewBlockUnlocker at hu
      rw [hmin] at hu
      split_ifs at hu with h1 h2 h3 h4 h5
      refine ⟨by omega, by omega, ?_, ?_⟩
      · by_contra hv
        have hv2 : IsValidHexAddress cfg.PoolFeeAddress = false := by simpa using hv
        exact h3 ⟨by omega, hv2⟩
      · simpa using h5
    · rintro ⟨h1, h2, h3, h4⟩
      have hl := IsValidHexAddress_length _ h3
      refine ⟨{ config := cfg, halt := false, lastFail := none }, ?_⟩
      unfold NewBlockUnlocker
      rw [hmin]
      rw [if_neg (by omega), if_neg (by omega), if_neg (by simp [h3]), if_neg (by omega),
        if_neg (by simp [h4])]
  · intro h
    unfold NewBlockUnlocker
    rw [hmin]
    by_cases h1 : cfg.Depth < 16 * 2
    · exact ⟨_, by rw [if_pos h1]⟩
    · have h2 : cfg.ImmatureDepth < 16 := by omega
      exact ⟨_, by rw [if_neg h1, if_pos h2]⟩

/-- Witness for `NewBlockUnlocker_guards`: depth 31 aborts start-up. -/
theorem NewBlockUnlocker_guards_witness :
    ∃ msg, NewBlockUnlocker (fun _ => true) (exConfig 31 16 ⟨1, 1⟩ false) = Startup.fatal msg :=
  (NewBlockUnlocker_guards (fun _ => true) (exConfig 31 16 ⟨1, 1⟩ false)).2
    (Or.inl (by decide))

/-! ## Login -/

/-- C8 (code at the failing input): for a login matching the address pattern,
when upstream `ValidateAddress` returns a nil reply (as it does with every
transport or protocol error) the handler panics on `address.Valid()`; when it
returns a non-nil reply that is not valid, or a non-nil reply together with an
error, the handler returns `(false, ErrorReply{Code: 0})`, leaves the session
untouched and registers nothing. -/
theorem handleLoginRPC_validate_outcomes
    (validateAddress : String → Option ValidateAddress × Option Err)
    (applyLoginPolicy : String → String → Bool) (stratumCount : Nat) (cs : Session)
    (login : String) (rest : List String) (id : String)
    (hv : IsValidHexAddress login = true) :
    (∀ err, validateAddress login = (none, err) →
      handleLoginRPC validateAddress applyLoginPolicy stratumCount cs (login :: rest) id = none) ∧
    (∀ reply err, validateAddress login = (some reply, err) →
      (reply.IsValid = false ∨ reply.TestNet = true ∨ err.isSome = true) →
      handleLoginRPC validateAddress applyLoginPolicy stratumCount cs (login :: rest) id =
        some { ok := false, reply := some ⟨0, "Invalid login."⟩, session := cs,
               trace := [LoginEvent.validateAddress login] }) := by
  constructor
  · intro err he
    simp [handleLoginRPC, hv, he, ValidateAddress.Valid]
  · intro reply err he hbad
    rcases reply with ⟨iv, tn⟩
    cases iv <;> cases tn <;> cases err <;>
      simp_all [handleLoginRPC, ValidateAddress.Valid]

/-- Witness for `handleLoginRPC_validate_outcomes`: an upstream error makes
the login handler panic. -/
theorem handleLoginRPC_validate_outcomes_witness :
    handleLoginRPC (fun _ => (none, some ⟨"connection refused"⟩)) (fun _ _ => true) 1
      { ip := "10.0.0.1", login := "", s_id := 0 } [addrA] "1" = none :=
  (handleLoginRPC_validate_outcomes (fun _ => (none, some ⟨"connection refused"⟩))
    (fun _ _ => true) 1 { ip := "10.0.0.1", login := "", s_id := 0 } addrA [] "1"
    (by decide)).1 (some ⟨"connection refused"⟩) rfl

/-! ## Block handling -/

/-- C9 (counterexample): with `keepTxFees` false, a candidate that already
carries an extra reward keeps it; `ExtraReward` is not null afterwards. -/
theorem handleBlock_keeps_old_extra_reward :
    (exConfig 32 16 ⟨1, 1⟩ false).KeepTxFees = false ∧
    handleBlock (exConfig 32 16 ⟨1, 1⟩ false) (fun _ => (some exBlock, none)) exBlock
        { exCandidate with ExtraReward := some 7 } =
      some ({ exCandidate with
                Height := 100, Hash := hashLower, Orphan := false,
                Reward := some 300000500, ExtraReward := some 7 }, none) := by
  decide

/-- C9 (amended): when upstream `GetBlockTxs` answers with a block whose first
transaction's first output has value `V`, and `r` is the subsidy computed for
the block number, `handleBlock` returns no error and a candidate with
`Height = int64(block.Number)`, `Hash = block.Hash`, `Orphan = false` and all
other fields but `Reward`/`ExtraReward` untouched; with `keepTxFees` it has
`ExtraReward = V - r` and `Reward = r`; without, `Reward = V` and
`ExtraReward` is what it was before the call. -/
theorem handleBlock_sets_fields (cfg : UnlockerConfig)
    (getBlockTxs : Nat → Option GetBlockReply × Option Err)
    (block : GetBlockReply) (candidate : BlockData)
    (txs : GetBlockReply) (tx : MVSTx) (txRest : List MVSTx)
    (out : MVSTxOutput) (outRest : List MVSTxOutput)
    (hcall : getBlockTxs block.Number = (some txs, none))
    (htx : txs.Transactions = tx :: txRest) (hout : tx.Outputs = out :: outRest) :
    ∃ c, handleBlock cfg getBlockTxs block candidate = some (c, none) ∧
      c.Height = wrapInt64 (block.Number : Int) ∧
      (block.Number < 9223372036854775808 → c.Height = (block.Number : Int)) ∧
      c.Hash = block.Hash ∧ c.Orphan = false ∧
      c.RoundHeight = candidate.RoundHeight ∧ c.Nonce = candidate.Nonce ∧
      c.TotalShares = candidate.TotalShares ∧
      (cfg.KeepTxFees = true →
        c.ExtraReward = some (out.Value - blockSubsidy block.Number) ∧
        c.Reward = some (blockSubsidy block.Number)) ∧
      (cfg.KeepTxFees = false →
        c.Reward = some out.Value ∧ c.ExtraReward = candidate.ExtraReward) := by
  have hw : block.Number < 9223372036854775808 →
      wrapInt64 (block.Number : Int) = (block.Number : Int) := by
    intro h
    apply wrapInt64_of_range
    · unfold minInt64; omega
    · unfold maxInt64; omega
  cases hk : cfg.KeepTxFees
  · refine ⟨{ candidate with
                Height := wrapInt64 (block.Number : Int), Orphan := false, Hash := block.Hash,
                Reward := some (blockSubsidy block.Number + (out.Value - blockSubsidy block.Number)) },
              ?_, rfl, hw, rfl, rfl, rfl, rfl, rfl, ?_, ?_⟩
    · simp [handleBlock, getExtraRewardForTx, hcall, htx, hout, hk]
    · intro h
      cases h
    · intro _
      exact ⟨by simp, rfl⟩
  · refine ⟨{ candidate with
                ExtraReward := some (out.Value - blockSubsidy block.Number),
                Height := wrapInt64 (block.Number : Int), Orphan := false, Hash := block.Hash,
                Reward := some (blockSubsidy block.Number) },
              ?_, rfl, hw, rfl, rfl, rfl, rfl, rfl, ?_, ?_⟩
    · simp [handleBlock, getExtraRewardForTx, hcall, htx, hout, hk]
    · intro _
      exact ⟨rfl, rfl⟩
    · intro h
      cases h

/-- Witness for `handleBlock_sets_fields`. -/
theorem handleBlock_sets_fields_witness :
    ∃ c, handleBlock (exConfig 32 16 ⟨1, 1⟩ true) (fun _ => (some exBlock, none)) exBlock
        exCandidate = some (c, none) ∧
      c.Height = wrapInt64 ((exBlock.Number : Nat) : Int) ∧
      (exBlock.Number < 9223372036854775808 → c.Height = ((exBlock.Number : Nat) : Int)) ∧
      c.Hash = exBlock.Hash ∧ c.Orphan = false ∧
      c.RoundHeight = exCandidate.RoundHeight ∧ c.Nonce = exCandidate.Nonce ∧
      c.TotalShares = exCandidate.TotalShares ∧
      ((exConfig 32 16 ⟨1, 1⟩ true).KeepTxFees = true →
        c.ExtraReward = some ((300000500 : Int) - blockSubsidy exBlock.Number) ∧
        c.Reward = some (blockSubsidy exBlock.Number)) ∧
      ((exConfig 32 16 ⟨1, 1⟩ true).KeepTxFees = false →
        c.Reward = some (300000500 : Int) ∧ c.ExtraReward = exCandidate.ExtraReward) :=
  handleBlock_sets_fields (exConfig 32 16 ⟨1, 1⟩ true) (fun _ => (some exBlock, none)) exBlock
    exCandidate exBlock { Hash := "0x01", Outputs := [{ Address := addrPool, Value := 300000500 }] }
    [] { Address := addrPool, Value := 300000500 } [] rfl rfl rfl

/-! ## Client health -/

theorem markAlive_big (r : RPCClient) (h4 : 4 ≤ r.successRate)
    (hm : r.successRate < 9223372036854775807) :
    r.markAlive = { sick := false, sickRate := 0, successRate := 0 } := by
  have hw : wrapInt64 (r.successRate + 1) = r.successRate + 1 := by
    apply wrapInt64_of_range
    · unfold minInt64; omega
    · unfold maxInt64; omega
  unfold RPCClient.markAlive
  simp only [hw]
  rw [if_pos (by omega)]

/-- C10 (counterexample): from the state reached by one success after start,
five further successes end with `successRate = 1`, not with both counters
zero. -/
theorem markAlive5_leaves_success_count :
    RPCClient.init.markAlive.markAlive5 = { sick := false, sickRate := 0, successRate := 1 } := by
  decide

/-- C10 (amended): `markSick` increments `sickRate` (in Go `int` arithmetic),
zeroes `successRate` and sets `sick` when the new `sickRate ≥ 5`, else leaves
it; `markAlive` increments `successRate` and, when the new value is `≥ 5`,
clears `sick` and zeroes both counters, else leaves `sick` and `sickRate`.
From the initial state five failures make the client sick. From any state
with `0 ≤ successRate < 2^63 - 1` five successes leave the client not sick
with `sickRate = 0`, and when `successRate = 0` at the start also with
`successRate = 0`. -/
theorem health_counters :
    (∀ r : RPCClient, r.markSick =
      { sick := if wrapInt64 (r.sickRate + 1) ≥ 5 then true else r.sick,
        sickRate := wrapInt64 (r.sickRate + 1), successRate := 0 }) ∧
    (∀ r : RPCClient, r.sickRate < maxInt64 → minInt64 ≤ r.sickRate →
      r.markSick.sickRate = r.sickRate + 1) ∧
    (∀ r : RPCClient, r.markAlive =
      if wrapInt64 (r.successRate + 1) ≥ 5 then { sick := false, sickRate := 0, successRate := 0 }
      else { sick := r.sick, sickRate := r.sickRate,
             successRate := wrapInt64 (r.successRate + 1) }) ∧
    RPCClient.init.markSick5.sick = true ∧
    (∀ r : RPCClient, 0 ≤ r.successRate → r.successRate < maxInt64 →
      r.markAlive5.sick = false ∧ r.markAlive5.sickRate = 0) ∧
    (∀ r : RPCClient, r.successRate = 0 →
      r.markAlive5 = { sick := false, sickRate := 0, successRate := 0 }) := by
  refine ⟨?_, ?_, ?_, by decide, ?_, ?_⟩
  · intro r
    unfold RPCClient.markSick
    by_cases h : wrapInt64 (r.sickRate + 1) ≥ 5 <;> simp [h]
  · intro r h1 h2
    have hw : wrapInt64 (r.sickRate + 1) = r.sickRate + 1 := by
      apply wrapInt64_of_range
      · unfold minInt64 at *; omega
      · unfold maxInt64 at *; omega
    simp only [RPCClient.markSick, hw]
    split_ifs <;> rfl
  · intro r
    unfold RPCClient.markAlive
    by_cases h : wrapInt64 (r.successRate + 1) ≥ 5 <;> simp [h]
  · intro r h0 hm
    rcases r with ⟨b, k, s⟩
    simp only at h0 hm
    unfold maxInt64 at hm
    by_cases c4 : 4 ≤ s
    · unfold RPCClient.markAlive5
      rw [markAlive_big ⟨b, k, s⟩ c4 hm]
      exact ⟨by decide, by decide⟩
    · have hs : s = 0 ∨ s = 1 ∨ s = 2 ∨ s = 3 := by omega
      rcases hs with rfl | rfl | rfl | rfl <;>
        simp [RPCClient.markAlive5, RPCClient.markAlive, wrapInt64]
  · intro r h0
    rcases r with ⟨b, k, s⟩
    simp only at h0
    subst h0
    simp [RPCClient.markAlive5, RPCClient.markAlive, wrapInt64]

/-- Witness for `health_counters`: a sick client with seven failures on
record is healthy, with both counters zero, after five successes. -/
theorem health_counters_witness :
    ({ sick := true, sickRate := 7, successRate := 0 } : RPCClient).markAlive5 =
      { sick := false, sickRate := 0, successRate := 0 } :=
  health_counters.2.2.2.2.2 { sick := true, sickRate := 7, successRate := 0 } rfl

/-! ## Share processing: recording -/

theorem fetchBlockTemplate_empty_work (reply : GetBlockReply)
    (stratumEnabled : List Bool) (t : Option BlockTemplate) :
    fetchBlockTemplate (some reply, none) ([], none) stratumEnabled t = none := by
  unfold fetchBlockTemplate fetchPendingBlock
  cases hd : setString10 reply.Difficulty <;> cases t <;> simp [hd]

/-- C11: for a submission whose header matches the template and that verifies
at share difficulty. If it does not verify at block difficulty, `processShare`
makes the two verifications and one `WriteShare` call, no `SubmitWork` call,
and returns `(exist, true, false)` with `exist` as `WriteShare` reported. If it
verifies at block difficulty and `SubmitWork` returns true without error,
`processShare` runs `fetchBlockTemplate` before anything is written: when that
call panics, or the template difficulty is nil, `processShare` panics and
`WriteBlock` is never reached; when it returns and the difficulty is not nil,
`WriteBlock` is called (no `WriteShare`) and the result is
`(exist, true, false)` with `exist` as `WriteBlock` reported. The refresh
panics whenever upstream answers `GetPendingBlock` with a block and `GetWork`
with an empty list (`reply[0]` is out of range). -/
theorem processShare_records (uni : Char → Char → Bool) (s : ProxyServer)
    (login id ip : String) (t : BlockTemplate) (p0 p1 p2 : String) (rest : List String)
    (s_id : Nat) (shareDiff : Int)
    (hs : s.stratumDifficulty[s_id]? = some shareDiff)
    (hh : equalFold uni t.Header p1 = true)
    (hshare : s.verify (shareTuple t shareDiff p0 p1 p2) = true) :
    (s.verify (blockTuple t p0 p1 p2) = false →
      processShare uni s login id ip (some t) (p0 :: p1 :: p2 :: rest) s_id =
        some (((s.writeShare login id (p0 :: p1 :: p2 :: rest) shareDiff t.Height
                  s.hashrateExpiration).1, true, false),
          [Event.verify (shareTuple t shareDiff p0 p1 p2),
           Event.verify (blockTuple t p0 p1 p2),
           Event.writeShare login id (p0 :: p1 :: p2 :: rest) shareDiff t.Height
             s.hashrateExpiration])) ∧
    (s.verify (blockTuple t p0 p1 p2) = true →
      s.submitWork (p0 :: p1 :: p2 :: rest) = (true, none) →
      ((s.fetchBlockTemplate = none ∨ t.Difficulty = none) →
        processShare uni s login id ip (some t) (p0 :: p1 :: p2 :: rest) s_id = none) ∧
      (∀ (stored : Option BlockTemplate) (calls : List FetchEvent) (difficulty : Int),
        s.fetchBlockTemplate = some (stored, calls) → t.Difficulty = some difficulty →
        processShare uni s login id ip (some t) (p0 :: p1 :: p2 :: rest) s_id =
          some (((s.writeBlock login id (p0 :: p1 :: p2 :: rest) shareDiff
                    (bigInt64 difficulty) t.Height s.hashrateExpiration).1, true, false),
            [Event.verify (shareTuple t shareDiff p0 p1 p2),
             Event.verify (blockTuple t p0 p1 p2),
             Event.submitWork (p0 :: p1 :: p2 :: rest),
             Event.fetchBlockTemplate calls,
             Event.writeBlock login id (p0 :: p1 :: p2 :: rest) shareDiff
               (bigInt64 difficulty) t.Height s.hashrateExpiration]))) ∧
    (∀ (reply : GetBlockReply),
      s.getPendingBlock = some (some reply, none) → s.getWork = some ([], none) →
      s.fetchBlockTemplate = none) := by
  unfold shareTuple at hshare
  refine ⟨?_, ?_, ?_⟩
  · intro hblock
    unfold blockTuple at hblock
    cases hw : (s.writeShare login id (p0 :: p1 :: p2 :: rest) shareDiff t.Height
        s.hashrateExpiration).1 <;>
      simp [processShare, hs, hh, hshare, hblock, hw, shareTuple, blockTuple]
  · intro hblock hsub
    unfold blockTuple at hblock
    constructor
    · intro hbad
      cases hf : s.fetchBlockTemplate with
      | none => simp [processShare, hs, hh, hshare, hblock, hsub, hf]
      | some r =>
        rcases hbad with h1 | h1
        · rw [hf] at h1
          cases h1
        · rw [h1] at hblock
          simp [processShare, hs, hh, hshare, hblock, hsub, hf, h1]
    · intro stored calls difficulty hf hd
      rw [hd] at hblock
      cases hw : (s.writeBlock login id (p0 :: p1 :: p2 :: rest) shareDiff
          (bigInt64 difficulty) t.Height s.hashrateExpiration).1 <;>
        simp [processShare, hs, hh, hshare, hblock, hsub, hf, hd, hw, shareTuple, blockTuple]
  · intro reply hp hw
    unfold ProxyServer.fetchBlockTemplate
    rw [hp, hw]
    exact fetchBlockTemplate_empty_work reply s.stratumEnabled s.blockTemplate

/-- Witness for `processShare_records`: a share below block difficulty is
written with `WriteShare`; a block found while `GetWork` answers with three
strings is written with `WriteBlock` after the refresh; a block found while
`GetWork` answers with an empty list makes `processShare` panic. -/
theorem processShare_records_witness :
    processShare noFold exServerShareOnly addrA "w1" "10.0.0.1" (some exTemplate)
        ("0x0000000000000001" :: hashLower :: mixHex :: []) 0 =
      some (((exServerShareOnly.writeShare addrA "w1"
                ("0x0000000000000001" :: hashLower :: mixHex :: []) 1000 exTemplate.Height
                exServerShareOnly.hashrateExpiration).1, true, false),
        [Event.verify (shareTuple exTemplate 1000 "0x0000000000000001" hashLower mixHex),
         Event.verify (blockTuple exTemplate "0x0000000000000001" hashLower mixHex),
         Event.writeShare addrA "w1" ("0x0000000000000001" :: hashLower :: mixHex :: []) 1000
           exTemplate.Height exServerShareOnly.hashrateExpiration]) ∧
    processShare noFold (exServerBlockFound exWork) addrA "w1" "10.0.0.1" (some exTemplate)
        ("0x0000000000000001" :: hashLower :: mixHex :: []) 0 =
      some ((false, true, false),
        [Event.verify (shareTuple exTemplate 1000 "0x0000000000000001" hashLower mixHex),
         Event.verify (blockTuple exTemplate "0x0000000000000001" hashLower mixHex),
         Event.submitWork ("0x0000000000000001" :: hashLower :: mixHex :: []),
         Event.fetchBlockTemplate [FetchEvent.getPendingBlock, FetchEvent.getWork],
         Event.writeBlock addrA "w1" ("0x0000000000000001" :: hashLower :: mixHex :: []) 1000
           (bigInt64 1000000000) exTemplate.Height 600]) ∧
    processShare noFold (exServerBlockFound []) addrA "w1" "10.0.0.1" (some exTemplate)
        ("0x0000000000000001" :: hashLower :: mixHex :: []) 0 = none :=
  ⟨(processShare_records noFold exServerShareOnly addrA "w1" "10.0.0.1" exTemplate
      "0x0000000000000001" hashLower mixHex [] 0 1000 (by decide) (by decide) (by decide)).1
      (by decide),
    ((processShare_records noFold (exServerBlockFound exWork) addrA "w1" "10.0.0.1" exTemplate
      "0x0000000000000001" hashLower mixHex [] 0 1000 (by decide) (by decide)
      (by decide)).2.1 (by decide) (by decide)).2 (some exTemplate)
      [FetchEvent.getPendingBlock, FetchEvent.getWork] 1000000000 (by decide) (by decide),
    ((processShare_records noFold (exServerBlockFound []) addrA "w1" "10.0.0.1" exTemplate
      "0x0000000000000001" hashLower mixHex [] 0 1000 (by decide) (by decide)
      (by decide)).2.1 (by decide) (by decide)).1
      (Or.inl ((processShare_records noFold (exServerBlockFound []) addrA "w1" "10.0.0.1"
        exTemplate "0x0000000000000001" hashLower mixHex [] 0 1000 (by decide) (by decide)
        (by decide)).2.2 exBlock rfl rfl))⟩

/-! ## Reward calculation: who is credited -/

theorem mapAdd_keys (m : List (String × Int)) (k : String) (v : Int) :
    ∀ x ∈ (mapAdd m k v).map Prod.fst, x ∈ m.map Prod.fst ∨ x = k := by
  induction m with
  | nil =>
    intro x hx
    simp only [mapAdd, List.map_cons, List.map_nil, List.mem_singleton] at hx
    exact Or.inr hx
  | cons p rest ih =>
    rcases p with ⟨k1, v1⟩
    intro x hx
    by_cases h : k1 = k
    · simp only [mapAdd, if_pos h, List.map_cons, List.mem_cons] at hx
      simp only [List.map_cons, List.mem_cons]
      rcases hx with hx | hx
      · exact Or.inl (Or.inl hx)
      · exact Or.inl (Or.inr hx)
    · simp only [mapAdd, if_neg h, List.map_cons, List.mem_cons] at hx
      simp only [List.map_cons, List.mem_cons]
      rcases hx with hx | hx
      · exact Or.inl (Or.inl hx)
      · rcases ih x hx with h1 | h1
        · exact Or.inl (Or.inr h1)
        · exact Or.inr h1

/-- Every key the loop adds is a valid address met in the shares. -/
theorem rewardsLoop_keys (total : Int) (reward : Frac) :
    ∀ (l acc r : List (String × Int)), rewardsLoop total reward l acc = some r →
      ∀ x ∈ r.map Prod.fst,
        x ∈ acc.map Prod.fst ∨ (x ∈ l.map Prod.fst ∧ IsValidHexAddress x = true) := by
  intro l
  induction l with
  | nil =>
    intro acc r h x hx
    simp only [rewardsLoop, Option.some.injEq] at h
    rw [← h] at hx
    exact Or.inl hx
  | cons p rest ih =>
    rcases p with ⟨k0, n0⟩
    intro acc r h x hx
    by_cases hv : IsValidHexAddress k0 = true
    · rw [rewardsLoop, if_pos hv] at h
      cases hn : newRat n0 total with
      | none => rw [hn] at h; cases h
      | some pct =>
        rw [hn] at h
        rcases ih _ r h x hx with h1 | ⟨h1, h2⟩
        · rcases mapAdd_keys acc k0 _ x h1 with h3 | h3
          · exact Or.inl h3
          · refine Or.inr ⟨?_, by rw [h3]; exact hv⟩
            rw [h3]
            exact List.mem_cons_self _ _
        · exact Or.inr ⟨List.mem_cons_of_mem _ h1, h2⟩
    · rw [rewardsLoop, if_neg hv] at h
      rcases ih acc r h x hx with h1 | ⟨h1, h2⟩
      · exact Or.inl h1
      · exact Or.inr ⟨List.mem_cons_of_mem _ h1, h2⟩

/-- The loop skips entries whose address is not valid, whatever their count. -/
theorem rewardsLoop_skips_invalid (total : Int) (reward : Frac) :
    ∀ (pre post acc : List (String × Int)) (addr : String) (n m : Int),
      IsValidHexAddress addr = false →
      rewardsLoop total reward (pre ++ (addr, n) :: post) acc =
        rewardsLoop total reward (pre ++ (addr, m) :: post) acc := by
  intro pre
  induction pre with
  | nil =>
    intro post acc addr n m hv
    have hv' : ¬ IsValidHexAddress addr = true := by rw [hv]; simp
    simp only [List.nil_append, rewardsLoop, if_neg hv']
  | cons p rest ih =>
    rcases p with ⟨k0, n0⟩
    intro post acc addr n m hv
    simp only [List.cons_append, rewardsLoop]
    by_cases hk : IsValidHexAddress k0 = true
    · simp only [if_pos hk]
      cases newRat n0 total with
      | none => rfl
      | some pct => exact ih post _ addr n m hv
    · simp only [if_neg hk]
      exact ih post acc addr n m hv

theorem rewardsLoop_total (total : Int) (reward : Frac) (ht : total ≠ 0) :
    ∀ (l acc : List (String × Int)), ∃ r, rewardsLoop total reward l acc = some r := by
  have hnr : ∀ n, ∃ pct, newRat n total = some pct := by
    intro n
    unfold newRat
    rw [if_neg ht]
    split_ifs
    · exact ⟨_, rfl⟩
    · exact ⟨_, rfl⟩
  intro l
  induction l with
  | nil => intro acc; exact ⟨acc, rfl⟩
  | cons p rest ih =>
    rcases p with ⟨k0, n0⟩
    intro acc
    by_cases hk : IsValidHexAddress k0 = true
    · obtain ⟨pct, hp⟩ := hnr n0
      obtain ⟨r, hr⟩ := ih (mapAdd acc k0 (ratToInt64 (reward.mul pct)))
      exact ⟨r, by rw [rewardsLoop, if_pos hk, hp]; exact hr⟩
    · obtain ⟨r, hr⟩ := ih acc
      exact ⟨r, by rw [rewardsLoop, if_neg hk]; exact hr⟩

/-- C12: every key of the map returned by `calculateRewardsForShares` is an
address of the shares that passes `IsValidHexAddress`, so an address failing
it never appears; replacing the count of a failing address leaves the whole
result unchanged; with a nonzero total a map is returned; and
`IsValidHexAddress` holds exactly for `M`, one of `[A-Z0-9]`, then 32 of
`[0-9a-zA-Z]`. -/
theorem calculateRewardsForShares_keys :
    (∀ (shares : List (String × Int)) (total : Int) (reward : Frac)
        (rewards : List (String × Int)),
      calculateRewardsForShares shares total reward = some rewards →
      ∀ addr, addr ∈ rewards.map Prod.fst →
        addr ∈ shares.map Prod.fst ∧ IsValidHexAddress addr = true) ∧
    (∀ (pre post : List (String × Int)) (total : Int) (reward : Frac) (addr : String)
        (n m : Int), IsValidHexAddress addr = false →
      calculateRewardsForShares (pre ++ (addr, n) :: post) total reward =
        calculateRewardsForShares (pre ++ (addr, m) :: post) total reward) ∧
    (∀ (shares : List (String × Int)) (total : Int) (reward : Frac), total ≠ 0 →
      ∃ rewards, calculateRewardsForShares shares total reward = some rewards) ∧
    (∀ s : String, IsValidHexAddress s = true ↔
      ∃ c rest, s.data = 'M' :: c :: rest ∧ (isUpperChar c = true ∨ isDigitChar c = true) ∧
        rest.length = 32 ∧
        ∀ a ∈ rest, isDigitChar a = true ∨ isLowerChar a = true ∨ isUpperChar a = true) := by
  refine ⟨?_, ?_, ?_, ?_⟩
  · intro shares total reward rewards h addr hmem
    rcases rewardsLoop_keys total reward shares [] rewards h addr hmem with h1 | h1
    · simp at h1
    · exact h1
  · intro pre post total reward addr n m hv
    exact rewardsLoop_skips_invalid total reward pre post [] addr n m hv
  · intro shares total reward ht
    exact rewardsLoop_total total reward ht shares []
  · intro s
    unfold IsValidHexAddress
    constructor
    · intro h
      cases hm : addressPatternMatch s.data with
      | false => simp [hm] at h
      | true =>
        match hs : s.data, hm with
        | m :: c :: rest, hm =>
          simp only [addressPatternMatch, Bool.and_eq_true, decide_eq_true_eq,
            Bool.or_eq_true, List.all_eq_true] at hm
          obtain ⟨⟨⟨h1, h2⟩, h3⟩, h4⟩ := hm
          exact ⟨c, rest, by rw [h1], h2, h3, fun a ha => or_assoc.mp (h4 a ha)⟩
    · rintro ⟨c, rest, hs, h2, h3, h4⟩
      have hm : addressPatternMatch s.data = true := by
        rw [hs]
        simp only [addressPatternMatch, Bool.and_eq_true, decide_eq_true_eq,
          Bool.or_eq_true, List.all_eq_true]
        exact ⟨⟨⟨trivial, h2⟩, h3⟩, fun a ha => or_assoc.mpr (h4 a ha)⟩
      simp [hm]

/-- Witness for `calculateRewardsForShares_keys`: changing the count of an
address that fails the predicate does not change the result. -/
theorem calculateRewardsForShares_keys_witness :
    calculateRewardsForShares ([(addrA, 50)] ++ ("0xnotanaddress", 30) :: [(addrB, 20)]) 100
        ⟨990000, 1⟩ =
      calculateRewardsForShares ([(addrA, 50)] ++ ("0xnotanaddress", 7) :: [(addrB, 20)]) 100
        ⟨990000, 1⟩ :=
  calculateRewardsForShares_keys.2.1 [(addrA, 50)] [(addrB, 20)] 100 ⟨990000, 1⟩
    "0xnotanaddress" 30 7 (by decide)

/-! ## Identity check: the nonce comparison -/

theorem digitVal_sign : digitVal '+' = none ∧ digitVal '-' = none := by
  decide

theorem parseUintLoop_le (base : Nat) : ∀ (s : List Char) (n : Nat), n ≤ maxUint64 →
    (parseUintLoop base s n).1 ≤ maxUint64 := by
  intro s
  induction s with
  | nil => intro n hn; exact hn
  | cons c cs ih =>
    intro n hn
    rw [parseUintLoop]
    cases digitVal c with
    | none => exact Nat.zero_le _
    | some d =>
      simp only
      split_ifs with h1 h2 h3
      · exact Nat.zero_le _
      · exact Nat.le_refl _
      · exact Nat.le_refl _
      · exact ih _ (by omega)

/-- On a string that `ParseUint` reads without error, `ParseInt` returns the
same number saturated at the largest `int64`. -/
theorem parseIntChars_of_parseUintChars (base : Nat) (s : List Char) (u : Nat)
    (h : parseUintChars base s = (u, none)) :
    (parseIntChars base s).1 = if 9223372036854775808 ≤ u then maxInt64 else (u : Int) := by
  cases s with
  | nil => simp [parseUintChars] at h
  | cons c cs =>
    have hplus : c ≠ '+' := by
      intro hc
      rw [hc] at h
      simp [parseUintChars, parseUintLoop, digitVal_sign.1] at h
    have hminus : c ≠ '-' := by
      intro hc
      rw [hc] at h
      simp [parseUintChars, parseUintLoop, digitVal_sign.2] at h
    have hu : u ≤ maxUint64 := by
      have h2 := parseUintLoop_le base (c :: cs) 0 (Nat.zero_le _)
      simp only [parseUintChars] at h
      rw [h] at h2
      exact h2
    unfold parseIntChars
    simp only [hplus, hminus, or_self, if_false, h, decide_False]
    unfold maxUint64 at hu
    by_cases hb : 9223372036854775808 ≤ u
    · simp [hb]
    · have hw : wrapInt64 (u : Int) = (u : Int) := by
        unfold wrapInt64
        omega
      simp [hb, hw]

/-- C15 (code at the failing input, and its extent): for a block without
transactions and a candidate without hash, when the on-chain nonce reads as
the unsigned decimal number `b` and the candidate nonce, `0x` removed, as the
unsigned hexadecimal number `a`, `matchCandidate` accepts exactly when
`a = b` or both are at least `2^63 - 1`: `ParseInt` saturates every nonce from
`2^63` on to the largest `int64`, `2^63 - 1`. -/
theorem matchCandidate_nonce_saturates (uni : Char → Char → Bool) (cfg : UnlockerConfig)
    (block : GetBlockReply) (candidate : BlockData) (a b : Nat)
    (htx : block.Transactions = []) (hhash : candidate.Hash = "")
    (hb : parseUint 10 block.Nonce = (b, none))
    (ha : parseUint 16 (strip0x candidate.Nonce) = (a, none)) :
    matchCandidate uni cfg block candidate = true ↔
      (a = b ∨ (9223372036854775807 ≤ a ∧ 9223372036854775807 ≤ b)) := by
  have h1 := parseIntChars_of_parseUintChars 10 block.Nonce.data b hb
  have h2 := parseIntChars_of_parseUintChars 16 (strip0x candidate.Nonce).data a ha
  have hlen : ¬ candidate.Hash.length > 0 := by rw [hhash]; decide
  unfold matchCandidate
  simp only [htx, hlen, parseInt, h1, h2, decide_False, Bool.false_and]
  unfold maxInt64
  by_cases ca : 9223372036854775808 ≤ a <;> by_cases cb : 9223372036854775808 ≤ b <;>
    simp [ca, cb] <;> omega

/-- Witness for `matchCandidate_nonce_saturates`: candidate nonce
`0xffffffffffffffff` (pattern-conforming, `2^64 - 1`) is accepted against the
on-chain nonce `9223372036854775808` (`2^63`). -/
theorem matchCandidate_nonce_saturates_witness :
    noncePatternMatch "0xffffffffffffffff" = true ∧
    matchCandidate noFold (exConfig 32 16 ⟨1, 1⟩ false)
      { exBlock with Nonce := "9223372036854775808", Transactions := [] }
      { exCandidate with Nonce := "0xffffffffffffffff" } = true :=
  ⟨by decide,
   (matchCandidate_nonce_saturates noFold (exConfig 32 16 ⟨1, 1⟩ false)
      { exBlock with Nonce := "9223372036854775808", Transactions := [] }
      { exCandidate with Nonce := "0xffffffffffffffff" } 18446744073709551615
      9223372036854775808 rfl rfl (by decide) (by decide)).mpr
      (Or.inr ⟨by decide, by decide⟩)⟩

/-! ## Template refresh -/

/-- C16 (code at the failing input, and in general): when upstream returns a
pending block without error, `fetchPendingBlock` returns a nil error whether
or not the difficulty string parses; and when `GetWork` then returns a header
different from the current one, `fetchBlockTemplate` stores a new template
whose `Difficulty` is the parsed difficulty, or nil when the string does not
parse, and whose `Height` is the pending block's number, or 0 when the string
does not parse. -/
theorem fetchBlockTemplate_stores (reply : GetBlockReply) (h sd tg : String)
    (rest : List String) (stratumEnabled : List Bool) (t : Option BlockTemplate)
    (ht : ∀ cur, t = some cur → cur.Header ≠ h) :
    fetchPendingBlock (some reply, none) =
      some ((refreshedTemplate reply h sd tg).GetPendingBlockCache,
        (refreshedTemplate reply h sd tg).Height,
        (refreshedTemplate reply h sd tg).Difficulty, none) ∧
    fetchBlockTemplate (some reply, none) (h :: sd :: tg :: rest, none) stratumEnabled t =
      some (some (refreshedTemplate reply h sd tg),
        [FetchEvent.getPendingBlock, FetchEvent.getWork,
         FetchEvent.store (refreshedTemplate reply h sd tg)]
          ++ broadcastEvents stratumEnabled 0) := by
  unfold refreshedTemplate
  cases hd : setString10 reply.Difficulty with
  | none =>
    refine ⟨by simp [fetchPendingBlock, hd], ?_⟩
    cases t with
    | none => simp [fetchBlockTemplate, fetchPendingBlock, hd]
    | some cur =>
      have := ht cur rfl
      simp [fetchBlockTemplate, fetchPendingBlock, hd, this]
  | some d =>
    refine ⟨by simp [fetchPendingBlock, hd], ?_⟩
    cases t with
    | none => simp [fetchBlockTemplate, fetchPendingBlock, hd]
    | some cur =>
      have := ht cur rfl
      simp [fetchBlockTemplate, fetchPendingBlock, hd, this]

/-- Witness for `fetchBlockTemplate_stores`: the pending block's difficulty is
`abc`; no error is returned and the template stored has a nil difficulty and
height 0. -/
theorem fetchBlockTemplate_stores_witness :
    setString10 exPendingBadDifficulty.Difficulty = none ∧
    fetchPendingBlock (some exPendingBadDifficulty, none) = some (none, 0, none, none) ∧
    fetchBlockTemplate (some exPendingBadDifficulty, none) (exWork, none) [true]
        (some exStored) =
      some (some { Header := hashLower, Seed := "0x01", Target := "0x02", Difficulty := none,
                   Height := 0, GetPendingBlockCache := none },
        [FetchEvent.getPendingBlock, FetchEvent.getWork,
         FetchEvent.store { Header := hashLower, Seed := "0x01", Target := "0x02",
                            Difficulty := none, Height := 0, GetPendingBlockCache := none },
         FetchEvent.broadcastNewJobs 0]) :=
  ⟨by decide, by decide,
   (fetchBlockTemplate_stores exPendingBadDifficulty hashLower "0x01" "0x02" [] [true]
      (some exStored) (by intro cur hc; cases hc; decide)).2⟩

/-! ## The halt latch -/

theorem latched_refl (u : BlockUnlocker) (tr : List UEvent) : Latched u tr u tr :=
  ⟨[], by simp, Or.inr ⟨rfl, by simp⟩⟩

theorem latched_halted (u v : BlockUnlocker) (tr new : List UEvent) (e : Err) :
    Latched u tr (v.halted e) (tr ++ new) :=
  ⟨new, rfl, Or.inl rfl⟩

theorem latched_prepend (u u1 : BlockUnlocker) (tr pre tr1 : List UEvent)
    (hpre : ∀ e ∈ pre, e.checkedFailure = false)
    (h : Latched u (tr ++ pre) u1 tr1) : Latched u tr u1 tr1 := by
  obtain ⟨new, hnew, hcase⟩ := h
  refine ⟨pre ++ new, by rw [hnew, List.append_assoc], ?_⟩
  rcases hcase with hh | ⟨hu, hall⟩
  · exact Or.inl hh
  · refine Or.inr ⟨hu, ?_⟩
    intro e he
    rcases List.mem_append.mp he with h1 | h1
    · exact hpre e h1
    · exact hall e h1

theorem calculateRewards_ok_no_error (cfg : UnlockerConfig)
    (g : Int → String → List (String × Int) × Option Err) (block : BlockData)
    (rr : RoundRewards) (h : calculateRewards cfg g block = some (Except.ok rr)) :
    (g block.RoundHeight block.Nonce).2 = none := by
  unfold calculateRewards at h
  cases hr : block.Reward with
  | none => rw [hr] at h; simp at h
  | some r =>
    rw [hr] at h
    simp only at h
    rcases hg : g block.RoundHeight block.Nonce with ⟨shares, err⟩
    cases err with
    | none => rfl
    | some e =>
      rw [hg] at h
      simp at h

theorem creditLoop_latched (env : UnlockerEnv)
    (write : Nat → BlockData → List (String × Int) → Option Err)
    (mkCall : BlockData → List (String × Int) → UCall) :
    ∀ (blocks : List BlockData) (u : BlockUnlocker) (tr : List UEvent)
      (u1 : BlockUnlocker) (tr1 : List UEvent),
      creditLoop env write mkCall blocks u tr = some (u1, tr1) → Latched u tr u1 tr1 := by
  intro blocks
  induction blocks with
  | nil =>
    intro u tr u1 tr1 h
    simp only [creditLoop, Option.some.injEq, Prod.mk.injEq] at h
    rw [← h.1, ← h.2]
    exact latched_refl u tr
  | cons block rest ih =>
    intro u tr u1 tr1 h
    rw [creditLoop] at h
    cases hc : calculateRewards u.config (env.getRoundShares tr.length) block with
    | none => rw [hc] at h; simp at h
    | some res =>
      rw [hc] at h
      cases res with
      | error err =>
        simp only [Option.some.injEq, Prod.mk.injEq] at h
        rw [← h.1, ← h.2]
        exact latched_halted u u tr _ err
      | ok rr =>
        have hno := calculateRewards_ok_no_error _ _ _ _ hc
        simp only at h
        generalize hw : write _ block rr.rewards = w at h
        cases w with
        | some err =>
          simp only [Option.some.injEq, Prod.mk.injEq] at h
          rw [← h.1, ← h.2, List.append_assoc]
          exact latched_halted u u tr _ err
        | none =>
          simp only at h
          have h2 := ih u _ u1 tr1 h
          rw [List.append_assoc] at h2
          refine latched_prepend u u1 tr _ tr1 ?_ h2
          intro e he
          simp only [List.cons_append, List.nil_append, List.mem_cons, List.mem_singleton,
            List.not_mem_nil, or_false] at he
          rcases he with he | he
          · rw [he]
            simp [UEvent.checkedFailure, hno]
          · rw [he]
            simp [UEvent.checkedFailure]

theorem writeOrphansLoop_clean (env : UnlockerEnv) :
    ∀ (blocks : List BlockData) (tr : List UEvent) (err : Option Err) (tr1 : List UEvent),
      writeOrphansLoop env blocks tr = (err, tr1) →
      ∃ new, tr1 = tr ++ new ∧ (err = none → ∀ e ∈ new, e.checkedFailure = false) := by
  intro blocks
  induction blocks with
  | nil =>
    intro tr err tr1 h
    simp only [writeOrphansLoop, Prod.mk.injEq] at h
    exact ⟨[], by rw [← h.2]; simp, by simp⟩
  | cons block rest ih =>
    intro tr err tr1 h
    rw [writeOrphansLoop] at h
    generalize hw : env.writeOrphan tr.length block = w at h
    cases w with
    | some e =>
      simp only [Prod.mk.injEq] at h
      refine ⟨_, h.2.symm, ?_⟩
      intro hnone
      rw [← h.1] at hnone
      cases hnone
    | none =>
      simp only at h
      obtain ⟨new, hnew, hclean⟩ := ih _ err tr1 h
      refine ⟨_ :: new, by rw [hnew, List.append_assoc]; rfl, ?_⟩
      intro hnone e he
      rcases List.mem_cons.mp he with h1 | h1
      · rw [h1]
        simp [UEvent.checkedFailure]
      · exact hclean hnone e h1

theorem unlockCandidatesLoop_clean (uni : Char → Char → Bool) (env : UnlockerEnv) :
    ∀ (cands : List BlockData) (u : BlockUnlocker) (res : UnlockResult) (tr : List UEvent)
      (u1 : BlockUnlocker) (r : Except Err UnlockResult) (tr1 : List UEvent),
      unlockCandidatesLoop uni env cands u res tr = some (u1, r, tr1) →
      ∃ new, tr1 = tr ++ new ∧
        ∀ result, r = Except.ok result → u1 = u ∧ ∀ e ∈ new, e.checkedFailure = false := by
  intro cands
  induction cands with
  | nil =>
    intro u res tr u1 r tr1 h
    simp only [unlockCandidatesLoop, Option.some.injEq, Prod.mk.injEq] at h
    refine ⟨[], by rw [← h.2.2]; simp, ?_⟩
    intro result _
    exact ⟨h.1.symm, by simp⟩
  | cons c rest ih =>
    intro u res tr u1 r tr1 h
    rw [unlockCandidatesLoop] at h
    simp only at h
    generalize hl : env.getBlockByHeight tr.length c.Height = lookup at h
    rcases lookup with ⟨blk, err⟩
    cases err with
    | some e =>
      simp only [Option.some.injEq, Prod.mk.injEq] at h
      refine ⟨_, h.2.2.symm, ?_⟩
      intro result hr
      rw [← h.2.1] at hr
      cases hr
    | none =>
      cases blk with
      | none =>
        simp only [Option.some.injEq, Prod.mk.injEq] at h
        refine ⟨_, h.2.2.symm, ?_⟩
        intro result hr
        rw [← h.2.1] at hr
        cases hr
      | some block =>
        simp only at h
        by_cases hm : matchCandidate uni u.config block c = true
        · simp only [hm, if_true] at h
          generalize hh : handleBlock u.config (env.getBlockTxs _) block c = hb at h
          cases hb with
          | none => simp at h
          | some pr =>
            rcases pr with ⟨c1, herr⟩
            cases herr with
            | some e =>
              simp only [Option.some.injEq, Prod.mk.injEq] at h
              refine ⟨_, by rw [← h.2.2, List.append_assoc], ?_⟩
              intro result hr
              rw [← h.2.1] at hr
              cases hr
            | none =>
              simp only at h
              obtain ⟨new, hnew, hclean⟩ := ih _ _ _ u1 r tr1 h
              refine ⟨_, by rw [hnew, List.append_assoc, List.append_assoc], ?_⟩
              intro result hr
              obtain ⟨hu, hall⟩ := hclean result hr
              refine ⟨hu, ?_⟩
              intro e he
              simp only [List.cons_append, List.nil_append, List.mem_cons] at he
              rcases he with h1 | h1 | h1
              · rw [h1]; simp [UEvent.checkedFailure]
              · rw [h1]; simp [UEvent.checkedFailure, UCall.isBlockTxs]
              · exact hall e h1
        · simp only [hm] at h
          obtain ⟨new, hnew, hclean⟩ := ih _ _ _ u1 r tr1 h
          refine ⟨_, by rw [hnew, List.append_assoc], ?_⟩
          intro result hr
          obtain ⟨hu, hall⟩ := hclean result hr
          refine ⟨hu, ?_⟩
          intro e he
          simp only [List.cons_append, List.nil_append, List.mem_cons] at he
          rcases he with h1 | h1
          · rw [h1]; simp [UEvent.checkedFailure]
          · exact hall e h1

theorem unlockPendingBlocks_latched (uni : Char → Char → Bool) (env : UnlockerEnv)
    (u : BlockUnlocker) (tr : List UEvent) (u1 : BlockUnlocker) (tr1 : List UEvent)
    (h : unlockPendingBlocks uni env u tr = some (u1, tr1)) : Latched u tr u1 tr1 := by
  unfold unlockPendingBlocks at h
  by_cases hh : u.halt = true
  · simp only [hh, if_true, Option.some.injEq, Prod.mk.injEq] at h
    rw [← h.1, ← h.2]
    exact latched_refl u tr
  · rw [if_neg hh] at h
    simp only at h
    generalize hp : env.getPendingBlock tr.length = pending at h
    rcases pending with ⟨cur, err⟩
    cases err with
    | some e =>
      simp only [Option.some.injEq, Prod.mk.injEq] at h
      rw [← h.1, ← h.2]
      exact latched_halted u u tr _ e
    | none =>
      cases cur with
      | none => simp at h
      | some current =>
        simp only at h
        generalize hf : env.getCandidates _ _ = fetched at h
        rcases fetched with ⟨cands, err2⟩
        cases err2 with
        | some e =>
          simp only [Option.some.injEq, Prod.mk.injEq] at h
          rw [← h.1, ← h.2, List.append_assoc]
          exact latched_halted u u tr _ e
        | none =>
          simp only at h
          have hpre : ∀ e ∈ [({ call := UCall.getPendingBlock, failed := false } : UEvent),
              { call := UCall.getCandidates
                  (wrapInt64 (wrapInt64 (current.Number : Int) - u.config.ImmatureDepth)),
                failed := false }], e.checkedFailure = false := by
            intro e he
            simp only [List.mem_cons, List.mem_singleton, List.not_mem_nil, or_false] at he
            rcases he with h1 | h1 <;> rw [h1] <;> simp [UEvent.checkedFailure]
          by_cases hlen : cands.length = 0
          · simp only [hlen, if_true, Option.some.injEq, Prod.mk.injEq] at h
            rw [← h.1, ← h.2, List.append_assoc]
            exact latched_prepend u u tr _ _ hpre (latched_refl u _)
          · simp only [hlen, if_false] at h
            generalize hc : unlockCandidates uni env u cands _ = uc at h
            cases uc with
            | none => simp at h
            | some triple =>
              rcases triple with ⟨u3, r, tr3⟩
              obtain ⟨new, hnew, hclean⟩ :=
                unlockCandidatesLoop_clean uni env cands u _ _ u3 r tr3 hc
              cases r with
              | error e =>
                simp only [Option.some.injEq, Prod.mk.injEq] at h
                rw [← h.1, ← h.2, hnew, List.append_assoc, List.append_assoc]
                exact latched_halted u u3 tr _ e
              | ok result =>
                obtain ⟨hu3, hall⟩ := hclean result rfl
                simp only at h
                generalize hw : env.writePendingOrphans tr3.length result.orphanedBlocks = w at h
                cases w with
                | some e =>
                  simp only [Option.some.injEq, Prod.mk.injEq] at h
                  rw [← h.1, ← h.2, hnew, List.append_assoc, List.append_assoc,
                    List.append_assoc]
                  exact latched_halted u u3 tr _ e
                | none =>
                  simp only at h
                  have hl := creditLoop_latched env _ _ _ _ _ _ _ h
                  rw [hu3, hnew, List.append_assoc, List.append_assoc, List.append_assoc] at hl
                  refine latched_prepend u u1 tr _ tr1 ?_ hl
                  intro e he
                  simp only [List.cons_append, List.nil_append, List.mem_cons,
                    List.mem_append, List.mem_singleton, List.not_mem_nil, or_false] at he
                  rcases he with h1 | h1 | h1 | h1
                  · rw [h1]; simp [UEvent.checkedFailure]
                  · rw [h1]; simp [UEvent.checkedFailure]
                  · exact hall e h1
                  · rw [h1]; simp [UEvent.checkedFailure]

theorem unlockAndCreditMiners_latched (uni : Char → Char → Bool) (env : UnlockerEnv)
    (u : BlockUnlocker) (tr : List UEvent) (u1 : BlockUnlocker) (tr1 : List UEvent)
    (h : unlockAndCreditMiners uni env u tr = some (u1, tr1)) : Latched u tr u1 tr1 := by
  unfold unlockAndCreditMiners at h
  by_cases hh : u.halt = true
  · simp only [hh, if_true, Option.some.injEq, Prod.mk.injEq] at h
    rw [← h.1, ← h.2]
    exact latched_refl u tr
  · rw [if_neg hh] at h
    simp only at h
    generalize hp : env.getPendingBlock tr.length = pending at h
    rcases pending with ⟨cur, err⟩
    cases err with
    | some e =>
      simp only [Option.some.injEq, Prod.mk.injEq] at h
      rw [← h.1, ← h.2]
      exact latched_halted u u tr _ e
    | none =>
      cases cur with
      | none => simp at h
      | some current =>
        simp only at h
        generalize hf : env.getImmatureBlocks _ _ = fetched at h
        rcases fetched with ⟨cands, err2⟩
        cases err2 with
        | some e =>
          simp only [Option.some.injEq, Prod.mk.injEq] at h
          rw [← h.1, ← h.2, List.append_assoc]
          exact latched_halted u u tr _ e
        | none =>
          simp only at h
          have hpre : ∀ e ∈ [({ call := UCall.getPendingBlock, failed := false } : UEvent),
              { call := UCall.getImmatureBlocks
                  (wrapInt64 (wrapInt64 (current.Number : Int) - u.config.Depth)),
                failed := false }], e.checkedFailure = false := by
            intro e he
            simp only [List.mem_cons, List.mem_singleton, List.not_mem_nil, or_false] at he
            rcases he with h1 | h1 <;> rw [h1] <;> simp [UEvent.checkedFailure]
          by_cases hlen : cands.length = 0
          · simp only [hlen, if_true, Option.some.injEq, Prod.mk.injEq] at h
            rw [← h.1, ← h.2, List.append_assoc]
            exact latched_prepend u u tr _ _ hpre (latched_refl u _)
          · simp only [hlen, if_false] at h
            generalize hc : unlockCandidates uni env u cands _ = uc at h
            cases uc with
            | none => simp at h
            | some triple =>
              rcases triple with ⟨u3, r, tr3⟩
              obtain ⟨new, hnew, hclean⟩ :=
                unlockCandidatesLoop_clean uni env cands u _ _ u3 r tr3 hc
              cases r with
              | error e =>
                simp only [Option.some.injEq, Prod.mk.injEq] at h
                rw [← h.1, ← h.2, hnew, List.append_assoc, List.append_assoc]
                exact latched_halted u u3 tr _ e
              | ok result =>
                obtain ⟨hu3, hall⟩ := hclean result rfl
                simp only at h
                generalize hw : writeOrphansLoop env result.orphanedBlocks tr3 = w at h
                rcases w with ⟨werr, tr4⟩
                obtain ⟨new2, hnew2, hclean2⟩ := writeOrphansLoop_clean env _ _ _ _ hw
                cases werr with
                | some e =>
                  simp only [Option.some.injEq, Prod.mk.injEq] at h
                  rw [← h.1, ← h.2, hnew2, hnew, List.append_assoc, List.append_assoc,
                    List.append_assoc]
                  exact latched_halted u u3 tr _ e
                | none =>
                  simp only at h
                  have hl := creditLoop_latched env _ _ _ _ _ _ _ h
                  rw [hu3, hnew2, hnew, List.append_assoc, List.append_assoc,
                    List.append_assoc] at hl
                  refine latched_prepend u u1 tr _ tr1 ?_ hl
                  intro e he
                  simp only [List.cons_append, List.nil_append, List.mem_cons,
                    List.mem_append, List.mem_singleton, List.not_mem_nil, or_false] at he
                  rcases he with h1 | h1 | h1 | h1
                  · rw [h1]; simp [UEvent.checkedFailure]
                  · rw [h1]; simp [UEvent.checkedFailure]
                  · exact hall e h1
                  · exact hclean2 rfl e h1

/-- C13: a halted unlocker stays halted and does nothing: both passes return
the state and the trace unchanged, with no call made. Whenever a pass returns,
it has only appended calls, the halt flag is set if it was set before, and it
is set if any appended call other than `GetBlockTxs` returned an error
(pending-block fetch, candidate or immature fetch, block lookup of
`unlockCandidates`, orphan write, round-shares read of `calculateRewards`,
immature or matured write). The error of `GetBlockTxs` is dropped inside
`handleBlock`: with `KeepTxFees` the candidate is promoted with a nil
`ExtraReward` and no error is returned, without it the nil amount makes
`reward.Add` panic. -/
theorem halt_latches (uni : Char → Char → Bool) (env : UnlockerEnv) :
    (∀ (u : BlockUnlocker) (tr : List UEvent), u.halt = true →
      unlockPendingBlocks uni env u tr = some (u, tr) ∧
      unlockAndCreditMiners uni env u tr = some (u, tr)) ∧
    (∀ (u : BlockUnlocker) (tr : List UEvent) (u1 : BlockUnlocker) (tr1 : List UEvent),
      (unlockPendingBlocks uni env u tr = some (u1, tr1) ∨
        unlockAndCreditMiners uni env u tr = some (u1, tr1)) →
      ∃ new, tr1 = tr ++ new ∧ (u.halt = true → u1.halt = true) ∧
        ((∃ e ∈ new, e.failed = true ∧ e.call.isBlockTxs = false) → u1.halt = true)) ∧
    (∀ (cfg : UnlockerConfig) (g : Nat → Option GetBlockReply × Option Err)
        (block : GetBlockReply) (c : BlockData) (r : Option GetBlockReply) (err : Err),
      g block.Number = (r, some err) →
      handleBlock cfg g block c =
        if cfg.KeepTxFees then
          some ({ c with ExtraReward := none, Height := wrapInt64 (block.Number : Int),
                         Orphan := false, Hash := block.Hash,
                         Reward := some (blockSubsidy block.Number) }, none)
        else none) := by
  refine ⟨?_, ?_, ?_⟩
  · intro u tr hh
    constructor
    · unfold unlockPendingBlocks
      rw [if_pos hh]
    · unfold unlockAndCreditMiners
      rw [if_pos hh]
  rotate_left
  · intro cfg g block c r err hg
    unfold handleBlock getExtraRewardForTx
    simp only [hg]
    by_cases hk : cfg.KeepTxFees = true
    · simp [hk]
    · simp [hk]
  · intro u tr u1 tr1 h
    have hl : Latched u tr u1 tr1 := by
      rcases h with h | h
      · exact unlockPendingBlocks_latched uni env u tr u1 tr1 h
      · exact unlockAndCreditMiners_latched uni env u tr u1 tr1 h
    obtain ⟨new, hnew, hcase⟩ := hl
    refine ⟨new, hnew, ?_, ?_⟩
    · intro hh
      rcases hcase with h1 | ⟨h1, _⟩
      · exact h1
      · rw [h1]; exact hh
    · rintro ⟨e, he, hf, hc⟩
      rcases hcase with h1 | ⟨_, hall⟩
      · exact h1
      · have := hall e he
        simp [UEvent.checkedFailure, hf, hc] at this

theorem halt_latches_witness :
    ((unlockPendingBlocks noFold exEnvStoreDown { exUnlocker with halt := true } [] =
        some ({ exUnlocker with halt := true }, []) ∧
      unlockAndCreditMiners noFold exEnvStoreDown { exUnlocker with halt := true } [] =
        some ({ exUnlocker with halt := true }, [])) ∧
    ∃ new : List UEvent,
      [{ call := UCall.getPendingBlock, failed := false },
       { call := UCall.getCandidates 184, failed := true }] = [] ++ new ∧
      (exUnlocker.halt = true → (exUnlocker.halted ⟨"connection refused"⟩).halt = true) ∧
      ((∃ e ∈ new, e.failed = true ∧ e.call.isBlockTxs = false) →
        (exUnlocker.halted ⟨"connection refused"⟩).halt = true)) ∧
    (unlockPendingBlocks noFold exEnvTxsDown exUnlockerKeep []).map
        (fun r => (r.1.halt, r.2.filter (fun e => e.failed))) =
      some (false, [{ call := UCall.getBlockTxs 100, failed := true }]) :=
  ⟨⟨(halt_latches noFold exEnvStoreDown).1 { exUnlocker with halt := true } [] rfl,
    (halt_latches noFold exEnvStoreDown).2.1 exUnlocker []
      (exUnlocker.halted ⟨"connection refused"⟩)
      [{ call := UCall.getPendingBlock, failed := false },
       { call := UCall.getCandidates 184, failed := true }]
      (Or.inl (by decide))⟩, by decide⟩

/-! ## Unlocking candidates -/

theorem handleBlock_of_coinbase (cfg : UnlockerConfig) (txs : Nat → GetBlockReply)
    (block : GetBlockReply) (c : BlockData)
    (h : hasCoinbase (txs block.Number) = true) :
    ∃ b, handleBlock cfg (fun n => (some (txs n), none)) block c = some (b, none) ∧
      b.Orphan = false := by
  unfold hasCoinbase at h
  unfold handleBlock getExtraRewardForTx
  simp only
  cases ht : (txs block.Number).Transactions with
  | nil => rw [ht] at h; simp at h
  | cons tx rest =>
    rw [ht] at h
    simp only at h
    cases ho : tx.Outputs with
    | nil => rw [ho] at h; simp at h
    | cons out outs =>
      by_cases hk : cfg.KeepTxFees = true
      · simp [ho, hk]
      · simp [ho, hk]

theorem handleBlock_no_coinbase (cfg : UnlockerConfig) (txs : Nat → GetBlockReply)
    (block : GetBlockReply) (c : BlockData)
    (h : hasCoinbase (txs block.Number) = false) :
    handleBlock cfg (fun n => (some (txs n), none)) block c = none := by
  unfold hasCoinbase at h
  unfold handleBlock getExtraRewardForTx
  simp only
  cases ht : (txs block.Number).Transactions with
  | nil => simp
  | cons tx rest =>
    rw [ht] at h
    simp only at h
    cases ho : tx.Outputs with
    | nil => simp [ho]
    | cons out outs => rw [ho] at h; simp at h

theorem unlockCandidatesLoop_spec (uni : Char → Char → Bool) (env : UnlockerEnv)
    (u : BlockUnlocker) (chain : Int → GetBlockReply) (txs : Nat → GetBlockReply)
    (hl : ∀ n h, env.getBlockByHeight n h = (some (chain h), none))
    (ht : ∀ n h, env.getBlockTxs n h = (some (txs h), none)) :
    ∀ (cands : List BlockData) (res : UnlockResult) (tr : List UEvent),
      ((∃ c ∈ cands, matchCandidate uni u.config (chain c.Height) c = true ∧
          hasCoinbase (txs (chain c.Height).Number) = false) →
        unlockCandidatesLoop uni env cands u res tr = none) ∧
      ((∀ c ∈ cands, matchCandidate uni u.config (chain c.Height) c = true →
          hasCoinbase (txs (chain c.Height).Number) = true) →
        ∃ ms new,
          unlockCandidatesLoop uni env cands u res tr =
            some (u, Except.ok
              { maturedBlocks := res.maturedBlocks ++ ms,
                orphanedBlocks := res.orphanedBlocks ++
                  (failingCandidates uni u.config chain cands).map
                    (fun c => { c with Orphan := true }),
                orphans := res.orphans + ((failingCandidates uni u.config chain cands).length : Int),
                uncles := res.uncles,
                blocks := res.blocks + (ms.length : Int) }, tr ++ new) ∧
          (∀ e ∈ new, e.call.isCredit = false) ∧
          List.Forall₂ (Promoted u.config chain txs)
            (passingCandidates uni u.config chain cands) ms) := by
  have htf : ∀ n, env.getBlockTxs n = fun h => (some (txs h), none) := fun n => funext (ht n)
  intro cands
  induction cands with
  | nil =>
    intro res tr
    constructor
    · rintro ⟨c, hc, _⟩
      cases hc
    · intro _
      refine ⟨[], [], ?_, by simp, ?_⟩
      · simp [unlockCandidatesLoop, failingCandidates]
      · simp [passingCandidates]
  | cons c rest ih =>
    intro res tr
    rw [unlockCandidatesLoop]
    simp only [hl, htf]
    by_cases hm : matchCandidate uni u.config (chain c.Height) c = true
    · rw [if_pos hm]
      cases hcb : hasCoinbase (txs (chain c.Height).Number) with
      | false =>
        rw [handleBlock_no_coinbase u.config txs (chain c.Height) c hcb]
        constructor
        · intro _
          rfl
        · intro hall
          have := hall c (List.mem_cons_self c rest) hm
          rw [hcb] at this
          cases this
      | true =>
        obtain ⟨b, hb, hbo⟩ := handleBlock_of_coinbase u.config txs (chain c.Height) c hcb
        rw [hb]
        simp only
        obtain ⟨ih1, ih2⟩ := ih
          { res with blocks := res.blocks + 1, maturedBlocks := res.maturedBlocks ++ [b] }
          (tr ++ [{ call := UCall.getBlockByHeight c.Height, failed := false }] ++
            [{ call := UCall.getBlockTxs (chain c.Height).Number, failed := false }])
        constructor
        · rintro ⟨c1, hc1, hm1, hn1⟩
          rcases List.mem_cons.mp hc1 with h1 | h1
          · rw [h1, hcb] at hn1
            cases hn1
          · exact ih1 ⟨c1, h1, hm1, hn1⟩
        · intro hall
          obtain ⟨ms, new, heq, hnew, hf⟩ :=
            ih2 (fun c1 hc1 => hall c1 (List.mem_cons_of_mem c hc1))
          refine ⟨b :: ms, [{ call := UCall.getBlockByHeight c.Height, failed := false },
            { call := UCall.getBlockTxs (chain c.Height).Number, failed := false }] ++ new,
            ?_, ?_, ?_⟩
          · simp only [Option.isSome_none] at heq ⊢
            rw [heq]
            simp [failingCandidates, hm, List.filter_cons]
            omega
          · intro e he
            simp only [List.cons_append, List.nil_append, List.mem_cons] at he
            rcases he with h1 | h1 | h1
            · rw [h1]; rfl
            · rw [h1]; rfl
            · exact hnew e h1
          · simp only [passingCandidates, List.filter_cons, hm, if_true]
            exact List.Forall₂.cons ⟨hb, hbo⟩ hf
    · rw [if_neg hm]
      obtain ⟨ih1, ih2⟩ := ih
        { res with orphans := res.orphans + 1,
                   orphanedBlocks := res.orphanedBlocks ++ [{ c with Orphan := true }] }
        (tr ++ [{ call := UCall.getBlockByHeight c.Height, failed := false }])
      constructor
      · rintro ⟨c1, hc1, hm1, hn1⟩
        rcases List.mem_cons.mp hc1 with h1 | h1
        · rw [h1] at hm1
          exact absurd hm1 hm
        · exact ih1 ⟨c1, h1, hm1, hn1⟩
      · intro hall
        obtain ⟨ms, new, heq, hnew, hf⟩ :=
          ih2 (fun c1 hc1 => hall c1 (List.mem_cons_of_mem c hc1))
        refine ⟨ms, [{ call := UCall.getBlockByHeight c.Height, failed := false }] ++ new,
          ?_, ?_, ?_⟩
        · simp only [Option.isSome_none] at heq ⊢
          rw [heq]
          simp [failingCandidates, hm, List.filter_cons]
          omega
        · intro e he
          simp only [List.cons_append, List.nil_append, List.mem_cons] at he
          rcases he with h1 | h1
          · rw [h1]; rfl
          · exact hnew e h1
        · simp only [passingCandidates, List.filter_cons, hm]
          exact hf

theorem promoted_of_mem (uni : Char → Char → Bool) (cfg : UnlockerConfig)
    (chain : Int → GetBlockReply) (txs : Nat → GetBlockReply) :
    ∀ (l : List BlockData) (ms : List BlockData),
      List.Forall₂ (Promoted cfg chain txs) l ms →
      (∀ c ∈ l, matchCandidate uni cfg (chain c.Height) c = true) →
      ∀ b ∈ ms, ∃ c, matchCandidate uni cfg (chain c.Height) c = true ∧
        Promoted cfg chain txs c b := by
  intro l ms h
  induction h with
  | nil =>
    intro _ b hb
    cases hb
  | cons hab _ ih =>
    intro hall b hb
    rcases List.mem_cons.mp hb with h1 | h1
    · rw [h1]
      exact ⟨_, hall _ (List.mem_cons_self _ _), hab⟩
    · exact ih (fun c hc => hall c (List.mem_cons_of_mem _ hc)) b h1

theorem creditLoop_credits (env : UnlockerEnv)
    (write : Nat → BlockData → List (String × Int) → Option Err)
    (mkCall : BlockData → List (String × Int) → UCall)
    (hmk : ∀ b rw, (mkCall b rw).creditsBlock b) :
    ∀ (blocks : List BlockData) (u : BlockUnlocker) (tr : List UEvent)
      (u1 : BlockUnlocker) (tr1 : List UEvent),
      creditLoop env write mkCall blocks u tr = some (u1, tr1) →
      ∃ new, tr1 = tr ++ new ∧ ∀ e ∈ new, ∃ b ∈ blocks, e.call.creditsBlock b := by
  intro blocks
  induction blocks with
  | nil =>
    intro u tr u1 tr1 h
    simp only [creditLoop, Option.some.injEq, Prod.mk.injEq] at h
    exact ⟨[], by rw [← h.2]; simp, by simp⟩
  | cons block rest ih =>
    intro u tr u1 tr1 h
    rw [creditLoop] at h
    simp only at h
    have hshares : (UCall.getRoundShares block.RoundHeight block.Nonce).creditsBlock block :=
      Or.inl rfl
    generalize hc : calculateRewards u.config (env.getRoundShares tr.length) block = cr at h
    cases cr with
    | none => simp at h
    | some r =>
      cases r with
      | error err =>
        simp only [Option.some.injEq, Prod.mk.injEq] at h
        refine ⟨_, h.2.symm, ?_⟩
        intro e he
        rw [List.mem_singleton] at he
        exact ⟨block, List.mem_cons_self _ _, by rw [he]; exact hshares⟩
      | ok rr =>
        simp only at h
        generalize hw : write _ block rr.rewards = w at h
        cases w with
        | some err =>
          simp only [Option.some.injEq, Prod.mk.injEq] at h
          refine ⟨_, by rw [← h.2, List.append_assoc], ?_⟩
          intro e he
          simp only [List.cons_append, List.nil_append, List.mem_cons, List.not_mem_nil,
            or_false] at he
          rcases he with h1 | h1
          · exact ⟨block, List.mem_cons_self _ _, by rw [h1]; exact hshares⟩
          · exact ⟨block, List.mem_cons_self _ _, by rw [h1]; exact hmk block rr.rewards⟩
        | none =>
          simp only at h
          obtain ⟨new, hnew, hall⟩ := ih _ _ u1 tr1 h
          refine ⟨_, by rw [hnew, List.append_assoc, List.append_assoc], ?_⟩
          intro e he
          simp only [List.cons_append, List.nil_append, List.mem_cons] at he
          rcases he with h1 | h1 | h1
          · exact ⟨block, List.mem_cons_self _ _, by rw [h1]; exact hshares⟩
          · exact ⟨block, List.mem_cons_self _ _, by rw [h1]; exact hmk block rr.rewards⟩
          · obtain ⟨b, hb, hcb⟩ := hall e h1
            exact ⟨b, List.mem_cons_of_mem _ hb, hcb⟩

theorem writeOrphansLoop_no_credit (env : UnlockerEnv) :
    ∀ (blocks : List BlockData) (tr : List UEvent),
      ∃ new, (writeOrphansLoop env blocks tr).2 = tr ++ new ∧
        ∀ e ∈ new, e.call.isCredit = false := by
  intro blocks
  induction blocks with
  | nil =>
    intro tr
    exact ⟨[], by simp [writeOrphansLoop], by simp⟩
  | cons block rest ih =>
    intro tr
    rw [writeOrphansLoop]
    generalize hw : env.writeOrphan tr.length block = w
    cases w with
    | some err =>
      refine ⟨_, rfl, ?_⟩
      intro e he
      rw [List.mem_singleton] at he
      rw [he]; rfl
    | none =>
      simp only
      obtain ⟨new, hnew, hall⟩ := ih (tr ++ [{ call := UCall.writeOrphan block, failed := false }])
      refine ⟨[{ call := UCall.writeOrphan block, failed := false }] ++ new, ?_, ?_⟩
      · simp only [Option.isSome_none]
        rw [hnew, List.append_assoc]
      · intro e he
        simp only [List.cons_append, List.nil_append, List.mem_cons] at he
        rcases he with h1 | h1
        · rw [h1]; rfl
        · exact hall e h1

theorem unlockPendingBlocks_credits (uni : Char → Char → Bool) (env : UnlockerEnv)
    (u : BlockUnlocker) (chain : Int → GetBlockReply) (txs : Nat → GetBlockReply)
    (hl : ∀ n h, env.getBlockByHeight n h = (some (chain h), none))
    (ht : ∀ n h, env.getBlockTxs n h = (some (txs h), none))
    (tr : List UEvent) (u1 : BlockUnlocker) (tr1 : List UEvent)
    (h : unlockPendingBlocks uni env u tr = some (u1, tr1)) :
    ∃ new, tr1 = tr ++ new ∧ ∀ e ∈ new, e.call.isCredit = true →
      ∃ c b, matchCandidate uni u.config (chain c.Height) c = true ∧
        Promoted u.config chain txs c b ∧ e.call.creditsBlock b := by
  unfold unlockPendingBlocks at h
  by_cases hh : u.halt = true
  · rw [if_pos hh] at h
    simp only [Option.some.injEq, Prod.mk.injEq] at h
    exact ⟨[], by rw [← h.2]; simp, by simp⟩
  · rw [if_neg hh] at h
    simp only at h
    generalize hp : env.getPendingBlock tr.length = pending at h
    rcases pending with ⟨cur, perr⟩
    cases perr with
    | some e0 =>
      simp only [Option.some.injEq, Prod.mk.injEq] at h
      refine ⟨_, h.2.symm, ?_⟩
      intro e he hc
      rw [List.mem_singleton] at he
      rw [he] at hc
      cases hc
    | none =>
      cases cur with
      | none => simp at h
      | some current =>
        simp only at h
        generalize hf : env.getCandidates _ _ = fetched at h
        rcases fetched with ⟨cands, ferr⟩
        cases ferr with
        | some e0 =>
          simp only [Option.some.injEq, Prod.mk.injEq] at h
          refine ⟨_, by rw [← h.2, List.append_assoc], ?_⟩
          intro e he hc
          simp only [List.cons_append, List.nil_append, List.mem_cons, List.not_mem_nil,
            or_false] at he
          rcases he with h1 | h1
          · rw [h1] at hc; cases hc
          · rw [h1] at hc; cases hc
        | none =>
          simp only at h
          by_cases hlen : cands.length = 0
          · rw [if_pos hlen] at h
            simp only [Option.some.injEq, Prod.mk.injEq] at h
            refine ⟨_, by rw [← h.2, List.append_assoc], ?_⟩
            intro e he hc
            simp only [List.cons_append, List.nil_append, List.mem_cons, List.not_mem_nil,
              or_false] at he
            rcases he with h1 | h1
            · rw [h1] at hc; cases hc
            · rw [h1] at hc; cases hc
          · rw [if_neg hlen] at h
            unfold unlockCandidates at h
            by_cases hall : ∀ c ∈ cands, matchCandidate uni u.config (chain c.Height) c = true →
                hasCoinbase (txs (chain c.Height).Number) = true
            · obtain ⟨ms, new, heq, hnc, hfa⟩ :=
                (unlockCandidatesLoop_spec uni env u chain txs hl ht cands UnlockResult.empty
                  _).2 hall
              rw [heq] at h
              simp only at h
              have hpass : ∀ c ∈ passingCandidates uni u.config chain cands,
                  matchCandidate uni u.config (chain c.Height) c = true := by
                intro c hc
                exact (List.mem_filter.mp hc).2
              have hprom := promoted_of_mem uni u.config chain txs _ _ hfa hpass
              generalize hw : env.writePendingOrphans _ _ = w at h
              cases w with
              | some e0 =>
                simp only [Option.some.injEq, Prod.mk.injEq] at h
                refine ⟨_, by rw [← h.2, List.append_assoc, List.append_assoc,
                  List.append_assoc], ?_⟩
                intro e he hc
                simp only [List.cons_append, List.nil_append, List.mem_cons, List.mem_append,
                  List.mem_singleton, List.not_mem_nil, or_false] at he
                rcases he with h1 | h1 | h1 | h1
                · rw [h1] at hc; cases hc
                · rw [h1] at hc; cases hc
                · rw [hnc e h1] at hc; cases hc
                · rw [h1] at hc; cases hc
              | none =>
                simp only at h
                obtain ⟨new2, hnew2, hcred⟩ :=
                  creditLoop_credits env env.writeImmatureBlock UCall.writeImmatureBlock
                    (fun b rw => Or.inr ⟨rw, Or.inl rfl⟩) _ _ _ u1 tr1 h
                refine ⟨_, by rw [hnew2, List.append_assoc, List.append_assoc,
                  List.append_assoc, List.append_assoc], ?_⟩
                intro e he hc
                simp only [List.cons_append, List.nil_append, List.mem_cons, List.mem_append,
                  List.mem_singleton, List.not_mem_nil, or_false] at he
                rcases he with h1 | h1 | h1 | h1 | h1
                · rw [h1] at hc; cases hc
                · rw [h1] at hc; cases hc
                · rw [hnc e h1] at hc; cases hc
                · rw [h1] at hc; cases hc
                · obtain ⟨b, hb, hcb⟩ := hcred e h1
                  simp only [UnlockResult.empty, List.nil_append] at hb
                  obtain ⟨c, hm, hpr⟩ := hprom b hb
                  exact ⟨c, b, hm, hpr, hcb⟩
            · have hbad : ∃ c ∈ cands, matchCandidate uni u.config (chain c.Height) c = true ∧
                  hasCoinbase (txs (chain c.Height).Number) = false := by
                by_contra hno
                apply hall
                intro c hc hm
                cases hcb : hasCoinbase (txs (chain c.Height).Number) with
                | true => rfl
                | false => exact absurd ⟨c, hc, hm, hcb⟩ hno
              rw [(unlockCandidatesLoop_spec uni env u chain txs hl ht cands UnlockResult.empty
                _).1 hbad] at h
              simp at h

theorem unlockAndCreditMiners_credits (uni : Char → Char → Bool) (env : UnlockerEnv)
    (u : BlockUnlocker) (chain : Int → GetBlockReply) (txs : Nat → GetBlockReply)
    (hl : ∀ n h, env.getBlockByHeight n h = (some (chain h), none))
    (ht : ∀ n h, env.getBlockTxs n h = (some (txs h), none))
    (tr : List UEvent) (u1 : BlockUnlocker) (tr1 : List UEvent)
    (h : unlockAndCreditMiners uni env u tr = some (u1, tr1)) :
    ∃ new, tr1 = tr ++ new ∧ ∀ e ∈ new, e.call.isCredit = true →
      ∃ c b, matchCandidate uni u.config (chain c.Height) c = true ∧
        Promoted u.config chain txs c b ∧ e.call.creditsBlock b := by
  unfold unlockAndCreditMiners at h
  by_cases hh : u.halt = true
  · rw [if_pos hh] at h
    simp only [Option.some.injEq, Prod.mk.injEq] at h
    exact ⟨[], by rw [← h.2]; simp, by simp⟩
  · rw [if_neg hh] at h
    simp only at h
    generalize hp : env.getPendingBlock tr.length = pending at h
    rcases pending with ⟨cur, perr⟩
    cases perr with
    | some e0 =>
      simp only [Option.some.injEq, Prod.mk.injEq] at h
      refine ⟨_, h.2.symm, ?_⟩
      intro e he hc
      rw [List.mem_singleton] at he
      rw [he] at hc
      cases hc
    | none =>
      cases cur with
      | none => simp at h
      | some current =>
        simp only at h
        generalize hf : env.getImmatureBlocks _ _ = fetched at h
        rcases fetched with ⟨cands, ferr⟩
        cases ferr with
        | some e0 =>
          simp only [Option.some.injEq, Prod.mk.injEq] at h
          refine ⟨_, by rw [← h.2, List.append_assoc], ?_⟩
          intro e he hc
          simp only [List.cons_append, List.nil_append, List.mem_cons, List.not_mem_nil,
            or_false] at he
          rcases he with h1 | h1
          · rw [h1] at hc; cases hc
          · rw [h1] at hc; cases hc
        | none =>
          simp only at h
          by_cases hlen : cands.length = 0
          · rw [if_pos hlen] at h
            simp only [Option.some.injEq, Prod.mk.injEq] at h
            refine ⟨_, by rw [← h.2, List.append_assoc], ?_⟩
            intro e he hc
            simp only [List.cons_append, List.nil_append, List.mem_cons, List.not_mem_nil,
              or_false] at he
            rcases he with h1 | h1
            · rw [h1] at hc; cases hc
            · rw [h1] at hc; cases hc
          · rw [if_neg hlen] at h
            unfold unlockCandidates at h
            by_cases hall : ∀ c ∈ cands, matchCandidate uni u.config (chain c.Height) c = true →
                hasCoinbase (txs (chain c.Height).Number) = true
            · obtain ⟨ms, new, heq, hnc, hfa⟩ :=
                (unlockCandidatesLoop_spec uni env u chain txs hl ht cands UnlockResult.empty
                  _).2 hall
              rw [heq] at h
              simp only at h
              have hpass : ∀ c ∈ passingCandidates uni u.config chain cands,
                  matchCandidate uni u.config (chain c.Height) c = true := by
                intro c hc
                exact (List.mem_filter.mp hc).2
              have hprom := promoted_of_mem uni u.config chain txs _ _ hfa hpass
              generalize hw : writeOrphansLoop env _ _ = w at h
              obtain ⟨new1, hnew1, hnc1⟩ : ∃ new1, w.2 = _ ++ new1 ∧
                  ∀ e ∈ new1, e.call.isCredit = false := by
                rw [← hw]
                exact writeOrphansLoop_no_credit env _ _
              rcases w with ⟨werr, tr4⟩
              simp only at hnew1
              cases werr with
              | some e0 =>
                simp only [Option.some.injEq, Prod.mk.injEq] at h
                refine ⟨_, by rw [← h.2, hnew1, List.append_assoc, List.append_assoc,
                  List.append_assoc], ?_⟩
                intro e he hc
                simp only [List.cons_append, List.nil_append, List.mem_cons, List.mem_append,
                  List.mem_singleton, List.not_mem_nil, or_false] at he
                rcases he with h1 | h1 | h1 | h1
                · rw [h1] at hc; cases hc
                · rw [h1] at hc; cases hc
                · rw [hnc e h1] at hc; cases hc
                · rw [hnc1 e h1] at hc; cases hc
              | none =>
                simp only at h
                obtain ⟨new2, hnew2, hcred⟩ :=
                  creditLoop_credits env env.writeMaturedBlock UCall.writeMaturedBlock
                    (fun b rw => Or.inr ⟨rw, Or.inr rfl⟩) _ _ _ u1 tr1 h
                refine ⟨_, by rw [hnew2, hnew1, List.append_assoc, List.append_assoc,
                  List.append_assoc, List.append_assoc], ?_⟩
                intro e he hc
                simp only [List.cons_append, List.nil_append, List.mem_cons, List.mem_append,
                  List.mem_singleton, List.not_mem_nil, or_false] at he
                rcases he with h1 | h1 | h1 | h1 | h1
                · rw [h1] at hc; cases hc
                · rw [h1] at hc; cases hc
                · rw [hnc e h1] at hc; cases hc
                · rw [hnc1 e h1] at hc; cases hc
                · obtain ⟨b, hb, hcb⟩ := hcred e h1
                  simp only [UnlockResult.empty, List.nil_append] at hb
                  obtain ⟨c, hm, hpr⟩ := hprom b hb
                  exact ⟨c, b, hm, hpr, hcb⟩
            · have hbad : ∃ c ∈ cands, matchCandidate uni u.config (chain c.Height) c = true ∧
                  hasCoinbase (txs (chain c.Height).Number) = false := by
                by_contra hno
                apply hall
                intro c hc hm
                cases hcb : hasCoinbase (txs (chain c.Height).Number) with
                | true => rfl
                | false => exact absurd ⟨c, hc, hm, hcb⟩ hno
              rw [(unlockCandidatesLoop_spec uni env u chain txs hl ht cands UnlockResult.empty
                _).1 hbad] at h
              simp at h

/-- C14: with every `GetBlockByHeight` and `GetBlockTxs` lookup answered by a
non-null block and no error, `unlockCandidates` panics when some candidate
passes the identity check and the block `GetBlockTxs` returns for it has no
coinbase output, so that no candidate reaches either list. When every passing
candidate has a coinbase output it returns a result whose orphaned list is the
failing candidates with `Orphan = true`, whose matured list is what
`handleBlock` makes of the passing candidates (`Orphan = false`), both in
input order, with `blocks` and `orphans` counting the two lists and summing to
the number of candidates. And in every pass that returns, each round-shares
read and each immature or matured write is made for a record `handleBlock`
made of a candidate that passed the identity check. -/
theorem unlockCandidates_partition (uni : Char → Char → Bool) (env : UnlockerEnv)
    (u : BlockUnlocker) (chain : Int → GetBlockReply) (txs : Nat → GetBlockReply)
    (cands : List BlockData) (tr : List UEvent)
    (hl : ∀ n h, env.getBlockByHeight n h = (some (chain h), none))
    (ht : ∀ n h, env.getBlockTxs n h = (some (txs h), none)) :
    ((∃ c ∈ cands, matchCandidate uni u.config (chain c.Height) c = true ∧
        hasCoinbase (txs (chain c.Height).Number) = false) →
      unlockCandidates uni env u cands tr = none) ∧
    ((∀ c ∈ cands, matchCandidate uni u.config (chain c.Height) c = true →
        hasCoinbase (txs (chain c.Height).Number) = true) →
      ∃ res tr1, unlockCandidates uni env u cands tr = some (u, Except.ok res, tr1) ∧
        res.orphanedBlocks =
          (failingCandidates uni u.config chain cands).map (fun c => { c with Orphan := true }) ∧
        List.Forall₂ (Promoted u.config chain txs)
          (passingCandidates uni u.config chain cands) res.maturedBlocks ∧
        res.blocks = (res.maturedBlocks.length : Int) ∧
        res.orphans = (res.orphanedBlocks.length : Int) ∧
        res.blocks + res.orphans = (cands.length : Int)) ∧
    (∀ (u1 : BlockUnlocker) (tr1 : List UEvent),
      (unlockPendingBlocks uni env u tr = some (u1, tr1) ∨
        unlockAndCreditMiners uni env u tr = some (u1, tr1)) →
      ∃ new, tr1 = tr ++ new ∧ ∀ e ∈ new, e.call.isCredit = true →
        ∃ c b, matchCandidate uni u.config (chain c.Height) c = true ∧
          Promoted u.config chain txs c b ∧ e.call.creditsBlock b) := by
  refine ⟨?_, ?_, ?_⟩
  · intro hbad
    exact (unlockCandidatesLoop_spec uni env u chain txs hl ht cands UnlockResult.empty tr).1 hbad
  · intro hall
    obtain ⟨ms, new, heq, _, hfa⟩ :=
      (unlockCandidatesLoop_spec uni env u chain txs hl ht cands UnlockResult.empty tr).2 hall
    refine ⟨_, _, heq, ?_, ?_, ?_, ?_, ?_⟩
    · simp [UnlockResult.empty]
    · simpa [UnlockResult.empty] using hfa
    · simp [UnlockResult.empty]
    · simp [UnlockResult.empty]
    · have h1 := hfa.length_eq
      have h2 := List.length_eq_length_filter_add (l := cands)
        (fun c => matchCandidate uni u.config (chain c.Height) c)
      simp only [passingCandidates] at h1
      simp only [UnlockResult.empty, failingCandidates, zero_add]
      omega
  · intro u1 tr1 h
    rcases h with h | h
    · exact unlockPendingBlocks_credits uni env u chain txs hl ht tr u1 tr1 h
    · exact unlockAndCreditMiners_credits uni env u chain txs hl ht tr u1 tr1 h

theorem unlockCandidates_partition_witness :
    unlockCandidates noFold (exEnv (exHeader "1") (exHeader "1")) exUnlocker
        [exCandidate] [] = none ∧
      ∃ res tr1,
        unlockCandidates noFold (exEnv (exHeader "2") exBlock) exUnlocker [exCandidate] [] =
          some (exUnlocker, Except.ok res, tr1) ∧
        res.orphanedBlocks =
          (failingCandidates noFold exUnlocker.config (fun _ => exHeader "2")
            [exCandidate]).map (fun c => { c with Orphan := true }) ∧
        List.Forall₂ (Promoted exUnlocker.config (fun _ => exHeader "2") (fun _ => exBlock))
          (passingCandidates noFold exUnlocker.config (fun _ => exHeader "2") [exCandidate])
          res.maturedBlocks ∧
        res.blocks = (res.maturedBlocks.length : Int) ∧
        res.orphans = (res.orphanedBlocks.length : Int) ∧
        res.blocks + res.orphans = (([exCandidate] : List BlockData).length : Int) :=
  ⟨(unlockCandidates_partition noFold (exEnv (exHeader "1") (exHeader "1")) exUnlocker
      (fun _ => exHeader "1") (fun _ => exHeader "1") [exCandidate] []
      (fun _ _ => rfl) (fun _ _ => rfl)).1
      ⟨exCandidate, List.mem_cons_self _ _, by decide, by decide⟩,
    (unlockCandidates_partition noFold (exEnv (exHeader "2") exBlock) exUnlocker
      (fun _ => exHeader "2") (fun _ => exBlock) [exCandidate] []
      (fun _ _ => rfl) (fun _ _ => rfl)).2.1
      (by
        intro c hc
        rw [List.mem_singleton] at hc
        rw [hc]
        decide)⟩

end Pool
